import Mathlib

/-!
# Redirect engine of postman-request (`lib/redirect.js`)

A shallow embedding of `lib/redirect.js`: the engine state (`Redirect`), the part of the
request object the engine reads and writes (`Request`), and the three operations
`onRequest`, `redirectTo` and `onResponse` (with its inner `processRedirect`).

Conventions of the embedding

* JavaScript objects are records; `delete x.f` sets an `Option` field to `none`.
* Calls that leave the engine (`callback`, `response.resume`, `request.emit`,
  `request.init`) are recorded, in program order, in a list of `Event`s.
* `request.debug(...)` only prints and is left out.
* `request.init(options)` is recorded as the event `init options`; of `init` itself only
  its call of `onRequest` is part of this development (`reinit`).
* `request.headers` is an object whenever the engine runs (`init` assigns it), so the test
  `request.headers &&` of `processRedirect` is always passed.
* Flags of the engine are booleans: the code reads them for truthiness only.
* The URL parser and the authentication helper are collaborators of the request and are
  fields of `Request`; a call that throws returns `none`.
* Asynchronous deliveries (a callback invoked later, a promise settling) are recorded at
  the point where their continuation runs.
-/

namespace PostmanRequest

/-! ## JavaScript values -/

/-- The JavaScript values an admission predicate can hand to the engine. The engine
observes only truthiness and whether the value is a string. -/
inductive JSValue where
  | undefined
  | null
  | bool (b : Bool)
  | num (n : Int)
  | str (s : String)
  | obj
  deriving DecidableEq, Repr

/-- JavaScript truthiness (`!!v`). -/
def JSValue.truthy : JSValue → Bool
  | .undefined => false
  | .null => false
  | .bool b => b
  | .num n => decide (n ≠ 0)
  | .str s => decide (s ≠ "")
  | .obj => true

/-- A JavaScript `Error`, identified by its message. -/
structure Error where
  message : String
  deriving DecidableEq, Repr

/-! ## Header maps -/

/-- Lower-casing of a header name (`String.prototype.toLowerCase` on ASCII names). -/
def lower (s : String) : String := ⟨s.data.map Char.toLower⟩

/-- A header object: its own keys, in insertion order, with their values. -/
abbrev Headers := List (String × String)

/-- Modelled from the spec: the `caseless` header map (an external package, bound to the
request by `caseless.httpify` in `init` and to the response as `response.caseless`):
headers are case-insensitive, ordered and unique by normalized key. `has` returns the stored
spelling of the first key that matches `name` case-insensitively. -/
def Headers.has (h : Headers) (name : String) : Option String :=
  (h.find? (fun kv => lower kv.1 == lower name)).map (fun kv => kv.1)

/-- Modelled from the spec: `caseless` lookup, the value stored under a key that matches
`name` case-insensitively (the last one when several spellings are stored). -/
def Headers.get (h : Headers) (name : String) : Option String :=
  (h.filter (fun kv => lower kv.1 == lower name)).getLast?.map (fun kv => kv.2)

/-- Modelled from the spec: `caseless` assignment with clobbering, the value replaces the
one stored under the existing spelling of `name`, or is added under `name` itself. -/
def Headers.set (h : Headers) (name value : String) : Headers :=
  match h.has name with
  | some k => h.map (fun kv => if kv.1 = k then (kv.1, value) else kv)
  | none => h ++ [(name, value)]

/-- Modelled from the spec: `caseless` deletion, every key that matches `name`
case-insensitively is removed. -/
def Headers.del (h : Headers) (name : String) : Headers :=
  h.filter (fun kv => !(lower kv.1 == lower name))

/-! ## URLs -/

/-- The fields of a parsed URL object that the engine and `init` read. `toString` is what
`String(uri)` yields (`"[object Object]"` for the legacy `url.parse` objects); `host` is
the host with its port, `port` the port as a string. -/
structure Uri where
  href : String
  protocol : Option String := none
  hostname : Option String := none
  toString : String := "[object Object]"
  host : Option String := none
  port : Option String := none
  deriving DecidableEq, Repr

/-- The value of the `redirectTo` variable: a string (a `Location` value, an override, a
resolved URL) or the current URL object (the 401 re-send). -/
inductive Target where
  | str (s : String)
  | uri (u : Uri)
  deriving DecidableEq, Repr

/-- Truthiness of a candidate (`!redirectTo`): only the empty string is falsy. -/
def Target.truthy : Target → Bool
  | .str s => decide (s ≠ "")
  | .uri _ => true

/-- The collaborator `request.urlParser`: `parse` and `resolve`, `none` standing for a
thrown exception. -/
structure UrlParser where
  parse : Target → Option Uri
  resolve : String → Target → Option String

/-- The regular expression `var isUrl = /^https?:/` applied to a string. -/
def isUrlString (s : String) : Bool :=
  "http:".data.isPrefixOf s.data || "https:".data.isPrefixOf s.data

/-- The test `isUrl.test(redirectTo)`: a non-string argument is converted to a string
first. -/
def isUrl (t : Target) : Bool :=
  match t with
  | .str s => isUrlString s
  | .uri u => isUrlString u.toString

/-! ## Responses, forms, requests -/

/-- An incoming response: status code, header object, and whether `response.resume` is
defined. -/
structure Response where
  statusCode : Nat
  headers : Headers := []
  resume : Bool := true
  deriving DecidableEq, Repr

/-- A value of a form-data field. `stream` is a value whose `pipe` is a function, with
whether it has an own `fd` property and its `path`; `reopened path` is the stream made by
`fs.createReadStream(path)`; `plain` is any other value. -/
inductive FormValue where
  | plain (v : String)
  | stream (ownFd : Bool) (path : Option String)
  | reopened (path : String)
  deriving DecidableEq, Repr

/-- One entry `{key, value, options}` of a form-data list. -/
structure FormParam where
  key : String
  value : FormValue
  options : Option String := none
  deriving DecidableEq, Repr

/-- The part of `request._form` the engine inspects: `_released` and the number of pending
`_streams` (`none` when the property is missing). -/
structure Form where
  _released : Bool := false
  _streams : Option Nat := none
  deriving DecidableEq, Repr

/-- The request object as far as the redirect engine, the abort path and the Host step of
`init` read or write it. Objects held by reference (`agent`, `src`, `req`, `response`,
`timeoutTimer`) are numbers that identify them. -/
structure Request where
  method : String := "GET"
  uri : Uri
  headers : Headers := []
  body : Option String := none
  _form : Option Form := none
  _multipart : Option String := none
  formData : Option (List (Option FormParam)) := none
  agent : Option Nat := none
  src : Option Nat := none
  req : Option Nat := none
  _started : Option Bool := none
  urlParser : UrlParser
  _auth : Response → Option String := fun _ => none
  response : Option Nat := none
  timeoutTimer : Option Nat := none
  _aborted : Bool := false
  _ended : Bool := false
  setHost : JSValue := .undefined
  originalHostHeaderName : Option String := none

/-- The method `request.setHeader(name, value)` as installed by `caseless.httpify`. -/
def Request.setHeader (r : Request) (name value : String) : Request :=
  { r with headers := r.headers.set name value }

/-- The method `request.removeHeader(name)` as installed by `caseless.httpify`. -/
def Request.removeHeader (r : Request) (name : String) : Request :=
  { r with headers := r.headers.del name }

/-! ## The admission predicate -/

/-- A promise-like value returned by the admission predicate, by how it settles. -/
inductive Thenable where
  | resolved (v : JSValue)
  | rejected (e : Error)
  | pending
  deriving DecidableEq, Repr

/-- What a call of the admission predicate returns. -/
inductive PredReturn where
  | value (v : JSValue)
  | thenable (p : Thenable)
  | throws (e : Error)
  deriving DecidableEq, Repr

/-- The admission predicate `allowRedirect`: its declared number of parameters (`length`),
what a call returns, and the calls `(err, result)` it makes to the callback it is given as
second argument. -/
structure AllowRedirect where
  length : Nat := 0
  returns : Request → Response → PredReturn := fun _ _ => .value (.bool true)
  delivers : Request → Response → List (Option Error × JSValue) := fun _ _ => []

/-! ## The engine -/

/-- An entry of `redirects`. -/
structure RedirectRecord where
  statusCode : Nat
  redirectUri : Target
  deriving DecidableEq, Repr

/-- The state of a `Redirect` object; the defaults are the constructor's. -/
structure Redirect where
  followRedirect : Bool := true
  followRedirects : Bool := true
  followAllRedirects : Bool := false
  followOriginalHttpMethod : Bool := false
  followAuthorizationHeader : Bool := false
  allowRedirect : AllowRedirect := {}
  maxRedirects : Int := 10
  redirects : List RedirectRecord := []
  redirectsFollowed : Nat := 0
  removeRefererHeader : Bool := false
  allowInsecureRedirect : Bool := false

/-- The options object of `init`, as far as `onRequest` and `init` read what the engine
writes; `none` is `undefined`. `followRedirect` is a boolean or a predicate function. -/
structure Options where
  maxRedirects : Option Int := none
  followRedirect : Option (Bool ⊕ AllowRedirect) := none
  followAllRedirects : Option Bool := none
  removeRefererHeader : Option Bool := none
  followOriginalHttpMethod : Option Bool := none
  followAuthorizationHeader : Option Bool := none
  allowInsecureRedirect : Option Bool := none
  formData : Option (List FormParam) := none

/-- A `Redirect` object together with the request it belongs to. -/
structure State where
  redirect : Redirect
  request : Request

/-- Calls that leave the engine. `callback err following` is `callback(err, following)`;
a call with the error alone has `following = false`. -/
inductive Event where
  | resume
  | callback (err : Option Error) (followingRedirect : Bool)
  | emitRedirect
  | init (options : Options)

/-- The method `Redirect.prototype.onRequest` (redirect.js 21-51): options that are not
`undefined` overwrite the engine's settings. -/
def onRequest (self : Redirect) (options : Options) : Redirect :=
  let self := match options.maxRedirects with
    | some m => { self with maxRedirects := m }
    | none => self
  let self := match options.followRedirect with
    | some (.inr f) => { self with allowRedirect := f }
    | _ => self
  let self := match options.followRedirect with
    | some (.inl b) => { self with followRedirects := b }
    | some (.inr _) => { self with followRedirects := true }
    | none => self
  let self := match options.followAllRedirects with
    | some b => { self with followAllRedirects := b }
    | none => self
  -- `self.redirects = self.redirects || []`: `redirects` is always an array
  let self := match options.removeRefererHeader with
    | some b => { self with removeRefererHeader := b }
    | none => self
  let self := match options.followOriginalHttpMethod with
    | some b => { self with followOriginalHttpMethod := b }
    | none => self
  let self := match options.followAuthorizationHeader with
    | some b => { self with followAuthorizationHeader := b }
    | none => self
  match options.allowInsecureRedirect with
  | some b => { self with allowInsecureRedirect := b }
  | none => self

/-- The methods that are not redirected unless `followAllRedirects` is set (the `switch`
of `redirectTo`). -/
def isUnsafeMethod (method : String) : Bool :=
  method = "PATCH" || method = "PUT" || method = "POST" || method = "DELETE"

/-- The method `Redirect.prototype.redirectTo` (redirect.js 53-88): the candidate (`none`
is `null`) and the state, which changes only on the 401 path. -/
def redirectTo (s : State) (response : Response) : State × Option Target :=
  if 300 ≤ response.statusCode ∧ response.statusCode < 400 ∧
      (response.headers.has "location").isSome then
    let location := (response.headers.get "location").map Target.str
    if s.redirect.followAllRedirects then (s, location)
    else if s.redirect.followRedirects then
      if isUnsafeMethod s.request.method then (s, none) else (s, location)
    else (s, none)
  else if response.statusCode = 401 then
    match s.request._auth response with
    | some authHeader =>
      if authHeader ≠ "" then
        ({ s with request := s.request.setHeader "Authorization" authHeader },
          some (.uri s.request.uri))
      else (s, none)
    | none => (s, none)
  else (s, none)

/-- The `try` block of `processRedirect` (redirect.js 121-131): a target that is not already a URL
is resolved against the current `href`, then the target is parsed. Returns the value left in
`redirectTo` and the parsed URL (`none` when `resolve` or `parse` threw). -/
def resolveTarget (request : Request) (redirectTo : Target) : Target × Option Uri :=
  if isUrl redirectTo then (redirectTo, request.urlParser.parse redirectTo)
  else
    match request.urlParser.resolve request.uri.href redirectTo with
    | none => (redirectTo, none)
    | some r => (.str r, request.urlParser.parse (.str r))

/-- Host and authorization stripping of `processRedirect` (redirect.js 145-152), applied
when the hostname changed. -/
def stripHostHeaders (self : Redirect) (uriPrev : Uri) (request : Request) : Request :=
  if uriPrev.hostname ≠ request.uri.hostname then
    let request := request.removeHeader "host"
    if self.followAuthorizationHeader then request
    else request.removeHeader "authorization"
  else request

/-- Method switch of `processRedirect` (redirect.js 164-181): unless `followOriginalHttpMethod` is
set or the status is 401, 307 or 308, the method becomes GET (HEAD is kept) and the body state
and its headers are removed. -/
def switchMethod (self : Redirect) (statusCode : Nat) (request : Request) : Request :=
  if self.followOriginalHttpMethod = false ∧ statusCode ≠ 401 ∧ statusCode ≠ 307 ∧
      statusCode ≠ 308 then
    let request := if request.method ≠ "HEAD" then { request with method := "GET" } else request
    let request := { request with body := none, _form := none, _multipart := none }
    (request.removeHeader "content-type").removeHeader "content-length"
  else request

/-- The inner function `resetFormData` of `processRedirect` (redirect.js 200-210): a stream value
is dropped unless it is file-backed (own `fd` and a truthy `path`), in which case it is
reopened by path; any other value is kept. -/
def resetFormData (formData : List FormParam) (key : String) (value : FormValue)
    (paramOptions : Option String) : List FormParam :=
  match value with
  | .stream ownFd path =>
    match path with
    | some p =>
      if ownFd = true ∧ p ≠ "" then
        formData ++ [{ key := key, value := .reopened p, options := paramOptions }]
      else formData
    | none => formData
  | .reopened p =>
    if p ≠ "" then formData ++ [{ key := key, value := .reopened p, options := paramOptions }]
    else formData
  | .plain v => formData ++ [{ key := key, value := .plain v, options := paramOptions }]

/-- Form restoration of `processRedirect` (redirect.js 184-219): when `formData` is present and
`_form` is released with no pending streams, `_form` and the content headers are removed and
the rebuilt list is put in the options for `init`. -/
def restoreFormData (request : Request) : Request × Options :=
  match request.formData, request._form with
  | some fd, some f =>
    if f._released = true ∧ f._streams = some 0 then
      let request := { request with _form := none }
      let request := (request.removeHeader "content-type").removeHeader "content-length"
      let formData := fd.foldl (fun acc formParam =>
        match formParam with
        | none => acc
        | some p => resetFormData acc p.key p.value p.options) []
      (request, { formData := some formData })
    else (request, {})
  | _, _ => (request, {})

/-- The closure state of one `onResponse` call: engine and request, the captured variable
`redirectTo`, and the calls made so far. -/
structure Ctx where
  state : State
  redirectTo : Target
  events : List Event := []

/-- Protocol change of `processRedirect` (redirect.js 134-136): `delete request.agent` when the new
protocol differs from the previous one and `allowInsecureRedirect` is set. -/
def dropAgent (self : Redirect) (uriPrev : Uri) (request : Request) : Request :=
  if request.uri.protocol ≠ uriPrev.protocol ∧ self.allowInsecureRedirect = true then
    { request with agent := none }
  else request

/-- The three deletions `delete request.src`, `delete request.req`,
`delete request._started` of `processRedirect`. -/
def clearTransport (request : Request) : Request :=
  { request with src := none, req := none, _started := none }

/-- Referer header of `processRedirect` (redirect.js 221-223): set to the previous `href` unless
`removeRefererHeader`. -/
def setReferer (self : Redirect) (uriPrev : Uri) (request : Request) : Request :=
  if self.removeRefererHeader then request
  else request.setHeader "Referer" uriPrev.href

/-- The part of `processRedirect` after a successful parse, in program order: the new
`request.uri`, the protocol check, host and authorization stripping, the transport
deletions, the method switch, form restoration and the `Referer` header. Returns the new
request and the options for `init`. -/
def applyRedirect (self : Redirect) (statusCode : Nat) (uri : Uri) (request : Request) :
    Request × Options :=
  let uriPrev := request.uri
  let request := { request with uri := uri }
  let request := dropAgent self uriPrev request
  let request := stripHostHeaders self uriPrev request
  let request := clearTransport request
  let request := switchMethod self statusCode request
  let restored := restoreFormData request
  (setReferer self uriPrev restored.1, restored.2)

/-- The override of `processRedirect`: a verdict that is a string replaces the captured
`redirectTo`. -/
def overridden (shouldRedirect : JSValue) (redirectTo : Target) : Target :=
  match shouldRedirect with
  | .str s => .str s
  | _ => redirectTo

/-- The inner function `processRedirect` of `onResponse` (redirect.js 99-228), called with
the verdict of the admission predicate. -/
def processRedirect (response : Response) (c : Ctx) (shouldRedirect : JSValue) : Ctx :=
  if shouldRedirect.truthy = false then
    { c with events := c.events ++ [.callback none false] }
  else
    let redirectTo := overridden shouldRedirect c.redirectTo
    let events := if response.resume then c.events ++ [.resume] else c.events
    let self := c.state.redirect
    let request := c.state.request
    if self.maxRedirects ≤ (self.redirectsFollowed : Int) then
      { state := c.state, redirectTo := redirectTo,
        events := events ++
          [.callback (some ⟨"Exceeded maxRedirects. Probably stuck in a redirect loop " ++
            request.uri.href⟩) false] }
    else
      let self := { self with redirectsFollowed := self.redirectsFollowed + 1 }
      match resolveTarget request redirectTo with
      | (redirectTo, none) =>
        { state := { redirect := self, request := request }, redirectTo := redirectTo,
          events := events ++
            [.callback (some ⟨"Failed to parse url: " ++ request.uri.href⟩) false] }
      | (redirectTo, some uri) =>
        let self := { self with
          redirects := self.redirects ++
            [{ statusCode := response.statusCode, redirectUri := redirectTo }] }
        let applied := applyRedirect self response.statusCode uri request
        { state := { redirect := self, request := applied.1 }, redirectTo := redirectTo,
          events := events ++ [.emitRedirect, .init applied.2, .callback none true] }

/-- What one call of `onResponse` leaves behind: the state, the calls it made, and an
exception that escaped it (a predicate that throws). -/
structure Outcome where
  state : State
  events : List Event
  raised : Option Error := none

/-- The callback handed to a callback-style predicate:
`function (err, result) { if (err) return callback(err); processRedirect(result) }`. -/
def deliver (response : Response) (c : Ctx) (d : Option Error × JSValue) : Ctx :=
  match d.1 with
  | some err => { c with events := c.events ++ [.callback (some err) false] }
  | none => processRedirect response c d.2

/-- The method `Redirect.prototype.onResponse` (redirect.js 90-246). -/
def onResponse (s : State) (response : Response) : Outcome :=
  let decided := redirectTo s response
  let s := decided.1
  match decided.2 with
  | none => { state := s, events := [.callback none false] }
  | some t =>
    if t.truthy = false then { state := s, events := [.callback none false] }
    else
      let c : Ctx := { state := s, redirectTo := t }
      let allowRedirect := s.redirect.allowRedirect
      if 1 < allowRedirect.length then
        let c := (allowRedirect.delivers s.request response).foldl (deliver response) c
        { state := c.state, events := c.events,
          raised := match allowRedirect.returns s.request response with
            | .throws e => some e
            | _ => none }
      else
        match allowRedirect.returns s.request response with
        | .throws e => { state := s, events := [], raised := some e }
        | .thenable (.resolved v) =>
          let c := processRedirect response c v
          { state := c.state, events := c.events }
        | .thenable (.rejected e) => { state := s, events := [.callback (some e) false] }
        | .thenable .pending => { state := s, events := [] }
        | .value v =>
          let c := processRedirect response c v
          { state := c.state, events := c.events }

/-! ## Redirect chains

A logical request meets a sequence of responses. After a followed redirect `init` runs
again and calls `onRequest` with the options it was given; what the rest of the lifecycle
does to the request between two hops is a parameter (`between`). -/

/-- The arguments of the `callback` calls among the events, in order. -/
def callbacks : List Event → List (Option Error × Bool)
  | [] => []
  | .callback err following :: es => (err, following) :: callbacks es
  | _ :: es => callbacks es

/-- The options of the `request.init` calls among the events, in order. -/
def initCalls : List Event → List Options
  | [] => []
  | .init options :: es => options :: initCalls es
  | _ :: es => initCalls es

/-- The number of `redirect` events emitted. -/
def redirectEmits : List Event → Nat
  | [] => 0
  | .emitRedirect :: es => redirectEmits es + 1
  | _ :: es => redirectEmits es

/-- The verdict handed to `processRedirect` when the predicate delivers exactly one, without
an error: its return value, the value its promise resolves with, or the `result` of its
single callback call. -/
def verdict (a : AllowRedirect) (request : Request) (response : Response) : Option JSValue :=
  if 1 < a.length then
    match a.delivers request response with
    | [(none, v)] => some v
    | _ => none
  else
    match a.returns request response with
    | .value v => some v
    | .thenable (.resolved v) => some v
    | _ => none

/-- A response is admitted: `redirectTo` yields a truthy candidate and the predicate's
verdict is truthy. -/
def admitted (s : State) (response : Response) : Bool :=
  match (redirectTo s response).2 with
  | some t =>
    t.truthy &&
      (match verdict (redirectTo s response).1.redirect.allowRedirect
          (redirectTo s response).1.request response with
        | some v => v.truthy
        | none => false)
  | none => false

/-- The target of an admitted response resolves and parses. -/
def parseable (s : State) (response : Response) : Bool :=
  match (redirectTo s response).2 with
  | some t =>
    (match verdict (redirectTo s response).1.redirect.allowRedirect
        (redirectTo s response).1.request response with
      | some v => (resolveTarget (redirectTo s response).1.request (overridden v t)).2.isSome
      | none => false)
  | none => false

/-- The engine after the `init` calls recorded in the events: each calls `onRequest`. -/
def reinit (self : Redirect) (events : List Event) : Redirect :=
  (initCalls events).foldl onRequest self

/-- The state in which the next response is met. -/
def next (between : Request → Request) (s : State) (response : Response) : State :=
  { redirect := reinit (onResponse s response).state.redirect (onResponse s response).events,
    request := between (onResponse s response).state.request }

/-- The outcomes of `onResponse` along a sequence of responses. -/
def run (between : Request → Request) : State → List Response → List Outcome
  | _, [] => []
  | s, r :: rs => onResponse s r :: run between (next between s r) rs

/-- The state after a sequence of responses. -/
def runState (between : Request → Request) : State → List Response → State
  | s, [] => s
  | s, r :: rs => runState between (next between s r) rs

/-- Every response of the sequence is admitted, with a parseable target, in the state in
which it is met. -/
def chainAdmitted (between : Request → Request) : State → List Response → Bool
  | _, [] => true
  | s, r :: rs => admitted s r && parseable s r && chainAdmitted between (next between s r) rs

/-! ## Sample data

Concrete requests and responses on which the theorems below are instantiated. -/

/-- A URL parser for the samples: a string parses to a URL with scheme `http:` whose host is
`example.com` when the string starts with `http://example.com` and `localhost` otherwise;
a relative target resolves by appending it to `http://localhost`. -/
def sampleParser : UrlParser where
  parse := fun t =>
    match t with
    | .str s =>
      some { href := s, protocol := some "http:",
             hostname := some (if "http://example.com".data.isPrefixOf s.data then "example.com"
               else "localhost") }
    | .uri u => some u
  resolve := fun _ t =>
    match t with
    | .str s => some ("http://localhost" ++ s)
    | .uri u => some u.href

/-- The URL `http://localhost/temp`. -/
def sampleUri : Uri :=
  { href := "http://localhost/temp", protocol := some "http:", hostname := some "localhost" }

/-- A request to `sampleUri` with the given method and a cookie header. -/
def sampleRequest (method : String) : Request :=
  { method := method, uri := sampleUri, headers := [("cookie", "foo=bar")],
    urlParser := sampleParser }

/-- A freshly constructed engine on `sampleRequest method`. -/
def sampleState (method : String) : State :=
  { redirect := {}, request := sampleRequest method }

/-- A response with the given status and `location: http://localhost/temp_landing`. -/
def sampleResponse (statusCode : Nat) : Response :=
  { statusCode := statusCode, headers := [("location", "http://localhost/temp_landing")] }

/-- A closure state on a GET request to `localhost` that carries `Host` and `Authorization`
headers, with the captured target on `example.com`. -/
def crossHostCtx : Ctx :=
  { state :=
      { redirect := {},
        request :=
          { uri := sampleUri, urlParser := sampleParser,
            headers := [("Host", "localhost"), ("Authorization", "Basic abc")] } },
    redirectTo := .str "http://example.com/landing" }

/-- A closure state on a request with the given method, a body and content headers, with
the captured target `http://localhost/temp_landing`. -/
def bodyCtx (method : String) : Ctx :=
  { state :=
      { redirect := {},
        request :=
          { method := method, uri := sampleUri, urlParser := sampleParser,
            headers := [("Content-Type", "text/plain"), ("content-length", "6")],
            body := some "fooBar", _multipart := some "multipart" } },
    redirectTo := .str "http://localhost/temp_landing" }

/-- The URL `http://localhost/temp_landing` as `sampleParser` parses it. -/
def landingUri : Uri :=
  { href := "http://localhost/temp_landing", protocol := some "http:",
    hostname := some "localhost" }

/-- An engine on `sampleRequest "GET"` whose admission predicate is `allowRedirect`. -/
def predicateState (allowRedirect : AllowRedirect) : State :=
  { redirect := { allowRedirect := allowRedirect }, request := sampleRequest "GET" }

/-- An admission predicate of one parameter that returns the URL `http://localhost/perm`. -/
def overridePredicate : AllowRedirect :=
  { length := 1, returns := fun _ _ => .value (.str "http://localhost/perm") }

/-- An admission predicate of one parameter that returns `false`. -/
def refusePredicate : AllowRedirect :=
  { length := 1, returns := fun _ _ => .value (.bool false) }

/-- An admission predicate of one parameter that returns a promise resolved with `false`. -/
def refusePromise : AllowRedirect :=
  { length := 1, returns := fun _ _ => .thenable (.resolved (.bool false)) }

/-- An admission predicate of two parameters that calls its callback with `(null, false)`
and returns `true`. -/
def refuseCallback : AllowRedirect :=
  { length := 2, returns := fun _ _ => .value (.bool true),
    delivers := fun _ _ => [(none, .bool false)] }

/-- The closure state `bodyCtx "OPTIONS"` with `maxRedirects` set to 0: the hop limit is
reached before the first redirect. -/
def limitCtx : Ctx :=
  { state := { redirect := { maxRedirects := 0 }, request := (bodyCtx "OPTIONS").state.request },
    redirectTo := .str "http://localhost/temp_landing" }

/-- An engine with `maxRedirects` 0 on `sampleRequest "GET"` whose admission predicate is
`overridePredicate`. -/
def limitOverrideState : State :=
  { redirect := { maxRedirects := 0, allowRedirect := overridePredicate },
    request := sampleRequest "GET" }

/-! ## Predicates and exact header lookup -/

/-- The state with the admission predicate of the engine replaced by `a`. -/
def State.withPredicate (s : State) (a : AllowRedirect) : State :=
  { s with redirect := { s.redirect with allowRedirect := a } }

/-- The closure state with the admission predicate of the engine replaced by `a`. -/
def Ctx.withPredicate (c : Ctx) (a : AllowRedirect) : Ctx :=
  { c with state := c.state.withPredicate a }

/-- The property read `headers[key]` of a header object: the value stored under exactly
this spelling. -/
def Headers.lookup (h : Headers) (key : String) : Option String :=
  (h.find? (fun kv => kv.1 == key)).map (fun kv => kv.2)

/-- The stored entries whose name is a spelling of `name`, in order. -/
def Headers.entries (h : Headers) (name : String) : Headers :=
  h.filter (fun kv => lower kv.1 == lower name)

/-- The header map stores at most one spelling of `name` (the data model's "unique by
normalized key" for this name). -/
def Headers.uniqueName (h : Headers) (name : String) : Prop :=
  (h.entries name).length ≤ 1

/-- An admission predicate of two parameters that returns `false` and calls its callback
with `(null, true)`, as in the test "asynchronous followRedirect filter via callback". -/
def filterAsync : AllowRedirect :=
  { length := 2, returns := fun _ _ => .value (.bool false),
    delivers := fun _ _ => [(none, .bool true)] }

/-- The error of the tests on failing admission predicates. -/
def sampleError : Error := ⟨"Error during followRedirect callback"⟩

/-- An admission predicate of one parameter that throws `sampleError`. -/
def throwingPredicate : AllowRedirect :=
  { length := 1, returns := fun _ _ => .throws sampleError }

/-- An admission predicate of two parameters that passes `sampleError` to its callback. -/
def failingCallback : AllowRedirect :=
  { length := 2, returns := fun _ _ => .value .undefined,
    delivers := fun _ _ => [(some sampleError, .undefined)] }

/-- An admission predicate of one parameter that returns a promise rejected with
`sampleError`. -/
def rejectedPromise : AllowRedirect :=
  { length := 1, returns := fun _ _ => .thenable (.rejected sampleError) }

/-- An engine on a GET request whose authentication helper answers every response with the
header value `Digest abc`. -/
def challengedState : State :=
  { redirect := { followRedirects := false },
    request :=
      { uri := sampleUri, urlParser := sampleParser, _auth := fun _ => some "Digest abc" } }

/-- A closure state on a GET request to `http://localhost/temp` that holds agent 7, with
`allowInsecureRedirect` as given and the captured target `https://localhost/`. -/
def agentCtx (allowInsecureRedirect : Bool) : Ctx :=
  { state :=
      { redirect := { allowInsecureRedirect := allowInsecureRedirect },
        request :=
          { uri := sampleUri, agent := some 7,
            urlParser :=
              { parse := fun _ =>
                  some { href := "https://localhost/", protocol := some "https:",
                         hostname := some "localhost" },
                resolve := fun _ _ => none } } },
    redirectTo := .str "https://localhost/" }

/-! ## Response size ceiling

The `data` handler that `onRequestResponse` attaches to the response content
(request.js 1478-1506). The timing bookkeeping of the handler and the flag `_destdata` are
left out; `self.destroy()` and `self.abort()` are recorded as calls. -/

/-- A chunk of the response body: a `Buffer` or, after `setEncoding`, a string. -/
inductive Chunk where
  | buffer (bytes : List Nat)
  | text (s : String)
  deriving DecidableEq, Repr

/-- The property `length` of a JavaScript string: its number of UTF-16 code units (a
character outside the basic plane takes two). -/
def utf16Length (s : String) : Nat :=
  (s.data.map (fun c => if c.val < 0x10000 then 1 else 2)).sum

/-- The property `chunk.length`: the number of bytes of a `Buffer`, the number of UTF-16
code units of a string. -/
def Chunk.length : Chunk → Nat
  | .buffer bytes => bytes.length
  | .text s => utf16Length s

/-- The number of bytes of a chunk of the body: a string chunk counts with its UTF-8
encoding. -/
def Chunk.byteLength : Chunk → Nat
  | .buffer bytes => bytes.length
  | .text s => s.utf8ByteSize

/-- The closure variables `responseThresholdEnabled` and `responseBytesLeft`. -/
structure SizeGuard where
  responseThresholdEnabled : Bool := false
  responseBytesLeft : Int := 0
  deriving DecidableEq, Repr

/-- The initialisation of the closure variables: the ceiling is enabled when
`maxResponseSize` is a number (`none` is any other value). -/
def sizeGuard (maxResponseSize : Option Int) : SizeGuard :=
  match maxResponseSize with
  | some n => { responseThresholdEnabled := true, responseBytesLeft := n }
  | none => {}

/-- What the `data` handler does: emits `error`, calls `destroy()` and `abort()`, or emits
`data`. -/
inductive DataEvent where
  | error (message : String)
  | destroy
  | abort
  | data (chunk : Chunk)
  deriving DecidableEq, Repr

/-- The `data` handler of the response content, for one chunk. -/
def onData (g : SizeGuard) (chunk : Chunk) : SizeGuard × List DataEvent :=
  if g.responseThresholdEnabled then
    let g := { g with responseBytesLeft := g.responseBytesLeft - chunk.length }
    if g.responseBytesLeft < 0 then
      (g, [.error "Maximum response size reached", .destroy, .abort])
    else (g, [.data chunk])
  else (g, [.data chunk])

/-- The `data` handler over the chunks of a body, in arrival order. -/
def onDataAll : SizeGuard → List Chunk → List DataEvent
  | _, [] => []
  | g, chunk :: rest => (onData g chunk).2 ++ onDataAll (onData g chunk).1 rest

/-- The total length of a sequence of chunks. -/
def totalLength (chunks : List Chunk) : Nat :=
  (chunks.map Chunk.length).sum

/-- The chunks emitted as `data`, in order. -/
def dataChunks : List DataEvent → List Chunk
  | [] => []
  | .data chunk :: es => chunk :: dataChunks es
  | _ :: es => dataChunks es

/-- The number of size errors raised. -/
def sizeErrors : List DataEvent → Nat
  | [] => 0
  | .error _ :: es => sizeErrors es + 1
  | _ :: es => sizeErrors es

/-- What the handler does for a chunk that finds the ceiling crossed. -/
def rejected (_ : Chunk) : List DataEvent :=
  [.error "Maximum response size reached", .destroy, .abort]

/-! ## Connection pool

The method `getNewAgent` (request.js 776-923). Option values are JavaScript strings, numbers
and booleans; a key that is absent is `none`. Agents are objects: an agent carries the
number `id` it got when it was constructed, and two agents are the same object when their
`id`s are equal. -/

/-- Truthiness of an optional string (`undefined` and the empty string are falsy). -/
def truthyStr (v : Option String) : Bool :=
  match v with
  | some s => decide (s ≠ "")
  | none => false

/-- Truthiness of an optional number (`undefined` and 0 are falsy). -/
def truthyNum (v : Option Nat) : Bool :=
  match v with
  | some n => decide (n ≠ 0)
  | none => false

/-- The `options` object that `getNewAgent` builds and hands to `new Agent(options)`:
the TLS keys, the secure context added for `extraCA`, and any other keys copied from
`agentOptions`. -/
structure AgentOptions where
  ca : Option String := none
  extraCA : Option String := none
  ciphers : Option String := none
  secureProtocol : Option String := none
  secureOptions : Option Nat := none
  rejectUnauthorized : Option Bool := none
  key : Option String := none
  cert : Option String := none
  pfx : Option String := none
  passphrase : Option String := none
  secureContext : Option Nat := none
  others : List (String × String) := []
  deriving DecidableEq, Repr

/-- The test `Object.keys(options).length === 0`. -/
def AgentOptions.isEmpty (o : AgentOptions) : Bool :=
  o.ca.isNone && o.extraCA.isNone && o.ciphers.isNone && o.secureProtocol.isNone &&
  o.secureOptions.isNone && o.rejectUnauthorized.isNone && o.key.isNone && o.cert.isNone &&
  o.pfx.isNone && o.passphrase.isNone && o.secureContext.isNone && o.others.isEmpty

/-- An agent object: its identity, the options it was constructed with, and the properties
`lastUsedAt` and `maxSockets` that `getNewAgent` writes. -/
structure Agent where
  id : Nat
  options : AgentOptions := {}
  lastUsedAt : Option Int := none
  maxSockets : Option Nat := none
  deriving DecidableEq, Repr

/-- The class `self.agentClass`: its `name` and whether it is `self.httpModule.Agent`. -/
structure AgentClass where
  name : String := "Agent"
  isModuleAgent : Bool := true
  deriving DecidableEq, Repr

/-- The part of the request that `getNewAgent` reads. `proxyProtocol` is the protocol of the
(parsed) proxy, `poolIsGlobal` is `self.pool === globalPool`, `globalAgent` is
`self.httpModule.globalAgent`, and `createSecureContext` is `tls.createSecureContext`
followed by `addCACert` (`none` when it throws). -/
structure AgentRequest where
  agentClass : AgentClass := {}
  agentOptions : Option AgentOptions := none
  ca : Option String := none
  extraCA : Option String := none
  ciphers : Option String := none
  secureProtocol : Option String := none
  secureOptions : Option Nat := none
  rejectUnauthorized : Option Bool := none
  cert : Option String := none
  key : Option String := none
  pfx : Option String := none
  passphrase : Option String := none
  proxyProtocol : Option String := none
  uriProtocol : String := "https:"
  protocolVersion : String := "http1"
  poolIsGlobal : Bool := false
  globalAgent : Option Agent := none
  createSecureContext : AgentOptions → Option Nat := fun _ => some 0

/-- The pool map `self.pool` (its entries and its `maxSockets` property) together with the
number of agents constructed so far, which is the identity of the next new agent. -/
structure PoolState where
  pool : String → Option Agent := fun _ => none
  maxSockets : Option Nat := none
  constructed : Nat := 0

/-- The assignment `self.pool[poolKey] = agent`. -/
def PoolState.store (p : PoolState) (poolKey : String) (agent : Agent) : PoolState :=
  { p with pool := fun k => if k = poolKey then some agent else p.pool k }

/-- The options object of `getNewAgent` (request.js 779-815): a copy of `agentOptions` in
which each of the statements `if (self.ca) { options.ca = self.ca }`, ... has overwritten
its own key: a key holds the request's value when that is truthy (`rejectUnauthorized`:
when it is defined; `key` and `cert`: when both are truthy) and the copied value
otherwise. -/
def requestOptions (r : AgentRequest) : AgentOptions :=
  let options : AgentOptions := r.agentOptions.getD {}
  { ca := if truthyStr r.ca then r.ca else options.ca,
    extraCA := if truthyStr r.extraCA then r.extraCA else options.extraCA,
    ciphers := if truthyStr r.ciphers then r.ciphers else options.ciphers,
    secureProtocol :=
      if truthyStr r.secureProtocol then r.secureProtocol else options.secureProtocol,
    secureOptions :=
      if truthyNum r.secureOptions then r.secureOptions else options.secureOptions,
    rejectUnauthorized :=
      match r.rejectUnauthorized with
      | some b => some b
      | none => options.rejectUnauthorized,
    key := if truthyStr r.cert && truthyStr r.key then r.key else options.key,
    cert := if truthyStr r.cert && truthyStr r.key then r.cert else options.cert,
    pfx := if truthyStr r.pfx then r.pfx else options.pfx,
    passphrase := if truthyStr r.passphrase then r.passphrase else options.passphrase,
    secureContext := options.secureContext,
    others := options.others }

/-- The step `if (poolKey) { poolKey += ':' }; poolKey += part`. -/
def addPart (poolKey part : String) : String :=
  (if poolKey ≠ "" then poolKey ++ ":" else poolKey) ++ part

/-- The `ca` step of the pool key (request.js 832-837). -/
def keyAfterCa (poolKey : String) (options : AgentOptions) : String :=
  if truthyStr options.ca then addPart poolKey (options.ca.getD "") else poolKey

/-- The steps of the pool key after `ca` (request.js 839-899): `extraCA` (which also creates
the secure context), `rejectUnauthorized`, `cert` with `key`, `pfx`, `passphrase`,
`ciphers`, `secureProtocol`, `secureOptions`. `none` when creating the secure context
throws, or when `cert` is set and `key` is missing (`options.key.toString` throws). -/
def keyTail (r : AgentRequest) (poolKey : String) (options : AgentOptions) :
    Option (String × AgentOptions) :=
  match (if truthyStr options.extraCA then
      (r.createSecureContext options).map (fun ctx =>
        (addPart poolKey (options.extraCA.getD ""), { options with secureContext := some ctx }))
    else some (poolKey, options)) with
  | none => none
  | some (poolKey, options) =>
    let poolKey :=
      match options.rejectUnauthorized with
      | some b => addPart poolKey (toString b)
      | none => poolKey
    match (if truthyStr options.cert then
        options.key.map (fun k => addPart poolKey (options.cert.getD "" ++ k))
      else some poolKey) with
    | none => none
    | some poolKey =>
      let poolKey :=
        if truthyStr options.pfx then addPart poolKey (options.pfx.getD "") else poolKey
      let poolKey :=
        if truthyStr options.passphrase then addPart poolKey (options.passphrase.getD "")
        else poolKey
      let poolKey :=
        if truthyStr options.ciphers then addPart poolKey (options.ciphers.getD "")
        else poolKey
      let poolKey :=
        if truthyStr options.secureProtocol then
          addPart poolKey (options.secureProtocol.getD "")
        else poolKey
      let poolKey :=
        if truthyNum options.secureOptions then
          addPart poolKey (toString (options.secureOptions.getD 0))
        else poolKey
      some (poolKey, options)

/-- The variable `poolKey` of `getNewAgent` before the protocol is prepended
(request.js 817-900), with the options as the TLS steps leave them. -/
def tlsPoolKey (r : AgentRequest) (options : AgentOptions) : Option (String × AgentOptions) :=
  let poolKey := if r.agentClass.isModuleAgent then "" else r.agentClass.name
  if r.proxyProtocol = some "https:" ∨ r.uriProtocol = "https:" then
    keyTail r (keyAfterCa poolKey options) options
  else some (poolKey, options)

/-- The key under which `getNewAgent` looks the agent up (request.js 908). -/
def poolKey (r : AgentRequest) : Option String :=
  (tlsPoolKey r (requestOptions r)).map
    (fun k => r.protocolVersion ++ ":" ++ r.uriProtocol ++ k.1)

/-- What `getNewAgent` returns and leaves: the agent, the pool, and whether
`new Agent(options)` was called. -/
structure Acquired where
  agent : Agent
  state : PoolState
  constructed : Bool
  poolKey : Option String := none

/-- The test `(agent.lastUsedAt || 0) + agentIdleTimeout < Date.now()` for a numeric
`agentIdleTimeout`. -/
def idleExpired (agent : Agent) (agentIdleTimeout : Option Int) (now : Int) : Bool :=
  match agentIdleTimeout with
  | some timeout => decide (agent.lastUsedAt.getD 0 + timeout < now)
  | none => false

/-- The method `Request.prototype.getNewAgent` (request.js 776-923); `agentIdleTimeout` is
`none` when it is not a number, `now` is `Date.now()`, and the result is `none` when the
method throws. -/
def getNewAgent (r : AgentRequest) (agentIdleTimeout : Option Int) (now : Int)
    (p : PoolState) : Option Acquired :=
  match tlsPoolKey r (requestOptions r) with
  | none => none
  | some (key, options) =>
    match (if r.poolIsGlobal ∧ key = "" ∧ options.isEmpty = true ∧ agentIdleTimeout = none then
        r.globalAgent else none) with
    | some globalAgent => some { agent := globalAgent, state := p, constructed := false }
    | none =>
      let poolKey := r.protocolVersion ++ ":" ++ r.uriProtocol ++ key
      let fresh : Agent :=
        { id := p.constructed, options := options,
          maxSockets := if truthyNum p.maxSockets then p.maxSockets else none }
      match p.pool poolKey with
      | some agent =>
        if idleExpired agent agentIdleTimeout now then
          some { agent := { fresh with lastUsedAt := some now },
                 state := ({ p with constructed := p.constructed + 1 }).store poolKey
                   { fresh with lastUsedAt := some now },
                 constructed := true, poolKey := some poolKey }
        else
          some { agent := { agent with lastUsedAt := some now },
                 state := p.store poolKey { agent with lastUsedAt := some now },
                 constructed := false, poolKey := some poolKey }
      | none =>
        some { agent := { fresh with lastUsedAt := some now },
               state := ({ p with constructed := p.constructed + 1 }).store poolKey
                 { fresh with lastUsedAt := some now },
               constructed := true, poolKey := some poolKey }

/-- The pool holds agents that were constructed before (their identity is below the
count), holds no agent under two keys, and does not hold the module's global agent. -/
def PoolState.WellFormed (p : PoolState) (globalAgent : Option Agent) : Prop :=
  (∀ k a, p.pool k = some a → a.id < p.constructed) ∧
  (∀ k k' a a', p.pool k = some a → p.pool k' = some a' → a.id = a'.id → k = k') ∧
  (∀ g, globalAgent = some g → g.id < p.constructed ∧ ∀ k a, p.pool k = some a → a.id ≠ g.id)

/-- The strings folded into the pool key after `ca`, in order. -/
def tailParts (o : AgentOptions) : List String :=
  (if truthyStr o.extraCA then [o.extraCA.getD ""] else []) ++
  (match o.rejectUnauthorized with
    | some b => [toString b]
    | none => []) ++
  (if truthyStr o.cert then [o.cert.getD "" ++ o.key.getD ""] else []) ++
  (if truthyStr o.pfx then [o.pfx.getD ""] else []) ++
  (if truthyStr o.passphrase then [o.passphrase.getD ""] else []) ++
  (if truthyStr o.ciphers then [o.ciphers.getD ""] else []) ++
  (if truthyStr o.secureProtocol then [o.secureProtocol.getD ""] else []) ++
  (if truthyNum o.secureOptions then [toString (o.secureOptions.getD 0)] else [])

/-- A secure request with CA `ca`, client certificate `cert.pem` and key `key.pem`. -/
def secureRequest (ca : String) : AgentRequest :=
  { ca := some ca, cert := some "cert.pem", key := some "key.pem",
    rejectUnauthorized := some false }


/-- The pool key of `secureRequest "ca.pem"`. -/
def idlePoolKey : String := "http1:https:ca.pem:false:cert.pemkey.pem"

/-- The agent stored in `idlePool`, last used at time 0. -/
def idleAgent : Agent := { id := 0, lastUsedAt := some 0 }

/-- A pool that holds `idleAgent` under `idlePoolKey`. -/
def idlePool : PoolState :=
  { pool := fun k => if k = idlePoolKey then some idleAgent else none, constructed := 1 }

/-- What `getNewAgent` leaves for `secureRequest "ca.pem"` on `idlePool` at time 100 with an
idle timeout of 10. -/
def replacedAgent : Acquired :=
  { agent :=
      { id := 1, options := requestOptions (secureRequest "ca.pem"), lastUsedAt := some 100 },
    state := ({ idlePool with constructed := 2 }).store idlePoolKey
      { id := 1, options := requestOptions (secureRequest "ca.pem"), lastUsedAt := some 100 },
    constructed := true,
    poolKey := some idlePoolKey }

/-- The pool key of `secureRequest "other.pem"`. -/
def otherPoolKey : String := "http1:https:other.pem:false:cert.pemkey.pem"

/-- A pool map that holds one and the same agent object under two keys. -/
def aliasedPool : PoolState :=
  { pool := fun k => if k = idlePoolKey ∨ k = otherPoolKey then some idleAgent else none,
    constructed := 1 }

/-- What `getNewAgent` leaves for `secureRequest "ca.pem"` on the empty pool at time 1. -/
def firstAcquired : Acquired :=
  { agent :=
      { id := 0, options := requestOptions (secureRequest "ca.pem"), lastUsedAt := some 1 },
    state := ({ constructed := 1 } : PoolState).store idlePoolKey
      { id := 0, options := requestOptions (secureRequest "ca.pem"), lastUsedAt := some 1 },
    constructed := true,
    poolKey := some idlePoolKey }

/-! ## Abort, write and end

The methods `clearTimeout`, `abort`, `start`, `write` and `end` of the request
(request.js 925-943, 1651-1663, 1996-2030, 2057-2062). Calls that leave the request object
are recorded as `LifeEvent`s. -/

/-- Calls made by the lifecycle methods: `self.req.abort()`, `self.response.destroy()`,
`clearTimeout(timer)`, `self.emit(name)`, `self.req.write(...)` and `self.req.end()`. -/
inductive LifeEvent where
  | reqAbort
  | responseDestroy
  | clearTimeout (timer : Nat)
  | emit (name : String)
  | reqWrite
  | reqEnd
  deriving DecidableEq, Repr

/-- The method `Request.prototype.clearTimeout` (request.js 2057-2062). -/
def Request.clearTimeout (r : Request) : Request × List LifeEvent :=
  match r.timeoutTimer with
  | some timer => ({ r with timeoutTimer := none }, [.clearTimeout timer])
  | none => (r, [])

/-- The method `Request.prototype.abort` (request.js 1651-1663). -/
def Request.abort (r : Request) : Request × List LifeEvent :=
  let r := { r with _aborted := true }
  let teardown : List LifeEvent :=
    if r.req.isSome then [.reqAbort]
    else if r.response.isSome then [.responseDestroy]
    else []
  let cleared := r.clearTimeout
  (cleared.1, teardown ++ cleared.2 ++ [.emit "abort"])

/-- The method `Request.prototype.start` (request.js 925-1221). Before the guard
`if (self._aborted) return` only local variables are set; the statements after the guard
are `body`. -/
def Request.start (r : Request) (body : Request → Request × List LifeEvent) :
    Request × List LifeEvent :=
  if r._aborted then (r, []) else body r

/-- The method `Request.prototype.write` (request.js 1996-2006). -/
def Request.write (r : Request) (body : Request → Request × List LifeEvent) :
    Request × List LifeEvent :=
  if r._aborted then (r, [])
  else
    let started := if r._started.getD false then (r, []) else r.start body
    (started.1, started.2 ++ if started.1.req.isSome then [.reqWrite] else [])

/-- The method `Request.prototype.end` (request.js 2007-2030); `chunk` is whether a truthy
chunk was passed. The header bookkeeping after `self.req.end()` writes to the request's
info record only. -/
def Request.end_ (r : Request) (chunk : Bool) (body : Request → Request × List LifeEvent) :
    Request × List LifeEvent :=
  if r._aborted then (r, [])
  else
    let written := if chunk then r.write body else (r, [])
    let started :=
      if written.1._started.getD false then (written.1, []) else written.1.start body
    (started.1, written.2 ++ started.2 ++ if started.1.req.isSome then [.reqEnd] else [])

/-- The statements of `Request.prototype.init` (request.js 243-774) that concern the abort
flag. The body of `init` assigns none of the properties `_aborted`, `req`, `_started`,
`response`, `timeoutTimer` and `_ended` (the only assignment to `_aborted` in request.js is
the one in `abort`); what it assigns to the other properties is `assign`. When the URI is
invalid it calls `self.abort()` and emits `error` (request.js 399-400). -/
def Request.init (r : Request) (assign : Request → Request) (invalidUri : Bool) :
    Request × List LifeEvent :=
  let r := { assign r with
    req := r.req, _started := r._started, response := r.response,
    timeoutTimer := r.timeoutTimer, _aborted := r._aborted, _ended := r._ended }
  if invalidUri then
    let aborted := r.abort
    (aborted.1, aborted.2 ++ [.emit "error"])
  else (r, [])

/-- The function that `init` defers (request.js 689-739): it returns at once when the
request is aborted, calls `self.abort()` when piping the form throws, and otherwise pipes
the body or calls `end`, which is `rest`. -/
def Request.deferred (r : Request) (formPipeThrows : Bool)
    (rest : Request → Request × List LifeEvent) : Request × List LifeEvent :=
  if r._aborted then (r, [])
  else if formPipeThrows then r.abort
  else rest r

/-- A request that is being sent: it has a `req` and a running timeout timer. -/
def sendingRequest : Request :=
  { sampleRequest "GET" with req := some 1, _started := some true, timeoutTimer := some 5 }

/-! ## Cookies of a response

The end of `onRequestResponse` (request.js 1538-1586): the `Set-Cookie` values of the
response are handed to the cookie jar and then `responseHandler`, which calls the redirect
engine, is run. The jar is a parameter: what its `setCookie` does with a value, given the
values it was offered before. -/

/-- What one call of the jar's `setCookie` does: it calls its callback without an error,
it calls its callback with an error, or it throws before calling back. -/
inductive JarResult where
  | ok
  | fails (e : Error)
  | throws (e : Error)
  deriving DecidableEq, Repr

/-- Calls made while the cookies are handled: `targetCookieJar.setCookie(cookie, ...)`,
`self.emit('error', err)` and `responseHandler()`. -/
inductive CookieEvent where
  | setCookie (cookie : String)
  | emitError (e : Error)
  | responseHandler
  deriving DecidableEq, Repr

/-- The value `response.headers[headerName]` of the `Set-Cookie` header: one string or an
array of strings. -/
inductive SetCookie where
  | single (value : String)
  | many (values : List String)
  deriving DecidableEq, Repr

/-- The values of a `Set-Cookie` header in header order. -/
def SetCookie.values : SetCookie → List String
  | .single value => [value]
  | .many values => values

/-- The function `forEachAsync(items, addCookie, cb)` (request.js 1538-1560) up to its call
of `cb`: the calls of `setCookie`, and the error handed to `cb` (`none` for `cb()`).
`addCookie` calls `cb()` whatever the jar passes to its callback, so only a `setCookie`
that throws (caught by the `try` around `fn.call`) ends the loop early. `offered` are the
values handed to the jar so far. -/
def forEachAsync (setCookie : List String → String → JarResult) (offered : List String) :
    List String → List CookieEvent × Option Error
  | [] => ([], none)
  | cookie :: items =>
    match setCookie offered cookie with
    | .throws e => ([.setCookie cookie], some e)
    | _ =>
      let rest := forEachAsync setCookie (offered ++ [cookie]) items
      (.setCookie cookie :: rest.1, rest.2)

/-- The cookie step of `onRequestResponse` (request.js 1573-1586): the calls it makes and
the exception that escapes it. `header` is the `Set-Cookie` value of the response, `none`
when `response.caseless.has('set-cookie')` is false. -/
def onSetCookie (disableCookies : Bool) (setCookie : List String → String → JarResult)
    (header : Option SetCookie) : List CookieEvent × Option Error :=
  match header with
  | none => ([.responseHandler], none)
  | some h =>
    if disableCookies then ([.responseHandler], none)
    else
      match h with
      | .many values =>
        let looped := forEachAsync setCookie [] values
        match looped.2 with
        | some err => (looped.1 ++ [.emitError err], none)
        | none => (looped.1 ++ [.responseHandler], none)
      | .single value =>
        match setCookie [] value with
        | .throws e => ([.setCookie value], some e)
        | _ => ([.setCookie value, .responseHandler], none)

/-- The error of the sample jar. -/
def jarError : Error := ⟨"Cookie not in this host's domain"⟩

/-- A jar whose `setCookie` throws on the value `bad=1` and succeeds on any other. -/
def throwingJar : List String → String → JarResult :=
  fun _ cookie => if cookie = "bad=1" then .throws jarError else .ok

/-- A jar whose `setCookie` passes an error to its callback on the value `bad=1` and
succeeds on any other. -/
def failingJar : List String → String → JarResult :=
  fun _ cookie => if cookie = "bad=1" then .fails jarError else .ok

/-- A secure request with CA `a` and passphrase `b`. -/
def splitRequest : AgentRequest := { ca := some "a", passphrase := some "b" }

/-- A secure request with CA `a:b` and no passphrase. -/
def joinedRequest : AgentRequest := { ca := some "a:b" }

/-- A secure request with certificate `ab` and key `c`. -/
def certRequest : AgentRequest := { cert := some "ab", key := some "c" }

/-- A secure request with certificate `a` and key `bc`. -/
def keyRequest : AgentRequest := { cert := some "a", key := some "bc" }

/-- A URL parser whose `parse` and `resolve` always throw. -/
def brokenParser : UrlParser :=
  { parse := fun _ => none, resolve := fun _ _ => none }

/-- An engine with `maxRedirects` 0 on a GET request whose URL parser always throws. -/
def brokenLimitState : State :=
  { redirect := { maxRedirects := 0 },
    request := { sampleRequest "GET" with urlParser := brokenParser } }

/-- A freshly constructed engine on a GET request whose URL parser always throws. -/
def brokenState : State :=
  { redirect := {}, request := { sampleRequest "GET" with urlParser := brokenParser } }

/-- The bounds on the engine's bookkeeping: `redirects.length <= redirectsFollowed` and
`redirectsFollowed <= maxRedirects`. -/
def Redirect.bounded (self : Redirect) : Prop :=
  self.redirects.length ≤ self.redirectsFollowed ∧
  (self.redirectsFollowed : Int) ≤ self.maxRedirects

/-- The record of a followed hop in the words of the specification: the status of the
redirecting response, and the target after any predicate override (a verdict that is a
string replaces the candidate), as it is when it is already absolute (it starts with
`http:` or `https:`) and resolved against the current URL otherwise. -/
def hopRecord (s : State) (response : Response) : List RedirectRecord :=
  match (redirectTo s response).2,
    verdict (redirectTo s response).1.redirect.allowRedirect
      (redirectTo s response).1.request response with
  | some candidate, some v =>
    let request := (redirectTo s response).1.request
    let target : Target :=
      match v with
      | .str override => .str override
      | _ => candidate
    let text : String :=
      match target with
      | .str x => x
      | .uri u => u.toString
    let absolute : Bool :=
      "http:".data.isPrefixOf text.data || "https:".data.isPrefixOf text.data
    let resolved : Target :=
      if absolute then target
      else
        match request.urlParser.resolve request.uri.href target with
        | some r => .str r
        | none => target
    [{ statusCode := response.statusCode, redirectUri := resolved }]
  | _, _ => []

/-- The records of the hops of a chain, in hop order. -/
def chainRecords (between : Request → Request) : State → List Response → List RedirectRecord
  | _, [] => []
  | s, r :: rs => hopRecord s r ++ chainRecords between (next between s r) rs

/-- The number of `redirect` events emitted along a chain. -/
def chainEmits (between : Request → Request) : State → List Response → Nat
  | _, [] => 0
  | s, r :: rs => redirectEmits (onResponse s r).events + chainEmits between (next between s r) rs

/-- The engine `after` comes from `self` by calls of `processRedirect` that emitted
`emitted` `redirect` events: the limit is the same, the counter did not decrease, the
records were extended at the end by one record for each event, by no more than the counter
grew, and the bounds are kept. -/
def Redirect.advances (self after : Redirect) (emitted : Nat) : Prop :=
  after.maxRedirects = self.maxRedirects ∧
  self.redirectsFollowed ≤ after.redirectsFollowed ∧
  self.redirects <+: after.redirects ∧
  emitted + self.redirects.length = after.redirects.length ∧
  after.redirects.length + self.redirectsFollowed ≤
    after.redirectsFollowed + self.redirects.length ∧
  (self.bounded → after.bounded)

/-- Whether a form value is a file-backed stream, and the path it is reopened on: a stream
with an own `fd` property and a truthy `path`. -/
def FormValue.filePath : FormValue → Option String
  | .stream ownFd path =>
    match path with
    | some p => if ownFd = true ∧ p ≠ "" then some p else none
    | none => none
  | .reopened p => if p ≠ "" then some p else none
  | .plain _ => none

/-- Whether a form value is a stream (its `pipe` is a function). -/
def FormValue.isStream : FormValue → Bool
  | .plain _ => false
  | _ => true

/-- The rebuilt form-data list in the words of the specification: the original list in its
order, without the falsy entries and without the entries whose value is a stream that is
not file-backed; a file-backed stream is replaced by a stream newly opened on its path, and
every other entry keeps its key, value and options. -/
def rebuiltFormData (formData : List (Option FormParam)) : List FormParam :=
  formData.filterMap (fun entry =>
    match entry with
    | none => none
    | some p =>
      if p.value.isStream then
        p.value.filePath.map (fun path => { p with value := .reopened path })
      else some p)

/-- A released form with no pending streams. -/
def releasedForm : Form := { _released := true, _streams := some 0 }

/-- A form-data list with a falsy entry, a plain field, a stream that is not file-backed
and a file-backed stream. -/
def sampleFormData : List (Option FormParam) :=
  [none,
   some { key := "name", value := .plain "postman" },
   some { key := "socket", value := .stream false none },
   some { key := "file", value := .stream true (some "/tmp/a.txt"), options := some "text" }]

/-- A closure state on a POST request with form data and a released form, with content
headers, for a 307 response. -/
def formCtx (form : Form) : Ctx :=
  { state :=
      { redirect := {},
        request :=
          { method := "POST", uri := sampleUri, urlParser := sampleParser,
            headers := [("Content-Type", "multipart/form-data; boundary=x"),
              ("content-length", "120")],
            formData := some sampleFormData, _form := some form } },
    redirectTo := .str "http://localhost/temp_landing" }

/-- An admission predicate of two parameters that calls its callback twice, each time with
`(null, true)`. -/
def twiceCallback : AllowRedirect :=
  { length := 2, returns := fun _ _ => .value .undefined,
    delivers := fun _ _ => [(none, .bool true), (none, .bool true)] }

/-! ## The base URL

The `baseUrl` block of `init` (request.js 324-354). Strings are sequences of characters;
the tests below look only at `/`, `:` and ASCII letters, so they read the same on UTF-16
code units. -/

/-- The method `String.prototype.indexOf` for a one-character search string: the index of
the first occurrence, or -1. -/
def indexOf (s : String) (c : Char) : Int :=
  if c ∈ s.data then (s.data.indexOf c : Int) else -1

/-- The method `String.prototype.lastIndexOf` for a one-character search string: the index
of the last occurrence, or -1. -/
def lastIndexOf (s : String) (c : Char) : Int :=
  if c ∈ s.data then (s.data.length : Int) - 1 - (s.data.reverse.indexOf c : Int) else -1

/-- The test `s.indexOf(search) === 0` for a non-empty search string. -/
def startsWith (s search : String) : Bool := search.data.isPrefixOf s.data

/-- A character of the class `[a-zA-Z0-9+.-]`. -/
def isSchemeChar (c : Char) : Bool := c.isAlphanum || c = '+' || c = '.' || c = '-'

/-- The test `uri.match(/^[a-zA-Z][a-zA-Z0-9+.-]*:\/\//)`. -/
def isSchemeUrl (uri : String) : Bool :=
  match uri.data with
  | c :: rest => c.isAlpha && "://".data.isPrefixOf (rest.dropWhile isSchemeChar)
  | [] => false

/-- The call `uri.slice(1)`. -/
def slice1 (uri : String) : String := ⟨uri.data.drop 1⟩

/-- The properties `uri` and `baseUrl` of the request while `init` runs. -/
structure UrlOptions where
  uri : JSValue := .undefined
  baseUrl : JSValue := .undefined
  deriving DecidableEq, Repr

/-- The `baseUrl` block of `init` (request.js 324-354): the request after the block, or the
error that is emitted when `init` returns early. -/
def initBaseUrl (self : UrlOptions) : Except Error UrlOptions :=
  if self.baseUrl.truthy then
    match self.baseUrl with
    | .str baseUrl =>
      match self.uri with
      | .str uri =>
        if startsWith uri "//" || isSchemeUrl uri then
          .error ⟨"options.uri must be a path when using options.baseUrl"⟩
        else
          let baseUrlEndsWithSlash : Bool :=
            decide (lastIndexOf baseUrl '/' = (baseUrl.data.length : Int) - 1)
          let uriStartsWithSlash : Bool := decide (indexOf uri '/' = 0)
          let joined :=
            if baseUrlEndsWithSlash && uriStartsWithSlash then baseUrl ++ slice1 uri
            else if baseUrlEndsWithSlash || uriStartsWithSlash then baseUrl ++ uri
            else if uri = "" then baseUrl
            else baseUrl ++ "/" ++ uri
          .ok { uri := .str joined, baseUrl := .undefined }
      | _ => .error ⟨"options.uri must be a string when using options.baseUrl"⟩
    | _ => .error ⟨"options.baseUrl must be a string"⟩
  else .ok self

/-- A string without one trailing `/`, if it has one. -/
def dropTrailingSlash (s : String) : String :=
  if s.data.getLast? = some '/' then ⟨s.data.dropLast⟩ else s

/-- A string without one leading `/`, if it has one. -/
def dropLeadingSlash (s : String) : String :=
  if s.data.head? = some '/' then ⟨s.data.tail⟩ else s

/-- What the four branches of request.js 343-351 compute, in closed form: `baseUrl` without
one trailing `/`, a `/`, and `uri` without one leading `/`; just `baseUrl` when `uri` is
empty. -/
def joinDroppingOneSlash (baseUrl uri : String) : String :=
  if uri = "" then baseUrl else dropTrailingSlash baseUrl ++ "/" ++ dropLeadingSlash uri

/-- A string without the `/` characters at its end. -/
def trimTrailingSlashes (s : String) : String :=
  ⟨(s.data.reverse.dropWhile (fun c => c = '/')).reverse⟩

/-- A string without the `/` characters at its start. -/
def trimLeadingSlashes (s : String) : String :=
  ⟨s.data.dropWhile (fun c => c = '/')⟩

/-- The combination in the words of the specification: `baseUrl` followed by `uri` with
exactly one `/` at the junction, whichever of the two carried the slash, and just
`baseUrl` when `uri` is empty. -/
def joinWithOneSlash (baseUrl uri : String) : String :=
  if uri = "" then baseUrl
  else trimTrailingSlashes baseUrl ++ "/" ++ trimLeadingSlashes uri

/-! ## The Host header

The Host step of `init` (request.js 422-434). -/

/-- The test of request.js 429-430: the port is the default port of the scheme. -/
def isDefaultPort (uri : Uri) : Bool :=
  (uri.port = some "80" && uri.protocol = some "http:") ||
  (uri.port = some "443" && uri.protocol = some "https:")

/-- The name under which `init` sets the header: `self.originalHostHeaderName || 'Host'`. -/
def hostHeaderName (r : Request) : String :=
  if truthyStr r.originalHostHeaderName then r.originalHostHeaderName.getD "" else "Host"

/-- The Host step of `init` (request.js 422-434): `setHost` becomes a boolean, and when the
request has no Host header and `setHost` holds, the header is set to `uri.host` and then,
for the default port of the scheme, to `uri.hostname`. -/
def Request.initHost (r : Request) : Request :=
  let setHost : Bool := decide (r.setHost = .undefined) || r.setHost.truthy
  let r := { r with setHost := .bool setHost }
  if (r.headers.has "host").isNone ∧ setHost = true then
    let hostHeaderName := hostHeaderName r
    let r := r.setHeader hostHeaderName (r.uri.host.getD "")
    if truthyStr r.uri.port then
      if isDefaultPort r.uri then r.setHeader hostHeaderName (r.uri.hostname.getD "")
      else r
    else r
  else r

/-- A request to `http://localhost:80/` without a Host header. -/
def defaultPortRequest : Request :=
  { uri := { href := "http://localhost:80/", protocol := some "http:",
             hostname := some "localhost", host := some "localhost:80", port := some "80" },
    urlParser := sampleParser, headers := [("accept", "*/*")] }

/-- A request to `http://localhost:8080/` without a Host header. -/
def otherPortRequest : Request :=
  { uri := { href := "http://localhost:8080/", protocol := some "http:",
             hostname := some "localhost", host := some "localhost:8080",
             port := some "8080" },
    urlParser := sampleParser, headers := [("accept", "*/*")] }

/-! ## The deferred send step

The function `end` that `init` defers (request.js 694-757): it pipes the form and a chunked
multipart body into the request, writes a body that is not a stream, and otherwise ends the
request, with a `Content-Length: 0` header for the methods that usually carry a body. -/

/-- A truthy or falsy `self.body`: a stream, an array of parts, a string, or a buffer of a
given length. -/
inductive SendBody where
  | stream
  | array (parts : List String)
  | text (s : String)
  | buffer (length : Nat)
  deriving DecidableEq, Repr

/-- Truthiness of a body: only the empty string is falsy. -/
def SendBody.truthy : SendBody → Bool
  | .text s => decide (s ≠ "")
  | _ => true

/-- The length that `setContentLength` computes for a body that is not a stream. -/
def SendBody.length : SendBody → Nat
  | .stream => 0
  | .array parts => (parts.map String.length).sum
  | .text s => s.utf8ByteSize
  | .buffer length => length

/-- The request as the deferred send step reads and writes it; `method` is `none` when
`self.method` is `undefined`, `_form`, `requestBodyStream`, `src` and `callback` say
whether the property is truthy, `multipartChunked` is `self._multipart &&
self._multipart.chunked`. -/
structure Sending where
  method : Option String := some "GET"
  headers : Headers := []
  _form : Bool := false
  multipartChunked : Bool := false
  body : Option SendBody := none
  requestBodyStream : Bool := false
  src : Bool := false
  hasAuth : Bool := false
  sentAuth : Bool := false
  callback : Bool := false
  deriving DecidableEq, Repr

/-- Calls made by the deferred send step. -/
inductive SendEvent where
  | formPipe
  | multipartPipe
  | bodyPipe
  | streamLength
  | requestBodyStreamPipe
  | abort
  | callback (err : Error)
  | emitError (err : Error)
  | write (part : String)
  | writeBody
  | end_
  deriving DecidableEq, Repr

/-- A stream piped into the request: the `pipe` handler of `init` (request.js 657-687) sets
`self.src` and may set headers and the method, which is `onPipe`. -/
def Sending.piped (r : Sending) (onPipe : Sending → Sending) : Sending :=
  { onPipe r with src := true }

/-- The function `setContentLength` of `init` (request.js 558-579). -/
def setContentLength (r : Sending) : Sending × List SendEvent :=
  if (r.headers.has "content-length").isSome then (r, [])
  else
    let length := (r.body.map SendBody.length).getD 0
    if length ≠ 0 then ({ r with headers := r.headers.set "Content-Length" (toString length) }, [])
    else (r, [.emitError ⟨"Argument error, options.body."⟩])

/-- The methods of the `switch` of request.js 740-752 for which no `Content-Length: 0` is
set: GET, HEAD, TRACE, DELETE, CONNECT, OPTIONS and `undefined`. -/
def isBodylessMethod (method : Option String) : Bool :=
  match method with
  | none => true
  | some m =>
    m = "GET" || m = "HEAD" || m = "TRACE" || m = "DELETE" || m = "CONNECT" || m = "OPTIONS"

/-- The branch of the deferred send step for a request without body (request.js 732-755),
taken when `self.body`, `self.requestBodyStream` and `self.src` are falsy. -/
def endWithoutBody (r : Sending) : Sending × List SendEvent :=
  if (r.hasAuth ∧ ¬ r.sentAuth) ∨ (r.headers.has "content-length").isSome then (r, [.end_])
  else if isBodylessMethod r.method then (r, [.end_])
  else ({ r with headers := r.headers.set "Content-Length" "0" }, [.end_])

/-- The body part of the deferred send step (request.js 707-756). -/
def endBody (r : Sending) (onPipe : Sending → Sending) : Sending × List SendEvent :=
  match r.body with
  | some body =>
    if body.truthy then
      match body with
      | .stream =>
        if (r.headers.has "content-length").isSome then (r.piped onPipe, [.bodyPipe])
        else (r, [.streamLength])
      | .array parts =>
        let sized := setContentLength r
        (sized.1, sized.2 ++ parts.map SendEvent.write ++ [.end_])
      | _ =>
        let sized := setContentLength r
        (sized.1, sized.2 ++ [.writeBody, .end_])
    else if r.requestBodyStream then (r.piped onPipe, [.requestBodyStreamPipe])
    else if r.src then (r, [])
    else endWithoutBody r
  | none =>
    if r.requestBodyStream then (r.piped onPipe, [.requestBodyStreamPipe])
    else if r.src then (r, [])
    else endWithoutBody r

/-- The function `end` of the deferred send step (request.js 694-757); `formPipeThrows` is
the error that `self._form.pipe(self)` throws, if any. -/
def deferredEnd (r : Sending) (formPipeThrows : Option Error) (onPipe : Sending → Sending) :
    Sending × List SendEvent :=
  if r._form ∧ (¬ r.hasAuth ∨ (r.hasAuth ∧ r.sentAuth)) then
    match formPipeThrows with
    | some err => (r, [.formPipe, .abort] ++ if r.callback then [.callback err] else [])
    | none =>
      let r := r.piped onPipe
      let piped := if r.multipartChunked then r.piped onPipe else r
      let sent := endBody piped onPipe
      (sent.1, [.formPipe] ++ (if r.multipartChunked then [.multipartPipe] else []) ++ sent.2)
  else
    let piped := if r.multipartChunked then r.piped onPipe else r
    let sent := endBody piped onPipe
    (sent.1, (if r.multipartChunked then [.multipartPipe] else []) ++ sent.2)

/-- A POST request with nothing to send. -/
def emptyPost : Sending := { method := some "POST", headers := [("accept", "*/*")] }

/-! ## The response body

The handlers of `readResponseBody` (request.js 1591-1649). `Buffer.prototype.toString` and
`JSON.parse` are parameters (`decode`, `jsonParse`; `none` when `JSON.parse` throws). -/

/-- The value of `response.body`. -/
inductive BodyValue where
  | undefined
  | buffer (bytes : List Nat)
  | text (s : String)
  | json (value : String)
  deriving DecidableEq, Repr

/-- The closure variables `buffers`, `bufferLength` and `strings`. -/
structure BodyBuffers where
  buffers : List (List Nat) := []
  bufferLength : Nat := 0
  strings : List String := []
  deriving DecidableEq, Repr

/-- The `data` handler of `readResponseBody` (request.js 1598-1605). -/
def readData (b : BodyBuffers) (chunk : Chunk) : BodyBuffers :=
  match chunk with
  | .text s => { b with strings := b.strings ++ [s] }
  | .buffer bytes =>
    if bytes.length ≠ 0 then
      { b with bufferLength := b.bufferLength + bytes.length, buffers := b.buffers ++ [bytes] }
    else b

/-- The byte-order mark U+FEFF. -/
def byteOrderMark : Char := Char.ofNat 0xFEFF

/-- The step of request.js 1630-1632: when the encoding is the string `utf8` and the first
string is not empty and starts with the byte-order mark, the mark is cut off
(`strings[0].substring(1)`). -/
def stripByteOrderMark (encoding : JSValue) (strings : List String) : List String :=
  match strings with
  | first :: rest =>
    if encoding = .str "utf8" ∧ 0 < first.length ∧ first.data.head? = some byteOrderMark then
      ⟨first.data.drop 1⟩ :: rest
    else strings
  | [] => []

/-- The `end` handler of `readResponseBody` (request.js 1606-1648): `none` when the request
is aborted (nothing is emitted), otherwise the body with which `complete` is emitted. -/
def readEnd (aborted : Bool) (encoding : JSValue) (json : Bool)
    (decode : JSValue → List Nat → String) (jsonParse : BodyValue → Option String)
    (b : BodyBuffers) : Option BodyValue :=
  if aborted then none
  else
    let body : BodyValue :=
      if b.bufferLength ≠ 0 then
        if encoding ≠ .null then .text (decode encoding b.buffers.flatten)
        else .buffer b.buffers.flatten
      else if b.strings.length ≠ 0 then
        .text (String.join (stripByteOrderMark encoding b.strings))
      else .undefined
    let body :=
      if json then
        match jsonParse body with
        | some value => .json value
        | none => body
      else body
    let body :=
      if body = .undefined ∧ json = false then
        if encoding = .null then .buffer [] else .text ""
      else body
    some body

/-- The method `readResponseBody` on a sequence of chunks followed by `end`. -/
def readResponseBody (aborted : Bool) (encoding : JSValue) (json : Bool)
    (decode : JSValue → List Nat → String) (jsonParse : BodyValue → Option String)
    (chunks : List Chunk) : Option BodyValue :=
  readEnd aborted encoding json decode jsonParse (chunks.foldl readData {})

/-- The binary chunks that are not empty, in arrival order. -/
def binaryChunks (chunks : List Chunk) : List (List Nat) :=
  chunks.filterMap (fun chunk =>
    match chunk with
    | .buffer bytes => if bytes.length ≠ 0 then some bytes else none
    | .text _ => none)

/-- The text chunks, in arrival order. -/
def textChunks (chunks : List Chunk) : List String :=
  chunks.filterMap (fun chunk =>
    match chunk with
    | .text s => some s
    | .buffer _ => none)

/-- The body before the JSON step, described from the chunks: the concatenation of the
non-empty binary chunks if there is one (decoded unless the encoding is `null`), else the
text chunks joined, the first one without its byte-order mark for the encoding `utf8`,
else nothing. -/
def rawBody (encoding : JSValue) (decode : JSValue → List Nat → String)
    (chunks : List Chunk) : BodyValue :=
  if binaryChunks chunks ≠ [] then
    if encoding ≠ .null then .text (decode encoding (binaryChunks chunks).flatten)
    else .buffer (binaryChunks chunks).flatten
  else if textChunks chunks ≠ [] then
    .text (String.join (stripByteOrderMark encoding (textChunks chunks)))
  else .undefined

/-- A decoder for the samples: every byte is the character with that code. -/
def sampleDecode : JSValue → List Nat → String :=
  fun _ bytes => ⟨bytes.map Char.ofNat⟩

/-- The closure state `crossHostCtx` with the hop limit reached (`maxRedirects` 0). -/
def crossHostLimitCtx : Ctx :=
  { crossHostCtx with
    state := { crossHostCtx.state with redirect := { maxRedirects := 0 } } }

/-- The closure state `agentCtx true` with the hop limit reached (`maxRedirects` 0). -/
def agentLimitCtx : Ctx :=
  { agentCtx true with
    state :=
      { (agentCtx true).state with
        redirect := { allowInsecureRedirect := true, maxRedirects := 0 } } }

/-- The state `challengedState` with the hop limit reached (`maxRedirects` 0). -/
def challengedLimitState : State :=
  { challengedState with redirect := { followRedirects := false, maxRedirects := 0 } }

/-! ## Header map lemmas -/

theorem Headers.has_eq_none_iff (h : Headers) (name : String) :
    h.has name = none ↔ ∀ kv ∈ h, lower kv.1 ≠ lower name := by
  unfold Headers.has
  simp [List.find?_eq_none]

theorem Headers.get_isSome_of_has (h : Headers) (name : String)
    (hh : (h.has name).isSome = true) : ∃ v, h.get name = some v := by
  unfold Headers.has at hh
  unfold Headers.get
  simp only [Option.isSome_map', List.find?_isSome] at hh
  obtain ⟨x, hx, hp⟩ := hh
  have hne : h.filter (fun kv => lower kv.1 == lower name) ≠ [] :=
    List.ne_nil_of_mem (List.mem_filter.mpr ⟨hx, hp⟩)
  rw [List.getLast?_eq_getLast _ hne]
  exact ⟨_, rfl⟩

theorem Headers.has_del_self (h : Headers) (n m : String) (hm : lower m = lower n) :
    (h.del n).has m = none := by
  rw [Headers.has_eq_none_iff]
  intro kv hkv
  have := (List.mem_filter.mp hkv).2
  simpa [hm] using this

theorem Headers.has_del_of_none (h : Headers) (n m : String) (hn : h.has m = none) :
    (h.del n).has m = none := by
  rw [Headers.has_eq_none_iff] at hn ⊢
  intro kv hkv
  exact hn kv (List.mem_filter.mp hkv).1

theorem Headers.has_set_of_none (h : Headers) (n v m : String) (hn : h.has m = none)
    (hnm : lower n ≠ lower m) : (h.set n v).has m = none := by
  rw [Headers.has_eq_none_iff] at hn ⊢
  intro kv hkv
  unfold Headers.set at hkv
  split at hkv
  · obtain ⟨x, hx, hxe⟩ := List.mem_map.mp hkv
    have hk : kv.1 = x.1 := by
      rw [← hxe]
      split <;> rfl
    rw [hk]
    exact hn x hx
  · rcases List.mem_append.mp hkv with hx | hx
    · exact hn kv hx
    · have : kv = (n, v) := by simpa using hx
      rw [this]
      exact hnm

theorem Headers.filter_map_of_fixed (h : Headers) (p : String × String → Bool)
    (f : String × String → String × String)
    (hf : ∀ kv, p (f kv) = p kv ∧ (p kv = true → f kv = kv)) :
    (h.map f).filter p = h.filter p := by
  induction h with
  | nil => rfl
  | cons x xs ih =>
    rw [List.map_cons, List.filter_cons, List.filter_cons, (hf x).1, ih]
    by_cases hp : p x = true
    · rw [if_pos hp, if_pos hp, (hf x).2 hp]
    · rw [if_neg hp, if_neg hp]

theorem Headers.get_del (h : Headers) (n m : String) (hnm : lower m ≠ lower n) :
    (h.del n).get m = h.get m := by
  unfold Headers.get Headers.del
  rw [List.filter_filter]
  congr 2
  apply List.filter_congr
  intro kv _
  by_cases hk : lower kv.1 = lower m
  · have : lower kv.1 ≠ lower n := fun hc => hnm (hk ▸ hc)
    simp [hk, hnm]
  · simp [hk]

theorem Headers.get_set (h : Headers) (n v m : String) (hnm : lower m ≠ lower n) :
    (h.set n v).get m = h.get m := by
  unfold Headers.get
  congr 2
  unfold Headers.set
  split
  · next k hk =>
    have hkn : lower k = lower n := by
      unfold Headers.has at hk
      obtain ⟨x, hx, hxk⟩ := Option.map_eq_some'.mp hk
      have := List.find?_some hx
      rw [← hxk]
      simpa using this
    apply Headers.filter_map_of_fixed
    intro kv
    constructor
    · split <;> rfl
    · intro hp
      have hne : kv.1 ≠ k := by
        intro hc
        apply hnm
        have : lower kv.1 = lower m := by simpa using hp
        rw [← this, hc, hkn]
      rw [if_neg hne]
  · rw [List.filter_append]
    have : List.filter (fun kv => lower kv.1 == lower m) [(n, v)] = [] := by
      simp [List.filter_cons, Ne.symm hnm]
    rw [this, List.append_nil]

/-! ## Lemmas on `processRedirect` and `onResponse` -/

theorem processRedirect_falsy (response : Response) (c : Ctx) (v : JSValue)
    (hv : v.truthy = false) :
    processRedirect response c v = { c with events := c.events ++ [.callback none false] } := by
  simp [processRedirect, hv]

theorem processRedirect_exceeded (response : Response) (c : Ctx) (v : JSValue)
    (hv : v.truthy = true)
    (hlim : c.state.redirect.maxRedirects ≤ (c.state.redirect.redirectsFollowed : Int)) :
    processRedirect response c v =
      { state := c.state, redirectTo := overridden v c.redirectTo,
        events := (if response.resume then c.events ++ [.resume] else c.events) ++
          [.callback (some ⟨"Exceeded maxRedirects. Probably stuck in a redirect loop " ++
            c.state.request.uri.href⟩) false] } := by
  simp [processRedirect, hv, hlim]

theorem processRedirect_unparsed (response : Response) (c : Ctx) (v : JSValue) (t : Target)
    (hv : v.truthy = true)
    (hlim : (c.state.redirect.redirectsFollowed : Int) < c.state.redirect.maxRedirects)
    (hparse : resolveTarget c.state.request (overridden v c.redirectTo) = (t, none)) :
    processRedirect response c v =
      { state :=
          { redirect :=
              { c.state.redirect with redirectsFollowed := c.state.redirect.redirectsFollowed + 1 },
            request := c.state.request },
        redirectTo := t,
        events := (if response.resume then c.events ++ [.resume] else c.events) ++
          [.callback (some ⟨"Failed to parse url: " ++ c.state.request.uri.href⟩) false] } := by
  simp [processRedirect, hv, not_le.mpr hlim, hparse]

theorem processRedirect_followed (response : Response) (c : Ctx) (v : JSValue) (t : Target)
    (u : Uri) (hv : v.truthy = true)
    (hlim : (c.state.redirect.redirectsFollowed : Int) < c.state.redirect.maxRedirects)
    (hparse : resolveTarget c.state.request (overridden v c.redirectTo) = (t, some u)) :
    processRedirect response c v =
      { state :=
          { redirect :=
              { c.state.redirect with
                redirectsFollowed := c.state.redirect.redirectsFollowed + 1,
                redirects := c.state.redirect.redirects ++
                  [{ statusCode := response.statusCode, redirectUri := t }] },
            request := (applyRedirect c.state.redirect response.statusCode u c.state.request).1 },
        redirectTo := t,
        events := (if response.resume then c.events ++ [.resume] else c.events) ++
          [.emitRedirect,
           .init (applyRedirect c.state.redirect response.statusCode u c.state.request).2,
           .callback none true] } := by
  simp [processRedirect, hv, not_le.mpr hlim, hparse, applyRedirect, stripHostHeaders,
    switchMethod, dropAgent, setReferer]

theorem onResponse_of_verdict (s : State) (response : Response) (t : Target) (v : JSValue)
    (hcand : (redirectTo s response).2 = some t) (ht : t.truthy = true)
    (hver : verdict (redirectTo s response).1.redirect.allowRedirect
      (redirectTo s response).1.request response = some v) :
    (onResponse s response).state =
      (processRedirect response { state := (redirectTo s response).1, redirectTo := t } v).state ∧
    (onResponse s response).events =
      (processRedirect response { state := (redirectTo s response).1, redirectTo := t } v).events := by
  unfold onResponse
  simp only [hcand, ht]
  unfold verdict at hver
  by_cases hlen : 1 < (redirectTo s response).1.redirect.allowRedirect.length
  · simp only [hlen, if_true] at hver ⊢
    split at hver
    · next hd =>
      simp only [Option.some.injEq] at hver
      subst hver
      simp [hd, deliver]
    · exact absurd hver (by simp)
  · simp only [hlen, if_false] at hver ⊢
    split at hver
    · next hr =>
      simp only [Option.some.injEq] at hver
      subst hver
      simp [hr]
    · next hr =>
      simp only [Option.some.injEq] at hver
      subst hver
      simp [hr]
    · exact absurd hver (by simp)

theorem redirectTo_redirect (s : State) (response : Response) :
    (redirectTo s response).1.redirect = s.redirect := by
  unfold redirectTo
  repeat' split
  all_goals rfl

theorem redirectTo_state (s : State) (response : Response)
    (h : response.statusCode ≠ 401) : (redirectTo s response).1 = s := by
  unfold redirectTo
  repeat' split
  all_goals rfl

/-! ## Lemmas on the stages of `processRedirect` -/

theorem lower_literals :
    lower "host" = "host" ∧ lower "authorization" = "authorization" ∧
    lower "content-type" = "content-type" ∧ lower "content-length" = "content-length" ∧
    lower "Referer" = "referer" := by decide

theorem dropAgent_fields (self : Redirect) (uriPrev : Uri) (request : Request) :
    (dropAgent self uriPrev request).headers = request.headers ∧
    (dropAgent self uriPrev request).method = request.method ∧
    (dropAgent self uriPrev request).body = request.body ∧
    (dropAgent self uriPrev request)._multipart = request._multipart ∧
    (dropAgent self uriPrev request)._form = request._form ∧
    (dropAgent self uriPrev request).formData = request.formData ∧
    (dropAgent self uriPrev request).uri = request.uri := by
  unfold dropAgent
  split <;> simp

theorem stripHostHeaders_fields (self : Redirect) (uriPrev : Uri) (request : Request) :
    (stripHostHeaders self uriPrev request).method = request.method ∧
    (stripHostHeaders self uriPrev request).body = request.body ∧
    (stripHostHeaders self uriPrev request)._multipart = request._multipart ∧
    (stripHostHeaders self uriPrev request)._form = request._form ∧
    (stripHostHeaders self uriPrev request).formData = request.formData ∧
    (stripHostHeaders self uriPrev request).uri = request.uri := by
  unfold stripHostHeaders
  split
  · split <;> simp [Request.removeHeader]
  · simp

theorem switchMethod_fields (self : Redirect) (statusCode : Nat) (request : Request) :
    (switchMethod self statusCode request).formData = request.formData ∧
    (switchMethod self statusCode request).uri = request.uri := by
  unfold switchMethod
  split
  · split <;> simp [Request.removeHeader]
  · simp

theorem restoreFormData_fields (request : Request) :
    (restoreFormData request).1.method = request.method ∧
    (restoreFormData request).1.body = request.body ∧
    (restoreFormData request).1._multipart = request._multipart ∧
    (restoreFormData request).1.uri = request.uri := by
  unfold restoreFormData
  split
  · split <;> simp [Request.removeHeader]
  · simp

theorem setReferer_fields (self : Redirect) (uriPrev : Uri) (request : Request) :
    (setReferer self uriPrev request).method = request.method ∧
    (setReferer self uriPrev request).body = request.body ∧
    (setReferer self uriPrev request)._multipart = request._multipart ∧
    (setReferer self uriPrev request)._form = request._form ∧
    (setReferer self uriPrev request).uri = request.uri := by
  unfold setReferer
  split <;> simp [Request.setHeader]

theorem switchMethod_has_none (self : Redirect) (statusCode : Nat) (request : Request)
    (m : String) (h : request.headers.has m = none) :
    (switchMethod self statusCode request).headers.has m = none := by
  unfold switchMethod
  split
  · simp only [Request.removeHeader]
    split <;> exact Headers.has_del_of_none _ _ _ (Headers.has_del_of_none _ _ _ h)
  · exact h

theorem restoreFormData_has_none (request : Request) (m : String)
    (h : request.headers.has m = none) :
    (restoreFormData request).1.headers.has m = none := by
  unfold restoreFormData
  split
  · split
    · exact Headers.has_del_of_none _ _ _ (Headers.has_del_of_none _ _ _ h)
    · exact h
  · exact h

theorem setReferer_has_none (self : Redirect) (uriPrev : Uri) (request : Request)
    (m : String) (hm : lower m ≠ "referer") (h : request.headers.has m = none) :
    (setReferer self uriPrev request).headers.has m = none := by
  unfold setReferer
  split
  · exact h
  · exact Headers.has_set_of_none _ _ _ _ h (by rw [lower_literals.2.2.2.2]; exact Ne.symm hm)

theorem switchMethod_get (self : Redirect) (statusCode : Nat) (request : Request)
    (m : String) (h1 : lower m ≠ "content-type") (h2 : lower m ≠ "content-length") :
    (switchMethod self statusCode request).headers.get m = request.headers.get m := by
  unfold switchMethod
  split
  · simp only [Request.removeHeader]
    split <;>
    · rw [Headers.get_del _ _ _ (by rw [lower_literals.2.2.2.1]; exact h2),
        Headers.get_del _ _ _ (by rw [lower_literals.2.2.1]; exact h1)]
  · rfl

theorem restoreFormData_get (request : Request) (m : String)
    (h1 : lower m ≠ "content-type") (h2 : lower m ≠ "content-length") :
    (restoreFormData request).1.headers.get m = request.headers.get m := by
  unfold restoreFormData
  split
  · split
    · simp only [Request.removeHeader]
      rw [Headers.get_del _ _ _ (by rw [lower_literals.2.2.2.1]; exact h2),
        Headers.get_del _ _ _ (by rw [lower_literals.2.2.1]; exact h1)]
    · rfl
  · rfl

theorem setReferer_get (self : Redirect) (uriPrev : Uri) (request : Request)
    (m : String) (hm : lower m ≠ "referer") :
    (setReferer self uriPrev request).headers.get m = request.headers.get m := by
  unfold setReferer
  split
  · rfl
  · exact Headers.get_set _ _ _ _ (by rw [lower_literals.2.2.2.2]; exact hm)

/-- Headers of the request after `applyRedirect`, as the stages applied to the headers left
by host and authorization stripping. -/
theorem applyRedirect_has_none (self : Redirect) (statusCode : Nat) (u : Uri)
    (request : Request) (m : String) (hm : lower m ≠ "referer")
    (h : (stripHostHeaders self request.uri
      (dropAgent self request.uri { request with uri := u })).headers.has m = none) :
    (applyRedirect self statusCode u request).1.headers.has m = none := by
  unfold applyRedirect
  apply setReferer_has_none _ _ _ _ hm
  apply restoreFormData_has_none
  apply switchMethod_has_none
  exact h

theorem applyRedirect_get (self : Redirect) (statusCode : Nat) (u : Uri)
    (request : Request) (m : String) (hm : lower m ≠ "referer")
    (h1 : lower m ≠ "content-type") (h2 : lower m ≠ "content-length") :
    (applyRedirect self statusCode u request).1.headers.get m =
      (stripHostHeaders self request.uri
        (dropAgent self request.uri { request with uri := u })).headers.get m := by
  unfold applyRedirect
  simp only
  rw [setReferer_get _ _ _ _ hm, restoreFormData_get _ _ h1 h2, switchMethod_get _ _ _ _ h1 h2]
  rfl

/-! ## Lemmas on admission and chains -/

theorem admitted_iff (s : State) (response : Response) :
    admitted s response = true ↔
      ∃ t v, (redirectTo s response).2 = some t ∧ t.truthy = true ∧
        verdict (redirectTo s response).1.redirect.allowRedirect
          (redirectTo s response).1.request response = some v ∧ v.truthy = true := by
  unfold admitted
  cases h1 : (redirectTo s response).2 with
  | none => simp
  | some t =>
    cases h2 : verdict (redirectTo s response).1.redirect.allowRedirect
        (redirectTo s response).1.request response with
    | none => simp
    | some v => simp

theorem redirectTo_uri (s : State) (response : Response) :
    (redirectTo s response).1.request.uri = s.request.uri := by
  unfold redirectTo
  repeat' split
  all_goals rfl

theorem redirectTo_method (s : State) (response : Response) :
    (redirectTo s response).1.request.method = s.request.method := by
  unfold redirectTo
  repeat' split
  all_goals rfl

theorem onRequest_restoreFormData (self : Redirect) (request : Request) :
    onRequest self (restoreFormData request).2 = self := by
  unfold restoreFormData
  split
  · split <;> rfl
  · rfl

theorem onRequest_redirectsFollowed (self : Redirect) (options : Options) :
    (onRequest self options).redirectsFollowed = self.redirectsFollowed ∧
    (onRequest self options).redirects = self.redirects := by
  unfold onRequest
  repeat' split
  all_goals exact ⟨rfl, rfl⟩

theorem callbacks_append (xs ys : List Event) :
    callbacks (xs ++ ys) = callbacks xs ++ callbacks ys := by
  induction xs with
  | nil => rfl
  | cons x xs ih => cases x <;> simp [callbacks, ih]

theorem initCalls_append (xs ys : List Event) :
    initCalls (xs ++ ys) = initCalls xs ++ initCalls ys := by
  induction xs with
  | nil => rfl
  | cons x xs ih => cases x <;> simp [initCalls, ih]

theorem redirectEmits_append (xs ys : List Event) :
    redirectEmits (xs ++ ys) = redirectEmits xs + redirectEmits ys := by
  induction xs with
  | nil => simp [redirectEmits]
  | cons x xs ih =>
    cases x
    all_goals simp [redirectEmits, ih]
    omega

/-- One admitted response below the limit: it is followed and the hop counter grows by
one; the re-run of `init` leaves counter and limit alone. -/
theorem admitted_step (between : Request → Request) (s : State) (response : Response)
    (hadm : admitted s response = true) (hparse : parseable s response = true)
    (hlim : (s.redirect.redirectsFollowed : Int) < s.redirect.maxRedirects) :
    callbacks (onResponse s response).events = [(none, true)] ∧
    redirectEmits (onResponse s response).events = 1 ∧
    (onResponse s response).state.redirect.redirectsFollowed =
      s.redirect.redirectsFollowed + 1 ∧
    (next between s response).redirect.redirectsFollowed = s.redirect.redirectsFollowed + 1 ∧
    (next between s response).redirect.maxRedirects = s.redirect.maxRedirects := by
  obtain ⟨t, v, hcand, ht, hver, hv⟩ := (admitted_iff s response).mp hadm
  have hp : ∃ t2 u, resolveTarget (redirectTo s response).1.request (overridden v t) =
      (t2, some u) := by
    unfold parseable at hparse
    simp only [hcand, hver] at hparse
    obtain ⟨u, hu⟩ := Option.isSome_iff_exists.mp hparse
    exact ⟨_, u, Prod.ext rfl hu⟩
  obtain ⟨t2, u, hres⟩ := hp
  obtain ⟨hst, hev⟩ := onResponse_of_verdict s response t v hcand ht hver
  have hlim2 : (((redirectTo s response).1.redirect.redirectsFollowed : Nat) : Int) <
      (redirectTo s response).1.redirect.maxRedirects := by
    rw [redirectTo_redirect]; exact hlim
  have hfol := processRedirect_followed response
    { state := (redirectTo s response).1, redirectTo := t } v t2 u hv hlim2 hres
  rw [hfol] at hst hev
  simp only [redirectTo_redirect] at hst hev
  have hcb : callbacks (onResponse s response).events = [(none, true)] := by
    rw [hev]; cases response.resume <;> simp [callbacks]
  have hem : redirectEmits (onResponse s response).events = 1 := by
    rw [hev]; cases response.resume <;> simp [redirectEmits]
  have hinit : initCalls (onResponse s response).events =
      [(applyRedirect s.redirect response.statusCode u (redirectTo s response).1.request).2] := by
    rw [hev]; cases response.resume <;> simp [initCalls]
  have hre : (next between s response).redirect = (onResponse s response).state.redirect := by
    simp only [next, reinit, hinit, List.foldl_cons, List.foldl_nil]
    unfold applyRedirect
    exact onRequest_restoreFormData _ _
  refine ⟨hcb, hem, ?_, ?_, ?_⟩
  · rw [hst]
  · rw [hre, hst]
  · rw [hre, hst]

theorem run_chain (between : Request → Request) (m : Nat) :
    ∀ (rs : List Response) (s : State) (k : Nat),
      s.redirect.redirectsFollowed = k → s.redirect.maxRedirects = (m : Int) →
      k + rs.length ≤ m → chainAdmitted between s rs = true →
      (run between s rs).length = rs.length ∧
      (∀ i o, (run between s rs)[i]? = some o →
        callbacks o.events = [(none, true)] ∧ redirectEmits o.events = 1 ∧
        o.state.redirect.redirectsFollowed = k + i + 1) ∧
      (runState between s rs).redirect.redirectsFollowed = k + rs.length ∧
      (runState between s rs).redirect.maxRedirects = (m : Int) := by
  intro rs
  induction rs with
  | nil =>
    intro s k hk hm _ _
    simp [run, runState, hk, hm]
  | cons r rs ih =>
    intro s k hk hm hlen hchain
    simp only [chainAdmitted, Bool.and_eq_true] at hchain
    obtain ⟨⟨hadm, hparse⟩, hrest⟩ := hchain
    simp only [List.length_cons] at hlen
    have hlim : (s.redirect.redirectsFollowed : Int) < s.redirect.maxRedirects := by
      rw [hk, hm]; exact_mod_cast (by omega : k < m)
    obtain ⟨hcb, hem, hcnt, hnk, hnm⟩ := admitted_step between s r hadm hparse hlim
    obtain ⟨il, ih1, ih2, ih3⟩ := ih (next between s r) (k + 1) (by rw [hnk, hk])
      (by rw [hnm, hm]) (by omega) hrest
    refine ⟨by simp [run, il], ?_, ?_, ?_⟩
    · intro i o hio
      cases i with
      | zero =>
        simp only [run, List.getElem?_cons_zero, Option.some.injEq] at hio
        subst hio
        exact ⟨hcb, hem, by rw [hcnt, hk]⟩
      | succ j =>
        simp only [run, List.getElem?_cons_succ] at hio
        obtain ⟨a, b, c⟩ := ih1 j o hio
        exact ⟨a, b, by rw [c]; omega⟩
    · simp only [runState, List.length_cons]; rw [ih2]; omega
    · simp only [runState]; exact ih3

/-! ## Decision: which responses are candidates -/

/-- C1: for a 3xx response with a Location header, when followAllRedirects is false and the
method is PATCH, PUT, POST or DELETE, redirectTo returns null whatever followRedirects and
the admission predicate are, and onResponse calls back (null, false) once and leaves the
engine and the request as they were. -/
theorem redirectTo_unsafe_method_null (s : State) (response : Response)
    (hstatus : 300 ≤ response.statusCode ∧ response.statusCode < 400)
    (hloc : (response.headers.has "location").isSome = true)
    (hall : s.redirect.followAllRedirects = false)
    (hmethod : s.request.method = "PATCH" ∨ s.request.method = "PUT" ∨
      s.request.method = "POST" ∨ s.request.method = "DELETE") :
    redirectTo s response = (s, none) ∧
    onResponse s response = { state := s, events := [.callback none false], raised := none } := by
  have hm : isUnsafeMethod s.request.method = true := by
    rcases hmethod with h | h | h | h <;> rw [h] <;> decide
  have h1 : redirectTo s response = (s, none) := by
    unfold redirectTo
    rw [if_pos ⟨hstatus.1, hstatus.2, hloc⟩]
    simp [hall, hm]
  exact ⟨h1, by simp [onResponse, h1]⟩

theorem redirectTo_unsafe_method_null_witness :
    redirectTo (sampleState "POST") (sampleResponse 301) = (sampleState "POST", none) ∧
    onResponse (sampleState "POST") (sampleResponse 301) =
      { state := sampleState "POST", events := [.callback none false], raised := none } :=
  redirectTo_unsafe_method_null (sampleState "POST") (sampleResponse 301)
    (by decide) (by decide) (by decide) (by decide)

/-- C2: for a 3xx response with a Location header, when followAllRedirects is true,
redirectTo returns exactly the Location value, for every method and every setting of
followRedirects, and leaves the state as it was. -/
theorem redirectTo_followAllRedirects (s : State) (response : Response)
    (hstatus : 300 ≤ response.statusCode ∧ response.statusCode < 400)
    (hloc : (response.headers.has "location").isSome = true)
    (hall : s.redirect.followAllRedirects = true) :
    ∃ location, response.headers.get "location" = some location ∧
      redirectTo s response = (s, some (.str location)) := by
  obtain ⟨v, hv⟩ := Headers.get_isSome_of_has response.headers "location" hloc
  refine ⟨v, hv, ?_⟩
  unfold redirectTo
  rw [if_pos ⟨hstatus.1, hstatus.2, hloc⟩]
  simp [hall, hv]

theorem redirectTo_followAllRedirects_witness :
    ∃ location, (sampleResponse 301).headers.get "location" = some location ∧
      redirectTo
        { redirect := { followAllRedirects := true, followRedirects := false },
          request := sampleRequest "DELETE" } (sampleResponse 301) =
        ({ redirect := { followAllRedirects := true, followRedirects := false },
           request := sampleRequest "DELETE" }, some (.str location)) :=
  redirectTo_followAllRedirects
    { redirect := { followAllRedirects := true, followRedirects := false },
      request := sampleRequest "DELETE" } (sampleResponse 301)
    (by decide) (by decide) rfl

/-- C3: redirectTo returns null, and onResponse calls back (null, false) once and changes
nothing, when the status is neither 3xx nor 401, or when a 3xx response has no Location
header, or when a 3xx response has a Location header while the engine was configured by
onRequest with followRedirect false and followAllRedirects is false. -/
theorem redirectTo_no_candidate (s : State) (response : Response)
    (h : (¬ (300 ≤ response.statusCode ∧ response.statusCode < 400) ∧
            response.statusCode ≠ 401) ∨
         (300 ≤ response.statusCode ∧ response.statusCode < 400 ∧
            response.headers.has "location" = none) ∨
         (300 ≤ response.statusCode ∧ response.statusCode < 400 ∧
            (response.headers.has "location").isSome = true ∧
            (∃ (e : Redirect) (o : Options),
              o.followRedirect = some (Sum.inl false) ∧ s.redirect = onRequest e o) ∧
            s.redirect.followAllRedirects = false)) :
    redirectTo s response = (s, none) ∧
    onResponse s response = { state := s, events := [.callback none false], raised := none } := by
  have h1 : redirectTo s response = (s, none) := by
    rcases h with ⟨h3, h4⟩ | ⟨h3, h4, hl⟩ | ⟨h3, h4, hl, ⟨e, o, ho, hs⟩, hall⟩
    · unfold redirectTo
      rw [if_neg (fun hc => h3 ⟨hc.1, hc.2.1⟩), if_neg h4]
    · unfold redirectTo
      have h401 : response.statusCode ≠ 401 := by omega
      rw [if_neg (fun hc => by simp [hl] at hc), if_neg h401]
    · have hfr : s.redirect.followRedirects = false := by
        rw [hs]
        simp only [onRequest, ho]
        repeat' split
        all_goals rfl
      unfold redirectTo
      rw [if_pos ⟨h3, h4, hl⟩]
      simp [hall, hfr]
  exact ⟨h1, by simp [onResponse, h1]⟩

theorem redirectTo_no_candidate_witness :
    (redirectTo (sampleState "GET") { statusCode := 200 } = (sampleState "GET", none) ∧
      onResponse (sampleState "GET") { statusCode := 200 } =
        { state := sampleState "GET", events := [.callback none false], raised := none }) ∧
    (redirectTo (sampleState "GET") { statusCode := 302 } = (sampleState "GET", none) ∧
      onResponse (sampleState "GET") { statusCode := 302 } =
        { state := sampleState "GET", events := [.callback none false], raised := none }) ∧
    (redirectTo
        { redirect := onRequest {} { followRedirect := some (Sum.inl false) },
          request := sampleRequest "GET" } (sampleResponse 302) =
        ({ redirect := onRequest {} { followRedirect := some (Sum.inl false) },
           request := sampleRequest "GET" }, none) ∧
      onResponse
        { redirect := onRequest {} { followRedirect := some (Sum.inl false) },
          request := sampleRequest "GET" } (sampleResponse 302) =
        { state :=
            { redirect := onRequest {} { followRedirect := some (Sum.inl false) },
              request := sampleRequest "GET" },
          events := [.callback none false], raised := none }) :=
  ⟨redirectTo_no_candidate (sampleState "GET") { statusCode := 200 }
      (Or.inl (by decide)),
   redirectTo_no_candidate (sampleState "GET") { statusCode := 302 }
      (Or.inr (Or.inl (by decide))),
   redirectTo_no_candidate
      { redirect := onRequest {} { followRedirect := some (Sum.inl false) },
        request := sampleRequest "GET" } (sampleResponse 302)
      (Or.inr (Or.inr ⟨by decide, by decide, by decide,
        ⟨{}, { followRedirect := some (Sum.inl false) }, rfl, rfl⟩, rfl⟩))⟩

/-! ## The hop limit -/

/-- C4: from a fresh engine (redirectsFollowed = 0) with maxRedirects = m, along a chain of
admitted redirects with parseable targets, every one of the first h ≤ m responses is
followed (one callback (null, true), one redirect event) and leaves the hop counter at its
position in the chain, so the counter grows by exactly one per hop; after m followed hops a
further admitted redirect gets the single callback with the error
'Exceeded maxRedirects. Probably stuck in a redirect loop ' and the current href, emits no
redirect event, does not re-run init and leaves the counter at m. -/
theorem chain_maxRedirects (between : Request → Request) (m : Nat) (s : State)
    (rs : List Response) (extra : Response)
    (hfresh : s.redirect.redirectsFollowed = 0)
    (hmax : s.redirect.maxRedirects = (m : Int))
    (hlen : rs.length ≤ m)
    (hchain : chainAdmitted between s rs = true) :
    (run between s rs).length = rs.length ∧
    (∀ i o, (run between s rs)[i]? = some o →
      callbacks o.events = [(none, true)] ∧ redirectEmits o.events = 1 ∧
      o.state.redirect.redirectsFollowed = i + 1) ∧
    (rs.length = m → admitted (runState between s rs) extra = true →
      callbacks (onResponse (runState between s rs) extra).events =
        [(some ⟨"Exceeded maxRedirects. Probably stuck in a redirect loop " ++
          (runState between s rs).request.uri.href⟩, false)] ∧
      redirectEmits (onResponse (runState between s rs) extra).events = 0 ∧
      initCalls (onResponse (runState between s rs) extra).events = [] ∧
      (onResponse (runState between s rs) extra).state.redirect.redirectsFollowed = m ∧
      (onResponse (runState between s rs) extra).state.request.uri =
        (runState between s rs).request.uri) := by
  obtain ⟨h1, h2, h3, h4⟩ := run_chain between m rs s 0 hfresh hmax (by omega) hchain
  refine ⟨h1, ?_, ?_⟩
  · intro i o hio
    obtain ⟨a, b, c⟩ := h2 i o hio
    exact ⟨a, b, by rw [c]; omega⟩
  · intro hfull hadm
    obtain ⟨t, v, hcand, ht, hver, hv⟩ := (admitted_iff _ extra).mp hadm
    obtain ⟨hst, hev⟩ := onResponse_of_verdict _ extra t v hcand ht hver
    have hlim : (redirectTo (runState between s rs) extra).1.redirect.maxRedirects ≤
        ((redirectTo (runState between s rs) extra).1.redirect.redirectsFollowed : Int) := by
      rw [redirectTo_redirect, h3, h4, hfull]; simp
    have hex := processRedirect_exceeded extra
      { state := (redirectTo (runState between s rs) extra).1, redirectTo := t } v hv hlim
    rw [hex] at hst hev
    simp only [redirectTo_uri] at hev
    refine ⟨?_, ?_, ?_, ?_, ?_⟩
    · rw [hev]; cases extra.resume <;> simp [callbacks]
    · rw [hev]; cases extra.resume <;> simp [redirectEmits]
    · rw [hev]; cases extra.resume <;> simp [initCalls]
    · rw [hst, redirectTo_redirect, h3]; omega
    · rw [hst, redirectTo_uri]

theorem chain_maxRedirects_witness :
    (run id { redirect := { maxRedirects := 2 }, request := sampleRequest "GET" }
      [sampleResponse 301, sampleResponse 301]).length = 2 ∧
    (∀ i o, (run id { redirect := { maxRedirects := 2 }, request := sampleRequest "GET" }
        [sampleResponse 301, sampleResponse 301])[i]? = some o →
      callbacks o.events = [(none, true)] ∧ redirectEmits o.events = 1 ∧
      o.state.redirect.redirectsFollowed = i + 1) ∧
    callbacks (onResponse
      (runState id { redirect := { maxRedirects := 2 }, request := sampleRequest "GET" }
        [sampleResponse 301, sampleResponse 301]) (sampleResponse 301)).events =
      [(some ⟨"Exceeded maxRedirects. Probably stuck in a redirect loop " ++
        (runState id { redirect := { maxRedirects := 2 }, request := sampleRequest "GET" }
          [sampleResponse 301, sampleResponse 301]).request.uri.href⟩, false)] :=
  have h := chain_maxRedirects id 2
    { redirect := { maxRedirects := 2 }, request := sampleRequest "GET" }
    [sampleResponse 301, sampleResponse 301] (sampleResponse 301) rfl rfl (by decide)
    (by decide)
  ⟨h.1, h.2.1, (h.2.2 rfl (by decide)).1⟩


/-! ## What a followed redirect does to the request -/

theorem applyRedirect_uri (self : Redirect) (statusCode : Nat) (u : Uri) (request : Request) :
    (applyRedirect self statusCode u request).1.uri = u := by
  unfold applyRedirect
  simp only
  rw [(setReferer_fields _ _ _).2.2.2.2, (restoreFormData_fields _).2.2.2,
    (switchMethod_fields _ _ _).2]
  show (stripHostHeaders _ _ _).uri = u
  rw [(stripHostHeaders_fields _ _ _).2.2.2.2.2, (dropAgent_fields _ _ _).2.2.2.2.2.2]

theorem redirectTo_request (s : State) (response : Response) :
    (redirectTo s response).1.request =
      { s.request with headers := (redirectTo s response).1.request.headers } := by
  unfold redirectTo
  repeat' split
  all_goals rfl

theorem stripHostHeaders_changed (self : Redirect) (uriPrev : Uri) (request : Request)
    (h : uriPrev.hostname ≠ request.uri.hostname) :
    (∀ name, lower name = "host" →
      (stripHostHeaders self uriPrev request).headers.has name = none) ∧
    (self.followAuthorizationHeader = false → ∀ name, lower name = "authorization" →
      (stripHostHeaders self uriPrev request).headers.has name = none) := by
  unfold stripHostHeaders
  rw [if_pos h]
  constructor
  · intro name hn
    have hd : (request.headers.del "host").has name = none :=
      Headers.has_del_self _ _ _ (by rw [hn, lower_literals.1])
    split
    · exact hd
    · exact Headers.has_del_of_none _ _ _ hd
  · intro hf name hn
    simp only [hf, Bool.false_eq_true, if_false, Request.removeHeader]
    exact Headers.has_del_self _ _ _ (by rw [hn, lower_literals.2.1])

theorem stripHostHeaders_authorization (self : Redirect) (uriPrev : Uri) (request : Request)
    (h : uriPrev.hostname = request.uri.hostname ∨ self.followAuthorizationHeader = true) :
    (stripHostHeaders self uriPrev request).headers.get "authorization" =
      request.headers.get "authorization" := by
  unfold stripHostHeaders
  split
  · next hne =>
    have hf : self.followAuthorizationHeader = true := by
      rcases h with h | h
      · exact absurd h hne
      · exact h
    simp only [hf, if_true, Request.removeHeader]
    exact Headers.get_del _ _ _ (by decide)
  · rfl

theorem stripHostHeaders_same (self : Redirect) (uriPrev : Uri) (request : Request)
    (h : uriPrev.hostname = request.uri.hostname) :
    stripHostHeaders self uriPrev request = request := by
  unfold stripHostHeaders
  rw [if_neg (fun hc => hc h)]

/-- Host and authorization stripping on the path of `processRedirect` that follows the
redirect to the parsed URL `u`. -/
theorem followed_host_authorization (response : Response) (c : Ctx) (v : JSValue)
    (t : Target) (u : Uri) (hv : v.truthy = true)
    (hlim : (c.state.redirect.redirectsFollowed : Int) < c.state.redirect.maxRedirects)
    (hparse : resolveTarget c.state.request (overridden v c.redirectTo) = (t, some u)) :
    (c.state.request.uri.hostname ≠ u.hostname →
      (∀ name, lower name = "host" →
        (processRedirect response c v).state.request.headers.has name = none) ∧
      (c.state.redirect.followAuthorizationHeader = false →
        ∀ name, lower name = "authorization" →
          (processRedirect response c v).state.request.headers.has name = none)) ∧
    (c.state.request.uri.hostname = u.hostname →
      (processRedirect response c v).state.request.headers.get "host" =
        c.state.request.headers.get "host" ∧
      (processRedirect response c v).state.request.headers.get "authorization" =
        c.state.request.headers.get "authorization") ∧
    (c.state.redirect.followAuthorizationHeader = true →
      (processRedirect response c v).state.request.headers.get "authorization" =
        c.state.request.headers.get "authorization") := by
  rw [processRedirect_followed response c v t u hv hlim hparse]
  simp only
  refine ⟨?_, ?_, ?_⟩
  · intro hne
    have hs := stripHostHeaders_changed c.state.redirect c.state.request.uri
      (dropAgent c.state.redirect c.state.request.uri { c.state.request with uri := u })
      (by rw [(dropAgent_fields _ _ _).2.2.2.2.2.2]; exact hne)
    constructor
    · intro name hn
      exact applyRedirect_has_none _ _ _ _ _ (by rw [hn]; decide) (hs.1 name hn)
    · intro hf name hn
      exact applyRedirect_has_none _ _ _ _ _ (by rw [hn]; decide) (hs.2 hf name hn)
  · intro heq
    have hs := stripHostHeaders_same c.state.redirect c.state.request.uri
      (dropAgent c.state.redirect c.state.request.uri { c.state.request with uri := u })
      (by rw [(dropAgent_fields _ _ _).2.2.2.2.2.2]; exact heq)
    constructor
    · rw [applyRedirect_get _ _ _ _ _ (by decide) (by decide) (by decide), hs,
        (dropAgent_fields _ _ _).1]
    · rw [applyRedirect_get _ _ _ _ _ (by decide) (by decide) (by decide), hs,
        (dropAgent_fields _ _ _).1]
  · intro hf
    rw [applyRedirect_get _ _ _ _ _ (by decide) (by decide) (by decide),
      stripHostHeaders_authorization _ _ _ (Or.inr hf), (dropAgent_fields _ _ _).1]


/-- A call of `processRedirect` that does not follow the redirect leaves the request as it
was; one that follows it to `u` leaves `applyRedirect` of the request. -/
theorem processRedirect_request_cases (response : Response) (c : Ctx) (v : JSValue) :
    (processRedirect response c v).state.request = c.state.request ∨
    ∃ t u, v.truthy = true ∧
      (c.state.redirect.redirectsFollowed : Int) < c.state.redirect.maxRedirects ∧
      resolveTarget c.state.request (overridden v c.redirectTo) = (t, some u) := by
  cases hv : v.truthy with
  | false => left; rw [processRedirect_falsy response c v hv]
  | true =>
    by_cases hlim : c.state.redirect.maxRedirects ≤ (c.state.redirect.redirectsFollowed : Int)
    · left; rw [processRedirect_exceeded response c v hv hlim]
    · have hlt := not_le.mp hlim
      cases hp : resolveTarget c.state.request (overridden v c.redirectTo) with
      | mk t ou =>
        cases ou with
        | none => left; rw [processRedirect_unparsed response c v t hv hlt hp]
        | some u => right; exact ⟨t, u, rfl, hlt, rfl⟩

/-- C5 (counterexample): an admitted cross-host redirect met at the hop limit. The target
resolves and parses to a URL on example.com while the request is on localhost, and
followAuthorizationHeader is not set, but processRedirect returns at the hop-limit guard:
the request keeps its Host and its Authorization header. -/
theorem processRedirect_cross_host_at_limit :
    (JSValue.bool true).truthy = true ∧
    (resolveTarget crossHostLimitCtx.state.request crossHostLimitCtx.redirectTo).2.map
      (fun u => u.hostname) = some (some "example.com") ∧
    crossHostLimitCtx.state.request.uri.hostname = some "localhost" ∧
    crossHostLimitCtx.state.redirect.followAuthorizationHeader = false ∧
    (processRedirect (sampleResponse 302) crossHostLimitCtx
      (.bool true)).state.request.headers.has "host" = some "Host" ∧
    (processRedirect (sampleResponse 302) crossHostLimitCtx
      (.bool true)).state.request.headers.get "authorization" = some "Basic abc" := by
  decide

/-- C5 (amended): for every admitted redirect that is followed (the hop limit is not
reached and the target resolves and parses to the URL u), whatever the status code and the
method: u becomes request.uri; when the hostname of u differs from the hostname of the
previous URL, no spelling of Host is left among the headers and, unless
followAuthorizationHeader is set, no spelling of Authorization either; when the hostname is
unchanged (whatever protocol and port are) the Host and Authorization values are the
previous ones, and when followAuthorizationHeader is set the Authorization value is the
previous one. -/
theorem processRedirect_followed_host_authorization (response : Response) (c : Ctx)
    (v : JSValue) (t : Target) (u : Uri) (hv : v.truthy = true)
    (hlim : (c.state.redirect.redirectsFollowed : Int) < c.state.redirect.maxRedirects)
    (hparse : resolveTarget c.state.request (overridden v c.redirectTo) = (t, some u)) :
    (processRedirect response c v).state.request.uri = u ∧
    (u.hostname ≠ c.state.request.uri.hostname →
      (∀ name, lower name = "host" →
        (processRedirect response c v).state.request.headers.has name = none) ∧
      (c.state.redirect.followAuthorizationHeader = false →
        ∀ name, lower name = "authorization" →
          (processRedirect response c v).state.request.headers.has name = none)) ∧
    (u.hostname = c.state.request.uri.hostname ∨
        c.state.redirect.followAuthorizationHeader = true →
      (processRedirect response c v).state.request.headers.get "authorization" =
        c.state.request.headers.get "authorization") ∧
    (u.hostname = c.state.request.uri.hostname →
      (processRedirect response c v).state.request.headers.get "host" =
        c.state.request.headers.get "host") := by
  have hf := followed_host_authorization response c v t u hv hlim hparse
  have hu : (processRedirect response c v).state.request.uri = u := by
    rw [processRedirect_followed response c v t u hv hlim hparse]
    exact applyRedirect_uri _ _ _ _
  refine ⟨hu, fun hne => hf.1 (Ne.symm hne), ?_, fun heq => (hf.2.1 heq.symm).1⟩
  rintro (heq | hfa)
  · exact (hf.2.1 heq.symm).2
  · exact hf.2.2 hfa

theorem processRedirect_followed_host_authorization_witness :
    (∀ name, lower name = "host" →
      (processRedirect (sampleResponse 302) crossHostCtx (.bool true)).state.request.headers.has
        name = none) ∧
    (∀ name, lower name = "authorization" →
      (processRedirect (sampleResponse 302) crossHostCtx (.bool true)).state.request.headers.has
        name = none) :=
  have h := (processRedirect_followed_host_authorization (sampleResponse 302) crossHostCtx
    (.bool true) (.str "http://example.com/landing")
    { href := "http://example.com/landing", protocol := some "http:",
      hostname := some "example.com" } (by decide) (by decide) (by decide)).2.1 (by decide)
  ⟨h.1, h.2 rfl⟩

theorem switchMethod_switched (self : Redirect) (statusCode : Nat) (request : Request)
    (hfo : self.followOriginalHttpMethod = false)
    (hst : statusCode ≠ 401 ∧ statusCode ≠ 307 ∧ statusCode ≠ 308) :
    (request.method ≠ "HEAD" → (switchMethod self statusCode request).method = "GET") ∧
    (switchMethod self statusCode request).body = none ∧
    (switchMethod self statusCode request)._form = none ∧
    (switchMethod self statusCode request)._multipart = none ∧
    (∀ name, lower name = "content-type" ∨ lower name = "content-length" →
      (switchMethod self statusCode request).headers.has name = none) := by
  unfold switchMethod
  rw [if_pos ⟨hfo, hst⟩]
  refine ⟨?_, ?_, ?_, ?_, ?_⟩
  · intro hm
    simp [Request.removeHeader, hm]
  · simp [Request.removeHeader]
  · simp [Request.removeHeader]
  · simp [Request.removeHeader]
  · intro name hn
    simp only [Request.removeHeader]
    rcases hn with hn | hn
    · exact Headers.has_del_of_none _ _ _
        (Headers.has_del_self _ _ _ (by rw [hn, lower_literals.2.2.1]))
    · exact Headers.has_del_self _ _ _ (by rw [hn, lower_literals.2.2.2.1])

theorem switchMethod_kept (self : Redirect) (statusCode : Nat) (request : Request)
    (h : statusCode = 307 ∨ statusCode = 308 ∨ self.followOriginalHttpMethod = true) :
    switchMethod self statusCode request = request := by
  unfold switchMethod
  rw [if_neg]
  rintro ⟨h1, _, h3, h4⟩
  rcases h with h | h | h
  · exact h3 h
  · exact h4 h
  · rw [h] at h1; exact absurd h1 (by decide)

theorem switchMethod_HEAD (self : Redirect) (statusCode : Nat) (request : Request)
    (h : request.method = "HEAD") : (switchMethod self statusCode request).method = "HEAD" := by
  unfold switchMethod
  split
  · simp [Request.removeHeader, h]
  · exact h

theorem restoreFormData_no_form (request : Request) (h : request._form = none) :
    restoreFormData request = (request, {}) := by
  unfold restoreFormData
  split
  · next f hfd hf => rw [h] at hf; exact absurd hf (by simp)
  · rfl

theorem clearTransport_fields (request : Request) :
    (clearTransport request).method = request.method ∧
    (clearTransport request).body = request.body ∧
    (clearTransport request)._multipart = request._multipart ∧
    (clearTransport request)._form = request._form ∧
    (clearTransport request).headers = request.headers := by
  simp [clearTransport]

/-- C6 (counterexample): an admitted redirect of an OPTIONS request (status 301,
followOriginalHttpMethod false) met when the hop limit is reached: processRedirect calls
back with the 'Exceeded maxRedirects' error and the request still has the method OPTIONS,
its body, its multipart state and its Content-Type header. -/
theorem processRedirect_at_limit_not_switched :
    admitted limitCtx.state (sampleResponse 301) = true ∧
    limitCtx.state.redirect.followOriginalHttpMethod = false ∧
    (processRedirect (sampleResponse 301) limitCtx (.bool true)).state.request.method =
      "OPTIONS" ∧
    (processRedirect (sampleResponse 301) limitCtx (.bool true)).state.request.method ≠ "GET" ∧
    (processRedirect (sampleResponse 301) limitCtx (.bool true)).state.request.body =
      some "fooBar" ∧
    (processRedirect (sampleResponse 301) limitCtx (.bool true)).state.request._multipart =
      some "multipart" ∧
    (processRedirect (sampleResponse 301) limitCtx
      (.bool true)).state.request.headers.has "content-type" = some "Content-Type" ∧
    callbacks (processRedirect (sampleResponse 301) limitCtx (.bool true)).events =
      [(some ⟨"Exceeded maxRedirects. Probably stuck in a redirect loop http://localhost/temp"⟩,
        false)] := by
  decide

/-- C6 (amended): for an admitted redirect that is followed (hop limit not reached, target
resolved and parsed) with followOriginalHttpMethod false, a status other than 401, 307 and
308, and a method other than HEAD: afterwards the method is GET, body, _form and _multipart
are absent, no spelling of Content-Type or Content-Length is among the headers, and init is
called once, after the redirect event, with options that carry no formData. -/
theorem processRedirect_switches_to_GET (response : Response) (c : Ctx) (v : JSValue)
    (t : Target) (u : Uri) (hv : v.truthy = true)
    (hlim : (c.state.redirect.redirectsFollowed : Int) < c.state.redirect.maxRedirects)
    (hparse : resolveTarget c.state.request (overridden v c.redirectTo) = (t, some u))
    (hfo : c.state.redirect.followOriginalHttpMethod = false)
    (hst : response.statusCode ≠ 401 ∧ response.statusCode ≠ 307 ∧ response.statusCode ≠ 308)
    (hm : c.state.request.method ≠ "HEAD") :
    (processRedirect response c v).state.request.method = "GET" ∧
    (processRedirect response c v).state.request.body = none ∧
    (processRedirect response c v).state.request._form = none ∧
    (processRedirect response c v).state.request._multipart = none ∧
    (∀ name, lower name = "content-type" ∨ lower name = "content-length" →
      (processRedirect response c v).state.request.headers.has name = none) ∧
    ∃ options, options.formData = none ∧
      (processRedirect response c v).events =
        (if response.resume then c.events ++ [.resume] else c.events) ++
          [.emitRedirect, .init options, .callback none true] := by
  rw [processRedirect_followed response c v t u hv hlim hparse]
  simp only
  have hsw := switchMethod_switched c.state.redirect response.statusCode
    (clearTransport (stripHostHeaders c.state.redirect c.state.request.uri
      (dropAgent c.state.redirect c.state.request.uri { c.state.request with uri := u })))
    hfo hst
  have hmeth : (clearTransport (stripHostHeaders c.state.redirect c.state.request.uri
      (dropAgent c.state.redirect c.state.request.uri
        { c.state.request with uri := u }))).method ≠ "HEAD" := by
    rw [(clearTransport_fields _).1, (stripHostHeaders_fields _ _ _).1,
      (dropAgent_fields _ _ _).2.1]
    exact hm
  have hre := restoreFormData_no_form _ hsw.2.2.1
  unfold applyRedirect
  simp only [hre]
  refine ⟨?_, ?_, ?_, ?_, ?_, ?_⟩
  · rw [(setReferer_fields _ _ _).1]; exact hsw.1 hmeth
  · rw [(setReferer_fields _ _ _).2.1]; exact hsw.2.1
  · rw [(setReferer_fields _ _ _).2.2.2.1]; exact hsw.2.2.1
  · rw [(setReferer_fields _ _ _).2.2.1]; exact hsw.2.2.2.1
  · intro name hn
    apply setReferer_has_none
    · rcases hn with hn | hn <;> rw [hn] <;> decide
    · exact hsw.2.2.2.2 name hn
  · exact ⟨{}, rfl, rfl⟩

theorem processRedirect_switches_to_GET_witness :
    (processRedirect (sampleResponse 301) (bodyCtx "OPTIONS") (.bool true)).state.request.method =
      "GET" ∧
    (processRedirect (sampleResponse 301) (bodyCtx "OPTIONS") (.bool true)).state.request.body =
      none :=
  have h := processRedirect_switches_to_GET (sampleResponse 301) (bodyCtx "OPTIONS") (.bool true)
    (.str "http://localhost/temp_landing") landingUri
    (by decide) (by decide) (by decide) (by decide) (by decide) (by decide)
  ⟨h.1, h.2.1⟩

/-- C7: for every call of processRedirect on a response whose status is 307 or 308, or with
followOriginalHttpMethod set (for any status), the method, the body and the multipart state
of the request are left as they were, whether the redirect is followed or not. -/
theorem processRedirect_keeps_method_body (response : Response) (c : Ctx) (v : JSValue)
    (h : response.statusCode = 307 ∨ response.statusCode = 308 ∨
      c.state.redirect.followOriginalHttpMethod = true) :
    (processRedirect response c v).state.request.method = c.state.request.method ∧
    (processRedirect response c v).state.request.body = c.state.request.body ∧
    (processRedirect response c v).state.request._multipart = c.state.request._multipart := by
  rcases processRedirect_request_cases response c v with hsame | ⟨t, u, hv, hlim, hparse⟩
  · rw [hsame]
    exact ⟨rfl, rfl, rfl⟩
  · rw [processRedirect_followed response c v t u hv hlim hparse]
    simp only
    unfold applyRedirect
    simp only [switchMethod_kept _ _ _ h]
    refine ⟨?_, ?_, ?_⟩
    · rw [(setReferer_fields _ _ _).1, (restoreFormData_fields _).1,
        (clearTransport_fields _).1, (stripHostHeaders_fields _ _ _).1,
        (dropAgent_fields _ _ _).2.1]
    · rw [(setReferer_fields _ _ _).2.1, (restoreFormData_fields _).2.1,
        (clearTransport_fields _).2.1, (stripHostHeaders_fields _ _ _).2.1,
        (dropAgent_fields _ _ _).2.2.1]
    · rw [(setReferer_fields _ _ _).2.2.1, (restoreFormData_fields _).2.2.1,
        (clearTransport_fields _).2.2.1, (stripHostHeaders_fields _ _ _).2.2.1,
        (dropAgent_fields _ _ _).2.2.2.1]

theorem processRedirect_keeps_method_body_witness :
    (processRedirect (sampleResponse 307) (bodyCtx "DELETE") (.bool true)).state.request.method =
      "DELETE" ∧
    (processRedirect (sampleResponse 307) (bodyCtx "DELETE") (.bool true)).state.request.body =
      some "fooBar" ∧
    (processRedirect (sampleResponse 307) (bodyCtx "DELETE")
      (.bool true)).state.request._multipart = some "multipart" :=
  processRedirect_keeps_method_body (sampleResponse 307) (bodyCtx "DELETE") (.bool true)
    (Or.inl rfl)

theorem applyRedirect_HEAD (self : Redirect) (statusCode : Nat) (u : Uri) (request : Request)
    (h : request.method = "HEAD") :
    (applyRedirect self statusCode u request).1.method = "HEAD" := by
  unfold applyRedirect
  simp only
  rw [(setReferer_fields _ _ _).1, (restoreFormData_fields _).1]
  apply switchMethod_HEAD
  rw [(clearTransport_fields _).1, (stripHostHeaders_fields _ _ _).1,
    (dropAgent_fields _ _ _).2.1]
  exact h

theorem processRedirect_HEAD (response : Response) (c : Ctx) (v : JSValue)
    (h : c.state.request.method = "HEAD") :
    (processRedirect response c v).state.request.method = "HEAD" := by
  cases hv : v.truthy with
  | false => rw [processRedirect_falsy response c v hv]; exact h
  | true =>
    by_cases hlim : c.state.redirect.maxRedirects ≤ (c.state.redirect.redirectsFollowed : Int)
    · rw [processRedirect_exceeded response c v hv hlim]; exact h
    · have hlt := not_le.mp hlim
      cases hp : resolveTarget c.state.request (overridden v c.redirectTo) with
      | mk t ou =>
        cases ou with
        | none => rw [processRedirect_unparsed response c v t hv hlt hp]; exact h
        | some u =>
          rw [processRedirect_followed response c v t u hv hlt hp]
          exact applyRedirect_HEAD _ _ _ _ h

theorem foldl_deliver_HEAD (response : Response) (ds : List (Option Error × JSValue)) :
    ∀ c : Ctx, c.state.request.method = "HEAD" →
      (ds.foldl (deliver response) c).state.request.method = "HEAD" := by
  induction ds with
  | nil => intro c h; exact h
  | cons d ds ih =>
    intro c h
    rw [List.foldl_cons]
    apply ih
    unfold deliver
    split
    · exact h
    · exact processRedirect_HEAD response c d.2 h

/-- C8: a request whose method is HEAD still has the method HEAD after processRedirect,
for every verdict, status code, engine setting and target, and so after the whole of
onResponse, whatever the admission predicate does. -/
theorem onResponse_keeps_HEAD (s : State) (response : Response)
    (h : s.request.method = "HEAD") :
    (∀ (c : Ctx) (v : JSValue), c.state = (redirectTo s response).1 →
      (processRedirect response c v).state.request.method = "HEAD") ∧
    (onResponse s response).state.request.method = "HEAD" := by
  have h1 : (redirectTo s response).1.request.method = "HEAD" := by
    rw [redirectTo_method]; exact h
  constructor
  · intro c v hc
    exact processRedirect_HEAD response c v (by rw [hc]; exact h1)
  · unfold onResponse
    simp only
    split
    · exact h1
    · split
      · exact h1
      · split
        · exact foldl_deliver_HEAD response _ _ h1
        · split
          · exact h1
          · exact processRedirect_HEAD response _ _ h1
          · exact h1
          · exact h1
          · exact processRedirect_HEAD response _ _ h1

theorem onResponse_keeps_HEAD_witness :
    (onResponse { redirect := { followAllRedirects := true }, request := sampleRequest "HEAD" }
      (sampleResponse 302)).state.request.method = "HEAD" :=
  (onResponse_keeps_HEAD
    { redirect := { followAllRedirects := true }, request := sampleRequest "HEAD" }
    (sampleResponse 302) rfl).2

/-! ## The admission predicate -/

/-- C9 (counterexample): the admission predicate returns the string
'http://localhost/perm' for a 301 candidate while the hop limit is reached: the redirect is
not followed, request.uri keeps its previous value, no record is appended, and the callback
gets the 'Exceeded maxRedirects' error. -/
theorem onResponse_override_at_limit :
    (redirectTo limitOverrideState (sampleResponse 301)).2 =
      some (.str "http://localhost/temp_landing") ∧
    verdict limitOverrideState.redirect.allowRedirect limitOverrideState.request
      (sampleResponse 301) = some (.str "http://localhost/perm") ∧
    (onResponse limitOverrideState (sampleResponse 301)).state.request.uri = sampleUri ∧
    (onResponse limitOverrideState (sampleResponse 301)).state.request.uri.href ≠
      "http://localhost/perm" ∧
    (onResponse limitOverrideState (sampleResponse 301)).state.redirect.redirects = [] ∧
    callbacks (onResponse limitOverrideState (sampleResponse 301)).events =
      [(some ⟨"Exceeded maxRedirects. Probably stuck in a redirect loop http://localhost/temp"⟩,
        false)] := by
  decide

/-- C9 (amended): when the admission predicate delivers a non-empty string for a truthy
candidate, the hop limit is not reached, and the string (resolved against the current href
when it does not start with http: or https:) parses, the redirect is followed: request.uri
is the parsed URL of that string, the appended record carries the status and that string,
the callback gets (null, true), and the outcome is the same whatever the candidate was. -/
theorem onResponse_override (s : State) (response : Response) (t : Target) (sv target : String)
    (u : Uri)
    (hcand : (redirectTo s response).2 = some t) (ht : t.truthy = true)
    (hver : verdict s.redirect.allowRedirect (redirectTo s response).1.request response =
      some (.str sv))
    (hne : sv ≠ "")
    (hlim : (s.redirect.redirectsFollowed : Int) < s.redirect.maxRedirects)
    (htarget : (if isUrlString sv then some sv
      else s.request.urlParser.resolve s.request.uri.href (.str sv)) = some target)
    (hparse : s.request.urlParser.parse (.str target) = some u) :
    (onResponse s response).state.request.uri = u ∧
    (onResponse s response).state.redirect.redirects =
      s.redirect.redirects ++ [{ statusCode := response.statusCode, redirectUri := .str target }] ∧
    (onResponse s response).state.redirect.redirectsFollowed =
      s.redirect.redirectsFollowed + 1 ∧
    callbacks (onResponse s response).events = [(none, true)] ∧
    ∀ t2 : Target,
      processRedirect response { state := (redirectTo s response).1, redirectTo := t2 }
          (.str sv) =
        processRedirect response { state := (redirectTo s response).1, redirectTo := t }
          (.str sv) := by
  have hv : (JSValue.str sv).truthy = true := by simp [JSValue.truthy, hne]
  have hreq := redirectTo_request s response
  have hres : resolveTarget (redirectTo s response).1.request (overridden (.str sv) t) =
      (.str target, some u) := by
    unfold resolveTarget overridden
    rw [hreq]
    simp only [isUrl]
    by_cases hu : isUrlString sv = true
    · simp only [hu, if_true, Option.some.injEq] at htarget ⊢
      subst htarget
      rw [hparse]
    · simp only [hu, Bool.false_eq_true, if_false] at htarget ⊢
      rw [htarget]
      simp only
      rw [hparse]
  have hver2 : verdict (redirectTo s response).1.redirect.allowRedirect
      (redirectTo s response).1.request response = some (.str sv) := by
    rw [redirectTo_redirect]; exact hver
  obtain ⟨hst, hev⟩ := onResponse_of_verdict s response t (.str sv) hcand ht hver2
  have hlim2 : (((redirectTo s response).1.redirect.redirectsFollowed : Nat) : Int) <
      (redirectTo s response).1.redirect.maxRedirects := by
    rw [redirectTo_redirect]; exact hlim
  have hfol := processRedirect_followed response
    { state := (redirectTo s response).1, redirectTo := t } (.str sv) (.str target) u hv hlim2 hres
  rw [hfol] at hst hev
  refine ⟨?_, ?_, ?_, ?_, ?_⟩
  · rw [hst]
    exact applyRedirect_uri _ _ _ _
  · rw [hst]; simp only [redirectTo_redirect]
  · rw [hst]; simp only [redirectTo_redirect]
  · rw [hev]; cases response.resume <;> simp [callbacks]
  · intro t2
    rw [hfol]
    exact processRedirect_followed response
      { state := (redirectTo s response).1, redirectTo := t2 } (.str sv) (.str target) u hv
      hlim2 hres


theorem onResponse_override_witness :
    (onResponse (predicateState overridePredicate) (sampleResponse 301)).state.request.uri =
      { href := "http://localhost/perm", protocol := some "http:",
        hostname := some "localhost" } ∧
    (onResponse (predicateState overridePredicate) (sampleResponse 301)).state.redirect.redirects =
      [{ statusCode := 301, redirectUri := .str "http://localhost/perm" }] :=
  have h := onResponse_override (predicateState overridePredicate) (sampleResponse 301)
    (.str "http://localhost/temp_landing") "http://localhost/perm" "http://localhost/perm"
    { href := "http://localhost/perm", protocol := some "http:", hostname := some "localhost" }
    (by decide) (by decide) (by decide) (by decide) (by decide) (by decide) (by decide)
  ⟨h.1, h.2.1⟩

/-- C10: for a 3xx candidate, when the admission predicate yields a falsy value (as its
return value, as the value its promise resolves with, or as the result of its single
callback call), the only call onResponse makes is callback(null, false), once, and the
engine and the request (uri, method, headers, body, redirectsFollowed, redirects) are left
exactly as they were. -/
theorem onResponse_rejected (s : State) (response : Response) (t : Target) (v : JSValue)
    (hstatus : 300 ≤ response.statusCode ∧ response.statusCode < 400)
    (hcand : (redirectTo s response).2 = some t)
    (hv : v.truthy = false)
    (hpred : (s.redirect.allowRedirect.length ≤ 1 ∧
        (s.redirect.allowRedirect.returns s.request response = .value v ∨
         s.redirect.allowRedirect.returns s.request response = .thenable (.resolved v))) ∨
      (1 < s.redirect.allowRedirect.length ∧
        s.redirect.allowRedirect.delivers s.request response = [(none, v)])) :
    (onResponse s response).events = [.callback none false] ∧
    (onResponse s response).state = s := by
  have hs : (redirectTo s response).1 = s := redirectTo_state s response (by omega)
  cases ht : t.truthy with
  | false =>
    unfold onResponse
    simp [hcand, ht, hs]
  | true =>
    have hver : verdict (redirectTo s response).1.redirect.allowRedirect
        (redirectTo s response).1.request response = some v := by
      rw [hs]
      unfold verdict
      rcases hpred with ⟨hl, hr | hr⟩ | ⟨hl, hd⟩
      · rw [if_neg (by omega), hr]
      · rw [if_neg (by omega), hr]
      · rw [if_pos hl, hd]
    obtain ⟨hst, hev⟩ := onResponse_of_verdict s response t v hcand ht hver
    rw [processRedirect_falsy _ _ _ hv] at hst hev
    exact ⟨by rw [hev]; rfl, by rw [hst, hs]⟩

theorem onResponse_rejected_witness :
    ((onResponse (predicateState refusePredicate) (sampleResponse 301)).events =
        [.callback none false] ∧
      (onResponse (predicateState refusePredicate) (sampleResponse 301)).state =
        predicateState refusePredicate) ∧
    ((onResponse (predicateState refusePromise) (sampleResponse 301)).events =
        [.callback none false] ∧
      (onResponse (predicateState refusePromise) (sampleResponse 301)).state =
        predicateState refusePromise) ∧
    ((onResponse (predicateState refuseCallback) (sampleResponse 301)).events =
        [.callback none false] ∧
      (onResponse (predicateState refuseCallback) (sampleResponse 301)).state =
        predicateState refuseCallback) :=
  ⟨onResponse_rejected (predicateState refusePredicate) (sampleResponse 301)
      (.str "http://localhost/temp_landing") (.bool false) (by decide) (by decide) (by decide)
      (Or.inl ⟨by decide, Or.inl rfl⟩),
   onResponse_rejected (predicateState refusePromise) (sampleResponse 301)
      (.str "http://localhost/temp_landing") (.bool false) (by decide) (by decide) (by decide)
      (Or.inl ⟨by decide, Or.inr rfl⟩),
   onResponse_rejected (predicateState refuseCallback) (sampleResponse 301)
      (.str "http://localhost/temp_landing") (.bool false) (by decide) (by decide) (by decide)
      (Or.inr ⟨by decide, rfl⟩)⟩


/-! ## Calling conventions of the admission predicate -/

theorem redirectTo_withPredicate (s : State) (a : AllowRedirect) (response : Response) :
    redirectTo (s.withPredicate a) response =
      ((redirectTo s response).1.withPredicate a, (redirectTo s response).2) := by
  unfold redirectTo
  simp only [State.withPredicate]
  cases hauth : s.request._auth response <;> simp only [] <;> split_ifs <;> rfl

theorem applyRedirect_withPredicate (self : Redirect) (a : AllowRedirect) (statusCode : Nat)
    (u : Uri) (request : Request) :
    applyRedirect { self with allowRedirect := a } statusCode u request =
      applyRedirect self statusCode u request := rfl

theorem processRedirect_withPredicate (response : Response) (c : Ctx) (a : AllowRedirect)
    (v : JSValue) :
    processRedirect response (c.withPredicate a) v =
      (processRedirect response c v).withPredicate a := by
  cases hv : v.truthy with
  | false =>
    rw [processRedirect_falsy _ _ _ hv, processRedirect_falsy _ _ _ hv]
    rfl
  | true =>
    by_cases hlim : c.state.redirect.maxRedirects ≤ (c.state.redirect.redirectsFollowed : Int)
    · rw [processRedirect_exceeded _ c _ hv hlim,
        processRedirect_exceeded _ (c.withPredicate a) _ hv hlim]
      rfl
    · have hlt := not_le.mp hlim
      cases hp : resolveTarget c.state.request (overridden v c.redirectTo) with
      | mk t ou =>
        cases ou with
        | none =>
          rw [processRedirect_unparsed _ c _ t hv hlt hp,
            processRedirect_unparsed _ (c.withPredicate a) _ t hv hlt hp]
          rfl
        | some u =>
          rw [processRedirect_followed _ c _ t u hv hlt hp,
            processRedirect_followed _ (c.withPredicate a) _ t u hv hlt hp]
          rfl

theorem foldl_deliver_withPredicate (response : Response) (a : AllowRedirect)
    (ds : List (Option Error × JSValue)) :
    ∀ c : Ctx, ds.foldl (deliver response) (c.withPredicate a) =
      (ds.foldl (deliver response) c).withPredicate a := by
  induction ds with
  | nil => intro c; rfl
  | cons d ds ih =>
    intro c
    rw [List.foldl_cons, List.foldl_cons, ← ih]
    congr 1
    unfold deliver
    split
    · rfl
    · exact processRedirect_withPredicate response c a d.2

theorem onResponse_callback_style (s : State) (response : Response) (a : AllowRedirect)
    (t : Target) (h : 1 < a.length) (hc : (redirectTo s response).2 = some t)
    (ht : t.truthy = true) :
    (onResponse (s.withPredicate a) response).events =
      ((a.delivers (redirectTo s response).1.request response).foldl (deliver response)
        { state := (redirectTo s response).1, redirectTo := t }).events ∧
    (onResponse (s.withPredicate a) response).state =
      ((a.delivers (redirectTo s response).1.request response).foldl (deliver response)
        { state := (redirectTo s response).1, redirectTo := t }).state.withPredicate a := by
  have hf := foldl_deliver_withPredicate response a
    (a.delivers (redirectTo s response).1.request response)
    { state := (redirectTo s response).1, redirectTo := t }
  unfold onResponse
  simp only [redirectTo_withPredicate, hc, ht]
  have hl : 1 < ((redirectTo s response).1.withPredicate a).redirect.allowRedirect.length := h
  simp only [Bool.true_eq_false, if_false, hl, if_true]
  constructor
  · have := congrArg Ctx.events hf
    exact this
  · have := congrArg Ctx.state hf
    exact this

theorem onResponse_return_style (s : State) (response : Response) (a : AllowRedirect)
    (t : Target) (h : a.length ≤ 1) (hc : (redirectTo s response).2 = some t)
    (ht : t.truthy = true) :
    onResponse (s.withPredicate a) response =
      match a.returns (redirectTo s response).1.request response with
      | .throws e =>
        { state := (redirectTo s response).1.withPredicate a, events := [], raised := some e }
      | .thenable (.resolved v) =>
        { state := (processRedirect response
            { state := (redirectTo s response).1, redirectTo := t } v).state.withPredicate a,
          events := (processRedirect response
            { state := (redirectTo s response).1, redirectTo := t } v).events }
      | .thenable (.rejected e) =>
        { state := (redirectTo s response).1.withPredicate a,
          events := [.callback (some e) false] }
      | .thenable .pending =>
        { state := (redirectTo s response).1.withPredicate a, events := [] }
      | .value v =>
        { state := (processRedirect response
            { state := (redirectTo s response).1, redirectTo := t } v).state.withPredicate a,
          events := (processRedirect response
            { state := (redirectTo s response).1, redirectTo := t } v).events } := by
  have hp := fun v => processRedirect_withPredicate response
    { state := (redirectTo s response).1, redirectTo := t } a v
  unfold onResponse
  simp only [redirectTo_withPredicate, hc, ht]
  have hl : ¬ 1 < ((redirectTo s response).1.withPredicate a).redirect.allowRedirect.length :=
    not_lt.mpr h
  simp only [Bool.true_eq_false, if_false, hl]
  have hr : ((redirectTo s response).1.withPredicate a).redirect.allowRedirect.returns
      ((redirectTo s response).1.withPredicate a).request response =
      a.returns (redirectTo s response).1.request response := rfl
  rw [hr]
  cases hret : a.returns (redirectTo s response).1.request response with
  | throws e => rfl
  | value v =>
    simp only []
    have := hp v
    simp only [Ctx.withPredicate] at this
    rw [this]
  | thenable p =>
    cases p with
    | resolved v =>
      simp only []
      have := hp v
      simp only [Ctx.withPredicate] at this
      rw [this]
    | rejected e => rfl
    | pending => rfl

theorem onResponse_not_consulted (s : State) (response : Response) (a : AllowRedirect)
    (h : (redirectTo s response).2 = none ∨
      ∃ t, (redirectTo s response).2 = some t ∧ t.truthy = false) :
    onResponse (s.withPredicate a) response =
      { state := (redirectTo s response).1.withPredicate a,
        events := [.callback none false] } := by
  unfold onResponse
  simp only [redirectTo_withPredicate]
  rcases h with h | ⟨t, h, ht⟩
  · simp only [h]
  · simp only [h, ht, if_true]

theorem candidate_cases (s : State) (response : Response) :
    ((redirectTo s response).2 = none ∨
      ∃ t, (redirectTo s response).2 = some t ∧ t.truthy = false) ∨
    ∃ t, (redirectTo s response).2 = some t ∧ t.truthy = true := by
  cases h : (redirectTo s response).2 with
  | none => exact Or.inl (Or.inl rfl)
  | some t =>
    cases ht : t.truthy with
    | false => exact Or.inl (Or.inr ⟨t, rfl, ht⟩)
    | true => exact Or.inr ⟨t, rfl, ht⟩

/-- C11: a predicate that declares more than one parameter is decided solely from what it
delivers to its callback: two such predicates with the same deliveries give the same calls
and the same state whatever they return, and a single delivery (null, v) is handed to
processRedirect (so a predicate that returns false and calls back (null, true) has the
redirect processed as admitted). A predicate with at most one declared parameter is decided
from what its call returns: two such predicates that return the same give the same
outcome whatever they would deliver, and a returned value v, or a thenable resolved with
v, is handed to processRedirect. -/
theorem onResponse_calling_convention (s : State) (response : Response)
    (a a' : AllowRedirect) :
    (1 < a.length → 1 < a'.length →
      a'.delivers (redirectTo s response).1.request response =
        a.delivers (redirectTo s response).1.request response →
      (onResponse (s.withPredicate a') response).events =
        (onResponse (s.withPredicate a) response).events ∧
      (onResponse (s.withPredicate a') response).state =
        (onResponse (s.withPredicate a) response).state.withPredicate a') ∧
    (a.length ≤ 1 → a'.length ≤ 1 →
      a'.returns (redirectTo s response).1.request response =
        a.returns (redirectTo s response).1.request response →
      (onResponse (s.withPredicate a') response).events =
        (onResponse (s.withPredicate a) response).events ∧
      (onResponse (s.withPredicate a') response).state =
        (onResponse (s.withPredicate a) response).state.withPredicate a' ∧
      (onResponse (s.withPredicate a') response).raised =
        (onResponse (s.withPredicate a) response).raised) ∧
    (∀ t v, (redirectTo s response).2 = some t → t.truthy = true →
      ((1 < a.length ∧ a.delivers (redirectTo s response).1.request response = [(none, v)]) ∨
        (a.length ≤ 1 ∧
          (a.returns (redirectTo s response).1.request response = .value v ∨
           a.returns (redirectTo s response).1.request response =
             .thenable (.resolved v)))) →
      (onResponse (s.withPredicate a) response).events =
        (processRedirect response
          { state := (redirectTo s response).1, redirectTo := t } v).events ∧
      (onResponse (s.withPredicate a) response).state =
        (processRedirect response
          { state := (redirectTo s response).1, redirectTo := t } v).state.withPredicate a) := by
  refine ⟨?_, ?_, ?_⟩
  · intro h1 h2 hd
    rcases candidate_cases s response with hn | ⟨t, hc, ht⟩
    · rw [onResponse_not_consulted s response a hn, onResponse_not_consulted s response a' hn]
      exact ⟨rfl, rfl⟩
    · obtain ⟨e1, s1⟩ := onResponse_callback_style s response a t h1 hc ht
      obtain ⟨e2, s2⟩ := onResponse_callback_style s response a' t h2 hc ht
      rw [e1, e2, s1, s2, hd]
      exact ⟨rfl, rfl⟩
  · intro h1 h2 hr
    rcases candidate_cases s response with hn | ⟨t, hc, ht⟩
    · rw [onResponse_not_consulted s response a hn, onResponse_not_consulted s response a' hn]
      exact ⟨rfl, rfl, rfl⟩
    · rw [onResponse_return_style s response a t h1 hc ht,
        onResponse_return_style s response a' t h2 hc ht, hr]
      cases a.returns (redirectTo s response).1.request response with
      | throws e => exact ⟨rfl, rfl, rfl⟩
      | value v => exact ⟨rfl, rfl, rfl⟩
      | thenable p => cases p <;> exact ⟨rfl, rfl, rfl⟩
  · intro t v hc ht h
    rcases h with ⟨hl, hd⟩ | ⟨hl, hr | hr⟩
    · obtain ⟨e1, s1⟩ := onResponse_callback_style s response a t hl hc ht
      rw [e1, s1, hd]
      exact ⟨rfl, rfl⟩
    · rw [onResponse_return_style s response a t hl hc ht, hr]
      exact ⟨rfl, rfl⟩
    · rw [onResponse_return_style s response a t hl hc ht, hr]
      exact ⟨rfl, rfl⟩

theorem onResponse_calling_convention_witness :
    callbacks (onResponse ((sampleState "GET").withPredicate filterAsync)
      (sampleResponse 301)).events = [(none, true)] ∧
    (onResponse ((sampleState "GET").withPredicate filterAsync)
      (sampleResponse 301)).state.redirect.redirectsFollowed = 1 :=
  have h := (onResponse_calling_convention (sampleState "GET") (sampleResponse 301)
    filterAsync filterAsync).2.2 (.str "http://localhost/temp_landing") (.bool true)
    (by decide) (by decide) (Or.inl ⟨by decide, by decide⟩)
  ⟨by rw [h.1]; decide, by rw [h.2]; decide⟩

/-- C12 (counterexample): an admission predicate of one parameter that throws: onResponse
makes no call at all (its callback is not invoked with the error) and the error escapes
onResponse as an exception. -/
theorem onResponse_throw_not_delivered :
    (redirectTo (predicateState throwingPredicate) (sampleResponse 301)).2 =
      some (.str "http://localhost/temp_landing") ∧
    (predicateState throwingPredicate).redirect.allowRedirect.returns
      (predicateState throwingPredicate).request (sampleResponse 301) = .throws sampleError ∧
    callbacks (onResponse (predicateState throwingPredicate) (sampleResponse 301)).events = [] ∧
    (onResponse (predicateState throwingPredicate) (sampleResponse 301)).events.length = 0 ∧
    (onResponse (predicateState throwingPredicate) (sampleResponse 301)).raised =
      some sampleError := by
  decide

/-- A synchronous throw of a predicate with at most one parameter: `onResponse` makes no
call, keeps the state the decision left, and the error escapes as an exception. -/
theorem onResponse_predicate_throws (s : State) (response : Response) (a : AllowRedirect)
    (t : Target) (e : Error) (hc : (redirectTo s response).2 = some t)
    (ht : t.truthy = true) (hl : a.length ≤ 1)
    (hr : a.returns (redirectTo s response).1.request response = .throws e) :
    (onResponse (s.withPredicate a) response).events = [] ∧
    (onResponse (s.withPredicate a) response).state =
      (redirectTo s response).1.withPredicate a ∧
    (onResponse (s.withPredicate a) response).raised = some e := by
  rw [onResponse_return_style s response a t hl hc ht, hr]
  exact ⟨rfl, rfl, rfl⟩

/-- C12 (amended): for a truthy candidate, an error that the admission predicate passes to
its callback, or that rejects the promise it returned, is the error argument of the single
call of onResponse's callback, and the redirect is not followed: no other call is made (no
redirect event, no init) and the state is the one the decision left. -/
theorem onResponse_predicate_error (s : State) (response : Response) (a : AllowRedirect)
    (t : Target) (e : Error) (hc : (redirectTo s response).2 = some t)
    (ht : t.truthy = true) :
    (1 < a.length →
      (∃ v, a.delivers (redirectTo s response).1.request response = [(some e, v)]) →
      (onResponse (s.withPredicate a) response).events = [.callback (some e) false] ∧
      (onResponse (s.withPredicate a) response).state =
        (redirectTo s response).1.withPredicate a) ∧
    (a.length ≤ 1 →
      a.returns (redirectTo s response).1.request response = .thenable (.rejected e) →
      (onResponse (s.withPredicate a) response).events = [.callback (some e) false] ∧
      (onResponse (s.withPredicate a) response).state =
        (redirectTo s response).1.withPredicate a ∧
      (onResponse (s.withPredicate a) response).raised = none) := by
  refine ⟨?_, ?_⟩
  · rintro hl ⟨v, hd⟩
    obtain ⟨e1, s1⟩ := onResponse_callback_style s response a t hl hc ht
    rw [e1, s1, hd]
    exact ⟨rfl, rfl⟩
  · intro hl hr
    rw [onResponse_return_style s response a t hl hc ht, hr]
    exact ⟨rfl, rfl, rfl⟩

theorem onResponse_predicate_error_witness :
    (onResponse ((sampleState "GET").withPredicate failingCallback)
        (sampleResponse 301)).events = [.callback (some sampleError) false] ∧
    (onResponse ((sampleState "GET").withPredicate rejectedPromise)
        (sampleResponse 301)).events = [.callback (some sampleError) false] :=
  have h1 := onResponse_predicate_error (sampleState "GET") (sampleResponse 301)
    failingCallback (.str "http://localhost/temp_landing") sampleError (by decide) (by decide)
  have h2 := onResponse_predicate_error (sampleState "GET") (sampleResponse 301)
    rejectedPromise (.str "http://localhost/temp_landing") sampleError (by decide) (by decide)
  ⟨(h1.1 (by decide) ⟨.undefined, rfl⟩).1, (h2.2 (by decide) rfl).1⟩

/-! ## More on header maps: entries of one name -/

theorem Headers.get_eq_entries (h : Headers) (m : String) :
    h.get m = (h.entries m).getLast?.map (fun kv => kv.2) := rfl

theorem Headers.has_eq_entries (h : Headers) (m : String) :
    h.has m = (h.entries m).head?.map (fun kv => kv.1) := by
  unfold Headers.has Headers.entries
  rw [List.filter_head?]

theorem Headers.entries_del (h : Headers) (n m : String) (hnm : lower m ≠ lower n) :
    (h.del n).entries m = h.entries m := by
  unfold Headers.entries Headers.del
  rw [List.filter_filter]
  apply List.filter_congr
  intro kv _
  by_cases hk : lower kv.1 = lower m
  · have : lower kv.1 ≠ lower n := fun hc => hnm (hk ▸ hc)
    simp [hk, hnm]
  · simp [hk]

theorem Headers.set_map_fixed (k v : String) (p : String × String → Bool)
    (hp : ∀ a b c, p (a, b) = p (a, c)) :
    (p ∘ fun kv : String × String => if kv.1 = k then (kv.1, v) else kv) = p := by
  funext kv
  simp only [Function.comp]
  split
  · exact hp _ _ _
  · rfl

theorem Headers.has_key_lower (h : Headers) (n k : String) (hk : h.has n = some k) :
    lower k = lower n ∧ ∃ x ∈ h, x.1 = k := by
  unfold Headers.has at hk
  obtain ⟨x, hx, hxk⟩ := Option.map_eq_some'.mp hk
  have h1 := List.find?_some hx
  have h2 := List.mem_of_find?_eq_some hx
  exact ⟨by rw [← hxk]; simpa using h1, x, h2, hxk⟩

theorem Headers.entries_set (h : Headers) (n v m : String) (hnm : lower m ≠ lower n) :
    (h.set n v).entries m = h.entries m := by
  unfold Headers.entries Headers.set
  split
  · next k hk =>
    have hkn := (Headers.has_key_lower h n k hk).1
    apply Headers.filter_map_of_fixed
    intro kv
    constructor
    · split <;> rfl
    · intro hp
      have hne : kv.1 ≠ k := by
        intro hc
        apply hnm
        have : lower kv.1 = lower m := by simpa using hp
        rw [← this, hc, hkn]
      rw [if_neg hne]
  · rw [List.filter_append]
    have : List.filter (fun kv => lower kv.1 == lower m) [(n, v)] = [] := by
      simp [List.filter_cons, Ne.symm hnm]
    rw [this, List.append_nil]

theorem Headers.set_has_lookup (h : Headers) (n v : String) :
    ∃ k, (h.set n v).has n = some k ∧ (h.set n v).lookup k = some v := by
  cases hk : h.has n with
  | some k =>
    obtain ⟨_, x, hx, hxk⟩ := Headers.has_key_lower h n k hk
    refine ⟨k, ?_, ?_⟩
    · unfold Headers.set
      rw [hk]
      simp only
      unfold Headers.has at hk ⊢
      rw [List.find?_map,
        Headers.set_map_fixed k v (fun kv => lower kv.1 == lower n) (fun _ _ _ => rfl)]
      obtain ⟨y, hy, hyk⟩ := Option.map_eq_some'.mp hk
      rw [hy]
      simp only [Option.map_some']
      rw [← hyk]
      split <;> rfl
    · unfold Headers.set Headers.lookup
      rw [hk]
      simp only
      rw [List.find?_map,
        Headers.set_map_fixed k v (fun kv => kv.1 == k) (fun _ _ _ => rfl)]
      have hsome : (h.find? (fun kv => kv.1 == k)).isSome = true := by
        rw [List.find?_isSome]
        exact ⟨x, hx, by simp [hxk]⟩
      obtain ⟨y, hy⟩ := Option.isSome_iff_exists.mp hsome
      have hyk : y.1 = k := by simpa using List.find?_some hy
      rw [hy]
      simp [hyk]
  | none =>
    refine ⟨n, ?_, ?_⟩
    · unfold Headers.set
      rw [hk]
      simp only
      unfold Headers.has at hk ⊢
      have hnone : h.find? (fun kv => lower kv.1 == lower n) = none := by
        simpa using hk
      rw [List.find?_append, hnone]
      simp
    · unfold Headers.set Headers.lookup
      rw [hk]
      simp only
      have hnone : h.find? (fun kv => kv.1 == n) = none := by
        rw [List.find?_eq_none]
        intro x hx hxn
        have := (Headers.has_eq_none_iff h n).mp hk x hx
        apply this
        have : x.1 = n := by simpa using hxn
        rw [this]
      rw [List.find?_append, hnone]
      simp

theorem Headers.set_get_unique (h : Headers) (n v : String) (hu : h.uniqueName n) :
    (h.set n v).get n = some v := by
  rw [Headers.get_eq_entries]
  unfold Headers.uniqueName Headers.entries at hu
  cases hk : h.has n with
  | some k =>
    obtain ⟨hkn, x, hx, hxk⟩ := Headers.has_key_lower h n k hk
    have hxf : x ∈ h.filter (fun kv => lower kv.1 == lower n) :=
      List.mem_filter.mpr ⟨hx, by simp [hxk, hkn]⟩
    have hone : h.filter (fun kv => lower kv.1 == lower n) = [x] := by
      generalize h.filter (fun kv => lower kv.1 == lower n) = l at hu hxf
      cases l with
      | nil => simp at hxf
      | cons y t =>
        cases t with
        | nil =>
          have : x = y := by simpa using hxf
          rw [this]
        | cons z t => simp at hu
    unfold Headers.entries Headers.set
    rw [hk]
    simp only
    rw [List.filter_map,
      Headers.set_map_fixed k v (fun kv => lower kv.1 == lower n) (fun _ _ _ => rfl), hone]
    simp [hxk]
  | none =>
    have hnil : h.filter (fun kv => lower kv.1 == lower n) = [] := by
      rw [List.filter_eq_nil_iff]
      intro x hx
      have := (Headers.has_eq_none_iff h n).mp hk x hx
      simpa using this
    unfold Headers.entries Headers.set
    rw [hk]
    simp only
    rw [List.filter_append, hnil]
    simp

theorem stripHostHeaders_entries (self : Redirect) (uriPrev : Uri) (request : Request)
    (m : String) (h1 : lower m ≠ "host") (h2 : lower m ≠ "authorization") :
    (stripHostHeaders self uriPrev request).headers.entries m = request.headers.entries m := by
  unfold stripHostHeaders
  split
  · simp only [Request.removeHeader]
    split
    · exact Headers.entries_del _ _ _ (by rw [lower_literals.1]; exact h1)
    · rw [Headers.entries_del _ _ _ (by rw [lower_literals.2.1]; exact h2),
        Headers.entries_del _ _ _ (by rw [lower_literals.1]; exact h1)]
  · rfl

theorem switchMethod_entries (self : Redirect) (statusCode : Nat) (request : Request)
    (m : String) (h1 : lower m ≠ "content-type") (h2 : lower m ≠ "content-length") :
    (switchMethod self statusCode request).headers.entries m = request.headers.entries m := by
  unfold switchMethod
  split
  · simp only [Request.removeHeader]
    split <;>
    · rw [Headers.entries_del _ _ _ (by rw [lower_literals.2.2.2.1]; exact h2),
        Headers.entries_del _ _ _ (by rw [lower_literals.2.2.1]; exact h1)]
  · rfl

theorem restoreFormData_entries (request : Request) (m : String)
    (h1 : lower m ≠ "content-type") (h2 : lower m ≠ "content-length") :
    (restoreFormData request).1.headers.entries m = request.headers.entries m := by
  unfold restoreFormData
  split
  · split
    · simp only [Request.removeHeader]
      rw [Headers.entries_del _ _ _ (by rw [lower_literals.2.2.2.1]; exact h2),
        Headers.entries_del _ _ _ (by rw [lower_literals.2.2.1]; exact h1)]
    · rfl
  · rfl

/-- The headers that reach the `Referer` step of `processRedirect`. -/
theorem applyRedirect_headers (self : Redirect) (statusCode : Nat) (u : Uri)
    (request : Request) :
    ∃ before : Headers,
      (∀ m, lower m ≠ "host" → lower m ≠ "authorization" → lower m ≠ "content-type" →
        lower m ≠ "content-length" → before.entries m = request.headers.entries m) ∧
      (applyRedirect self statusCode u request).1.headers =
        if self.removeRefererHeader then before else before.set "Referer" request.uri.href := by
  refine ⟨(restoreFormData (switchMethod self statusCode (clearTransport
    (stripHostHeaders self request.uri
      (dropAgent self request.uri { request with uri := u }))))).1.headers, ?_, ?_⟩
  · intro m h1 h2 h3 h4
    rw [restoreFormData_entries _ _ h3 h4, switchMethod_entries _ _ _ _ h3 h4,
      (clearTransport_fields _).2.2.2.2, stripHostHeaders_entries _ _ _ _ h1 h2,
      (dropAgent_fields _ _ _).1]
  · unfold applyRedirect setReferer
    simp only
    split <;> rfl

theorem Headers.has_congr (h : Headers) (a b : String) (hab : lower a = lower b) :
    h.has a = h.has b := by
  unfold Headers.has
  rw [hab]

theorem Headers.get_congr (h : Headers) (a b : String) (hab : lower a = lower b) :
    h.get a = h.get b := by
  unfold Headers.get
  rw [hab]

theorem Headers.entries_congr (h : Headers) (a b : String) (hab : lower a = lower b) :
    h.entries a = h.entries b := by
  unfold Headers.entries
  rw [hab]

/-! ## Referer, re-authentication and the connection manager -/

/-- C13: for every call of processRedirect with removeRefererHeader set, the stored Referer
entries (every spelling) are left as they were, so getHeader and hasHeader of Referer
answer as before (a Referer of the initial request keeps its value, a request without one
still has none). For a followed redirect (truthy verdict, hop limit not reached, target
parsed) with removeRefererHeader false, the redirect event is emitted once, on a request
whose Referer header (the value stored under the spelling hasHeader reports, and the value
getHeader returns when at most one spelling was stored) is the href of the previous URL. -/
theorem processRedirect_referer (response : Response) (c : Ctx) (v : JSValue) :
    (c.state.redirect.removeRefererHeader = true →
      (processRedirect response c v).state.request.headers.entries "referer" =
        c.state.request.headers.entries "referer" ∧
      (processRedirect response c v).state.request.headers.get "referer" =
        c.state.request.headers.get "referer" ∧
      (processRedirect response c v).state.request.headers.has "referer" =
        c.state.request.headers.has "referer") ∧
    (∀ t u, v.truthy = true →
      (c.state.redirect.redirectsFollowed : Int) < c.state.redirect.maxRedirects →
      resolveTarget c.state.request (overridden v c.redirectTo) = (t, some u) →
      c.state.redirect.removeRefererHeader = false →
      redirectEmits (processRedirect response c v).events = redirectEmits c.events + 1 ∧
      (∃ k, (processRedirect response c v).state.request.headers.has "referer" = some k ∧
        (processRedirect response c v).state.request.headers.lookup k =
          some c.state.request.uri.href) ∧
      (c.state.request.headers.uniqueName "referer" →
        (processRedirect response c v).state.request.headers.get "referer" =
          some c.state.request.uri.href)) := by
  have hl : lower "referer" = lower "Referer" := by decide
  constructor
  · intro hrm
    have hent : (processRedirect response c v).state.request.headers.entries "referer" =
        c.state.request.headers.entries "referer" := by
      rcases processRedirect_request_cases response c v with hsame | ⟨t, u, hv, hlim, hparse⟩
      · rw [hsame]
      · rw [processRedirect_followed response c v t u hv hlim hparse]
        obtain ⟨before, hb, hh⟩ := applyRedirect_headers c.state.redirect response.statusCode u
          c.state.request
        simp only [hh, hrm, if_true]
        exact hb "referer" (by decide) (by decide) (by decide) (by decide)
    refine ⟨hent, ?_, ?_⟩
    · rw [Headers.get_eq_entries, Headers.get_eq_entries, hent]
    · rw [Headers.has_eq_entries, Headers.has_eq_entries, hent]
  · intro t u hv hlim hparse hrm
    rw [processRedirect_followed response c v t u hv hlim hparse]
    obtain ⟨before, hb, hh⟩ := applyRedirect_headers c.state.redirect response.statusCode u
      c.state.request
    simp only [hh, hrm, Bool.false_eq_true, if_false]
    refine ⟨?_, ?_, ?_⟩
    · cases response.resume <;> simp [redirectEmits_append, redirectEmits]
    · obtain ⟨k, hk1, hk2⟩ := Headers.set_has_lookup before "Referer" c.state.request.uri.href
      exact ⟨k, by rw [Headers.has_congr _ _ _ hl]; exact hk1, hk2⟩
    · intro hu
      rw [Headers.get_congr _ _ _ hl]
      apply Headers.set_get_unique
      unfold Headers.uniqueName at hu ⊢
      rw [← Headers.entries_congr _ _ _ hl,
        hb "referer" (by decide) (by decide) (by decide) (by decide)]
      exact hu

theorem processRedirect_referer_witness :
    (processRedirect (sampleResponse 301) (bodyCtx "POST")
      (.bool true)).state.request.headers.get "referer" = some "http://localhost/temp" :=
  ((processRedirect_referer (sampleResponse 301) (bodyCtx "POST") (.bool true)).2
    (.str "http://localhost/temp_landing") landingUri (by decide) (by decide) (by decide)
    (by decide)).2.2
    (show ((bodyCtx "POST").state.request.headers.entries "referer").length ≤ 1 by decide)

/-- C14: for a response with status 401, whatever followRedirects and followAllRedirects
are: redirectTo returns the current request.uri exactly when the authentication helper
returns a truthy header value, and null otherwise; with a truthy value the state it
returns is the request after setHeader('Authorization', value), so the value is stored
under the spelling hasHeader reports (and is what getHeader returns when at most one
spelling was stored); with a falsy value the state is unchanged. -/
theorem redirectTo_unauthorized (s : State) (response : Response)
    (h : response.statusCode = 401) :
    ((redirectTo s response).2 = some (.uri s.request.uri) ↔
      ∃ a, s.request._auth response = some a ∧ a ≠ "") ∧
    ((redirectTo s response).2 ≠ some (.uri s.request.uri) → redirectTo s response = (s, none)) ∧
    (∀ a, s.request._auth response = some a → a ≠ "" →
      (redirectTo s response).1 = { s with request := s.request.setHeader "Authorization" a } ∧
      (∃ k, (redirectTo s response).1.request.headers.has "authorization" = some k ∧
        (redirectTo s response).1.request.headers.lookup k = some a) ∧
      (s.request.headers.uniqueName "authorization" →
        (redirectTo s response).1.request.headers.get "authorization" = some a)) := by
  have hl : lower "authorization" = lower "Authorization" := by decide
  have h3 : ¬ (300 ≤ response.statusCode ∧ response.statusCode < 400 ∧
      (response.headers.has "location").isSome = true) := by
    rw [h]; intro hc; exact absurd hc.2.1 (by decide)
  have hr : redirectTo s response =
      match s.request._auth response with
      | some authHeader =>
        if authHeader ≠ "" then
          ({ s with request := s.request.setHeader "Authorization" authHeader },
            some (.uri s.request.uri))
        else (s, none)
      | none => (s, none) := by
    unfold redirectTo
    rw [if_neg h3, if_pos h]
  refine ⟨?_, ?_, ?_⟩
  · rw [hr]
    cases ha : s.request._auth response with
    | none => simp
    | some a =>
      by_cases hne : a = ""
      · simp [hne]
      · simp [hne]
  · rw [hr]
    cases ha : s.request._auth response with
    | none => simp
    | some a =>
      by_cases hne : a = ""
      · simp [hne]
      · simp [hne]
  · intro a ha hne
    have hst : (redirectTo s response).1 =
        { s with request := s.request.setHeader "Authorization" a } := by
      rw [hr, ha]
      simp only [hne, ne_eq, not_false_eq_true, if_true]
    rw [hst]
    simp only [Request.setHeader]
    refine ⟨trivial, ?_, ?_⟩
    · obtain ⟨k, hk1, hk2⟩ := Headers.set_has_lookup s.request.headers "Authorization" a
      exact ⟨k, by rw [Headers.has_congr _ _ _ hl]; exact hk1, hk2⟩
    · intro hu
      rw [Headers.get_congr _ _ _ hl]
      apply Headers.set_get_unique
      unfold Headers.uniqueName at hu ⊢
      rw [← Headers.entries_congr _ _ _ hl]
      exact hu

theorem redirectTo_unauthorized_witness :
    (redirectTo challengedState { statusCode := 401 }).2 = some (.uri sampleUri) ∧
    (redirectTo challengedState { statusCode := 401 }).1.request.headers.get "authorization" =
      some "Digest abc" :=
  have h := redirectTo_unauthorized challengedState { statusCode := 401 } rfl
  ⟨h.1.mpr ⟨"Digest abc", rfl, by decide⟩,
   (h.2.2 "Digest abc" rfl (by decide)).2.2
     (show (challengedState.request.headers.entries "authorization").length ≤ 1 by decide)⟩

theorem applyRedirect_agent (self : Redirect) (statusCode : Nat) (u : Uri)
    (request : Request) :
    (applyRedirect self statusCode u request).1.agent =
      (dropAgent self request.uri { request with uri := u }).agent := by
  unfold applyRedirect setReferer restoreFormData switchMethod clearTransport stripHostHeaders
  simp only [Request.removeHeader, Request.setHeader]
  repeat' split
  all_goals rfl

/-- C15 (counterexample): an admitted redirect from http: to https: with
allowInsecureRedirect set, met at the hop limit: the target parses to a URL whose protocol
differs from the previous one, but processRedirect returns at the hop-limit guard and
request.agent is still there. -/
theorem processRedirect_agent_at_limit :
    (JSValue.bool true).truthy = true ∧
    (resolveTarget agentLimitCtx.state.request agentLimitCtx.redirectTo).2.map
      (fun u => u.protocol) = some (some "https:") ∧
    agentLimitCtx.state.request.uri.protocol = some "http:" ∧
    agentLimitCtx.state.redirect.allowInsecureRedirect = true ∧
    (processRedirect (sampleResponse 302) agentLimitCtx (.bool true)).state.request.agent =
      some 7 := by
  decide

/-- C15 (amended): for every admitted redirect that is followed (the hop limit is not
reached and the target resolves and parses to the URL u): request.agent is deleted when the
protocol of u differs from the protocol of the previous URL and allowInsecureRedirect is
set; when the protocols are equal, or allowInsecureRedirect is not set, request.agent is
left as it was. -/
theorem processRedirect_followed_agent (response : Response) (c : Ctx) (v : JSValue)
    (t : Target) (u : Uri) (hv : v.truthy = true)
    (hlim : (c.state.redirect.redirectsFollowed : Int) < c.state.redirect.maxRedirects)
    (hparse : resolveTarget c.state.request (overridden v c.redirectTo) = (t, some u)) :
    (u.protocol ≠ c.state.request.uri.protocol ∧
        c.state.redirect.allowInsecureRedirect = true →
      (processRedirect response c v).state.request.agent = none) ∧
    (u.protocol = c.state.request.uri.protocol ∨
        c.state.redirect.allowInsecureRedirect = false →
      (processRedirect response c v).state.request.agent = c.state.request.agent) := by
  have ha : (processRedirect response c v).state.request.agent =
      (dropAgent c.state.redirect c.state.request.uri
        { c.state.request with uri := u }).agent := by
    rw [processRedirect_followed response c v t u hv hlim hparse]
    exact applyRedirect_agent _ _ _ _
  rw [ha]
  unfold dropAgent
  constructor
  · intro hne
    rw [if_pos hne]
  · intro heq
    rw [if_neg]
    rintro ⟨h1, h2⟩
    rcases heq with heq | heq
    · exact h1 heq
    · rw [heq] at h2; exact absurd h2 (by decide)

theorem processRedirect_followed_agent_witness :
    (processRedirect (sampleResponse 302) (agentCtx true) (.bool true)).state.request.agent =
      none ∧
    (processRedirect (sampleResponse 302) (agentCtx false) (.bool true)).state.request.agent =
      some 7 :=
  ⟨(processRedirect_followed_agent (sampleResponse 302) (agentCtx true) (.bool true)
      (.str "https://localhost/")
      { href := "https://localhost/", protocol := some "https:",
        hostname := some "localhost" } (by decide) (by decide) (by decide)).1 (by decide),
   (processRedirect_followed_agent (sampleResponse 302) (agentCtx false) (.bool true)
      (.str "https://localhost/")
      { href := "https://localhost/", protocol := some "https:",
        hostname := some "localhost" } (by decide) (by decide) (by decide)).2 (Or.inr rfl)⟩


/-! ## Response size ceiling -/

theorem onDataAll_negative (g : SizeGuard) (chunks : List Chunk)
    (he : g.responseThresholdEnabled = true) (hneg : g.responseBytesLeft < 0) :
    onDataAll g chunks = chunks.flatMap rejected := by
  induction chunks generalizing g with
  | nil => rfl
  | cons c rest ih =>
    have hlt : g.responseBytesLeft - (c.length : Int) < 0 := by omega
    have h1 : onData g c =
        ({ g with responseBytesLeft := g.responseBytesLeft - c.length }, rejected c) := by
      simp [onData, he, hlt, rejected]
    simp only [onDataAll, h1, List.flatMap_cons]
    rw [ih { g with responseBytesLeft := g.responseBytesLeft - c.length } he hlt]

theorem onDataAll_within (g : SizeGuard) (chunks : List Chunk)
    (he : g.responseThresholdEnabled = true)
    (hfit : (totalLength chunks : Int) ≤ g.responseBytesLeft) :
    onDataAll g chunks = chunks.map DataEvent.data := by
  induction chunks generalizing g with
  | nil => rfl
  | cons c rest ih =>
    simp only [totalLength, List.map_cons, List.sum_cons, Nat.cast_add] at hfit
    have hrest : (totalLength rest : Int) ≤ g.responseBytesLeft - c.length := by
      unfold totalLength; omega
    have hge : ¬ g.responseBytesLeft - (c.length : Int) < 0 := by
      have : (0 : Int) ≤ (List.map Chunk.length rest).sum := by positivity
      omega
    have h1 : onData g c =
        ({ g with responseBytesLeft := g.responseBytesLeft - c.length }, [.data c]) := by
      simp [onData, he, hge]
    simp only [onDataAll, h1, List.map_cons, List.singleton_append]
    rw [ih { g with responseBytesLeft := g.responseBytesLeft - c.length } he hrest]

theorem onDataAll_crossing (chunks : List Chunk) :
    ∀ (g : SizeGuard), g.responseThresholdEnabled = true → 0 ≤ g.responseBytesLeft →
      g.responseBytesLeft < (totalLength chunks : Int) →
      ∃ pre c post, chunks = pre ++ c :: post ∧
        (totalLength pre : Int) ≤ g.responseBytesLeft ∧
        g.responseBytesLeft < (totalLength pre : Int) + c.length ∧
        onDataAll g chunks = pre.map DataEvent.data ++ (c :: post).flatMap rejected := by
  induction chunks with
  | nil =>
    intro g _ h0 hlt
    simp [totalLength] at hlt
    omega
  | cons c rest ih =>
    intro g he h0 hlt
    simp only [totalLength, List.map_cons, List.sum_cons, Nat.cast_add] at hlt
    by_cases hc : g.responseBytesLeft - (c.length : Int) < 0
    · refine ⟨[], c, rest, rfl, by simpa [totalLength] using h0, by simp [totalLength]; omega, ?_⟩
      have h1 : onData g c =
          ({ g with responseBytesLeft := g.responseBytesLeft - c.length }, rejected c) := by
        simp [onData, he, hc, rejected]
      simp only [onDataAll, h1, List.map_nil, List.nil_append, List.flatMap_cons]
      rw [onDataAll_negative { g with responseBytesLeft := g.responseBytesLeft - c.length }
        rest he hc]
    · have h1 : onData g c =
          ({ g with responseBytesLeft := g.responseBytesLeft - c.length }, [.data c]) := by
        simp [onData, he, hc]
      obtain ⟨pre, c2, post, hsplit, hpre, hover, hev⟩ :=
        ih { g with responseBytesLeft := g.responseBytesLeft - c.length } he (by simp; omega)
          (by simp only [totalLength]; omega)
      refine ⟨c :: pre, c2, post, by rw [hsplit]; rfl, ?_, ?_, ?_⟩
      · simp only [totalLength, List.map_cons, List.sum_cons, Nat.cast_add] at hpre ⊢
        omega
      · simp only [totalLength, List.map_cons, List.sum_cons, Nat.cast_add] at hover ⊢
        omega
      · simp only [onDataAll, h1, List.map_cons, List.singleton_append, List.cons_append]
        rw [hev]
        rfl

theorem dataChunks_map (chunks : List Chunk) :
    dataChunks (chunks.map DataEvent.data) = chunks := by
  induction chunks with
  | nil => rfl
  | cons c rest ih => simp [dataChunks, ih]

theorem sizeErrors_map (chunks : List Chunk) :
    sizeErrors (chunks.map DataEvent.data) = 0 := by
  induction chunks with
  | nil => rfl
  | cons c rest ih => simp [sizeErrors, ih]

theorem dataChunks_append (xs ys : List DataEvent) :
    dataChunks (xs ++ ys) = dataChunks xs ++ dataChunks ys := by
  induction xs with
  | nil => rfl
  | cons x xs ih => cases x <;> simp [dataChunks, ih]

theorem sizeErrors_append (xs ys : List DataEvent) :
    sizeErrors (xs ++ ys) = sizeErrors xs + sizeErrors ys := by
  induction xs with
  | nil => simp [sizeErrors]
  | cons x xs ih =>
    cases x
    all_goals simp [sizeErrors, ih]
    omega

theorem dataChunks_rejected (chunks : List Chunk) :
    dataChunks (chunks.flatMap rejected) = [] := by
  induction chunks with
  | nil => rfl
  | cons c rest ih =>
    rw [List.flatMap_cons, dataChunks_append, ih]
    rfl

theorem sizeErrors_rejected (chunks : List Chunk) :
    sizeErrors (chunks.flatMap rejected) = chunks.length := by
  induction chunks with
  | nil => rfl
  | cons c rest ih =>
    rw [List.flatMap_cons, sizeErrors_append, ih, List.length_cons]
    simp [rejected, sizeErrors]
    omega

/-- The ceiling in the unit the handler counts, the property length of each chunk. With
maxResponseSize set to N, for every sequence of chunks: the size error is
raised if and only if the total length exceeds N; when the total is at most N (exactly N
included, in any chunking) every chunk is emitted as data and nothing else happens; when
the total exceeds N, the chunks before the first one whose cumulative length exceeds N are
emitted as data, and that chunk and every later one raise the error (followed by destroy
and abort) and are not emitted. -/
theorem maxResponseSize_ceiling (N : Nat) (chunks : List Chunk) :
    (0 < sizeErrors (onDataAll (sizeGuard (some (N : Int))) chunks) ↔
      N < totalLength chunks) ∧
    (totalLength chunks ≤ N →
      onDataAll (sizeGuard (some (N : Int))) chunks = chunks.map DataEvent.data) ∧
    (N < totalLength chunks →
      ∃ pre c post, chunks = pre ++ c :: post ∧ totalLength pre ≤ N ∧
        N < totalLength pre + c.length ∧
        onDataAll (sizeGuard (some (N : Int))) chunks =
          pre.map DataEvent.data ++ (c :: post).flatMap rejected ∧
        dataChunks (onDataAll (sizeGuard (some (N : Int))) chunks) = pre) := by
  have he : (sizeGuard (some (N : Int))).responseThresholdEnabled = true := rfl
  have hl : (sizeGuard (some (N : Int))).responseBytesLeft = N := rfl
  have hfit : totalLength chunks ≤ N →
      onDataAll (sizeGuard (some (N : Int))) chunks = chunks.map DataEvent.data := by
    intro h
    exact onDataAll_within _ chunks he (by rw [hl]; exact_mod_cast h)
  have hover : N < totalLength chunks →
      ∃ pre c post, chunks = pre ++ c :: post ∧ totalLength pre ≤ N ∧
        N < totalLength pre + c.length ∧
        onDataAll (sizeGuard (some (N : Int))) chunks =
          pre.map DataEvent.data ++ (c :: post).flatMap rejected ∧
        dataChunks (onDataAll (sizeGuard (some (N : Int))) chunks) = pre := by
    intro h
    obtain ⟨pre, c, post, hsplit, hpre, hcross, hev⟩ :=
      onDataAll_crossing chunks _ he (by rw [hl]; omega) (by rw [hl]; exact_mod_cast h)
    rw [hl] at hpre hcross
    refine ⟨pre, c, post, hsplit, by exact_mod_cast hpre, by exact_mod_cast hcross, hev, ?_⟩
    rw [hev, dataChunks_append, dataChunks_map, dataChunks_rejected, List.append_nil]
  refine ⟨?_, hfit, hover⟩
  constructor
  · intro herr
    by_contra hle
    rw [hfit (not_lt.mp hle), sizeErrors_map] at herr
    exact absurd herr (by decide)
  · intro h
    obtain ⟨pre, c, post, _, _, _, hev, _⟩ := hover h
    rw [hev, sizeErrors_append, sizeErrors_map, sizeErrors_rejected]
    simp

theorem maxResponseSize_ceiling_witness :
    onDataAll (sizeGuard (some 5)) [.buffer [1, 2, 3], .text "ab"] =
      [.data (.buffer [1, 2, 3]), .data (.text "ab")] ∧
    0 < sizeErrors (onDataAll (sizeGuard (some 5)) [.buffer [1, 2, 3], .text "abc"]) :=
  ⟨(maxResponseSize_ceiling 5 [.buffer [1, 2, 3], .text "ab"]).2.1 (by decide),
   (maxResponseSize_ceiling 5 [.buffer [1, 2, 3], .text "abc"]).1.mpr (by decide)⟩

/-- C16 (failing input): with maxResponseSize 2 and string chunks (an encoding is set), a
body that is the one chunk éa has 3 bytes, one more than the ceiling, but its length
property is 2: the handler raises no size error and emits the chunk as data. A binary chunk
of the same 3 bytes raises the error. -/
theorem maxResponseSize_counts_code_units :
    (Chunk.text "éa").byteLength = 3 ∧
    (Chunk.text "éa").length = 2 ∧
    onDataAll (sizeGuard (some 2)) [.text "éa"] = [.data (.text "éa")] ∧
    sizeErrors (onDataAll (sizeGuard (some 2)) [.text "éa"]) = 0 ∧
    sizeErrors (onDataAll (sizeGuard (some 2)) [.buffer [195, 169, 97]]) = 1 := by
  decide

/-! ## Connection pool -/

theorem PoolState.store_same (p : PoolState) (k : String) (a : Agent) :
    (p.store k a).pool k = some a := by
  simp [PoolState.store]

theorem PoolState.store_other (p : PoolState) (k k' : String) (a : Agent) (h : k' ≠ k) :
    (p.store k a).pool k' = p.pool k' := by
  simp [PoolState.store, h]

/-- The three ways `getNewAgent` returns: the module's global agent with the pool
untouched, the stored agent with a new `lastUsedAt`, or a newly constructed agent stored
under the key. -/
theorem getNewAgent_cases (r : AgentRequest) (t : Option Int) (now : Int) (p : PoolState)
    (res : Acquired) (hres : getNewAgent r t now p = some res) :
    ∃ key, poolKey r = some key ∧
      ((res.state = p ∧ r.globalAgent = some res.agent ∧ res.constructed = false ∧
          t = none ∧ r.poolIsGlobal = true ∧ res.poolKey = none) ∨
       (∃ a, p.pool key = some a ∧ idleExpired a t now = false ∧
          res.agent = { a with lastUsedAt := some now } ∧
          res.state = p.store key res.agent ∧ res.constructed = false ∧
          res.poolKey = some key) ∨
       ((p.pool key = none ∨ ∃ a, p.pool key = some a ∧ idleExpired a t now = true) ∧
          res.agent.id = p.constructed ∧ res.agent.lastUsedAt = some now ∧
          res.state = ({ p with constructed := p.constructed + 1 }).store key res.agent ∧
          res.constructed = true ∧ res.poolKey = some key)) := by
  unfold getNewAgent at hres
  unfold poolKey
  cases hk : tlsPoolKey r (requestOptions r) with
  | none => rw [hk] at hres; exact absurd hres (by simp)
  | some ko =>
    obtain ⟨k, o⟩ := ko
    rw [hk] at hres
    simp only [Option.map_some'] at hres ⊢
    refine ⟨_, rfl, ?_⟩
    split at hres
    · next g hg =>
      simp only [Option.some.injEq] at hres
      subst hres
      split at hg
      · next hfast => exact Or.inl ⟨rfl, hg, rfl, hfast.2.2.2, by simpa using hfast.1, rfl⟩
      · exact absurd hg (by simp)
    · split at hres
      · next a ha =>
        split at hres
        · next hexp =>
          simp only [Option.some.injEq] at hres
          subst hres
          exact Or.inr (Or.inr ⟨Or.inr ⟨a, ha, hexp⟩, rfl, rfl, rfl, rfl, rfl⟩)
        · next hexp =>
          simp only [Option.some.injEq] at hres
          subst hres
          exact Or.inr (Or.inl ⟨a, ha, by simpa using hexp, rfl, rfl, rfl, rfl⟩)
      · next hnone =>
        simp only [Option.some.injEq] at hres
        subst hres
        exact Or.inr (Or.inr ⟨Or.inl hnone, rfl, rfl, rfl, rfl, rfl⟩)

/-- C18: when an agent is stored under the request's pool key, getNewAgent constructs a
new agent in its place if and only if agentIdleTimeout is a number and
now - lastUsedAt exceeds it (a missing lastUsedAt counting as 0); without a numeric idle
timeout the stored agent is never replaced (either the pool is left untouched and the
module's global agent is returned, or the stored agent itself is returned); and when the
agent is returned from the pool map (new or stored) it is the entry under the key and its
lastUsedAt is now. -/
theorem getNewAgent_idle_replacement (r : AgentRequest) (t : Option Int) (now : Int)
    (p : PoolState) (key : String) (a : Agent) (res : Acquired)
    (hkey : poolKey r = some key) (hstored : p.pool key = some a)
    (hres : getNewAgent r t now p = some res) :
    (res.constructed = true ↔ ∃ timeout, t = some timeout ∧
      timeout < now - a.lastUsedAt.getD 0) ∧
    (res.constructed = true →
      res.state.pool key = some res.agent ∧ res.agent.id = p.constructed) ∧
    (res.constructed = false →
      (res.state.pool key).map (fun stored => stored.id) = some a.id ∧
      ((res.state = p ∧ r.globalAgent = some res.agent ∧ res.poolKey = none) ∨
        (res.state.pool key = some res.agent ∧ res.agent.id = a.id))) ∧
    (t = none → res.constructed = false) ∧
    (res.poolKey = some key →
      res.state.pool key = some res.agent ∧ res.agent.lastUsedAt = some now) := by
  obtain ⟨key', hk', hcases⟩ := getNewAgent_cases r t now p res hres
  rw [hkey] at hk'
  simp only [Option.some.injEq] at hk'
  subst hk'
  have hexp : ∀ b : Bool, idleExpired a t now = b →
      (b = true ↔ ∃ timeout, t = some timeout ∧ timeout < now - a.lastUsedAt.getD 0) := by
    intro b hb
    unfold idleExpired at hb
    cases t with
    | none => simp at hb; simp [← hb]
    | some timeout =>
      simp only at hb
      rw [← hb]
      simp only [decide_eq_true_eq, Option.some.injEq, exists_eq_left']
      constructor <;> intro h <;> omega
  rcases hcases with ⟨hst, hg, hc, ht, _, hpk⟩ | ⟨a', ha', hex, hag, hst, hc, hpk⟩ |
      ⟨hold, hid, hlast, hst, hc, hpk⟩
  · refine ⟨?_, ?_, ?_, ?_, ?_⟩
    · rw [hc, ht]; simp
    · rw [hc]; intro h; exact absurd h (by decide)
    · intro _
      refine ⟨?_, Or.inl ⟨hst, hg, hpk⟩⟩
      rw [hst, hstored]
      rfl
    · intro _; exact hc
    · intro hp; rw [hpk] at hp; exact absurd hp (by simp)
  · rw [hstored] at ha'
    simp only [Option.some.injEq] at ha'
    subst ha'
    have hsame : res.state.pool key = some res.agent := by rw [hst]; exact PoolState.store_same _ _ _
    have hid : res.agent.id = a.id := by rw [hag]
    refine ⟨?_, ?_, ?_, ?_, ?_⟩
    · rw [hc, ← hexp false hex]
    · rw [hc]; intro h; exact absurd h (by decide)
    · intro _
      refine ⟨?_, Or.inr ⟨hsame, hid⟩⟩
      rw [hsame]
      simp [hid]
    · intro _; exact hc
    · intro _; exact ⟨hsame, by rw [hag]⟩
  · have hsame : res.state.pool key = some res.agent := by rw [hst]; exact PoolState.store_same _ _ _
    have hex : idleExpired a t now = true := by
      rcases hold with hn | ⟨a', ha', hex⟩
      · rw [hstored] at hn; exact absurd hn (by simp)
      · rw [hstored] at ha'
        simp only [Option.some.injEq] at ha'
        subst ha'
        exact hex
    refine ⟨?_, ?_, ?_, ?_, ?_⟩
    · rw [hc, ← hexp true hex]
    · intro _; exact ⟨hsame, hid⟩
    · rw [hc]; intro h; exact absurd h (by decide)
    · intro ht
      exfalso
      rw [ht] at hex
      simp [idleExpired] at hex
    · intro _; exact ⟨hsame, hlast⟩

theorem getNewAgent_idle_replacement_witness :
    replacedAgent.constructed = true ∧
    (∃ timeout, (some 10 : Option Int) = some timeout ∧
      timeout < 100 - idleAgent.lastUsedAt.getD 0) ∧
    replacedAgent.state.pool idlePoolKey = some replacedAgent.agent ∧
    replacedAgent.agent.id = idlePool.constructed ∧
    replacedAgent.agent.lastUsedAt = some 100 :=
  have h := getNewAgent_idle_replacement (secureRequest "ca.pem") (some 10) 100 idlePool
    idlePoolKey idleAgent replacedAgent (by decide) (by decide) rfl
  ⟨rfl, h.1.mp rfl, (h.2.1 rfl).1, (h.2.1 rfl).2, (h.2.2.2.2 rfl).2⟩


/-! ## Pool keys -/

theorem str_append_right_cancel (a b x : String) (h : a ++ x = b ++ x) : a = b := by
  have hd := congrArg String.data h
  simp only [String.data_append] at hd
  exact String.ext (List.append_cancel_right hd)

theorem str_append_left_cancel (x a b : String) (h : x ++ a = x ++ b) : a = b := by
  have hd := congrArg String.data h
  simp only [String.data_append] at hd
  exact String.ext (List.append_cancel_left hd)

theorem addPart_ne_self (k c : String) (hc : c ≠ "") : addPart k c ≠ k := by
  intro h
  have hl := congrArg String.length h
  have hcl : 0 < c.length := by
    rcases Nat.eq_zero_or_pos c.length with h0 | h0
    · exact absurd (String.ext (List.length_eq_zero.mp h0)) hc
    · exact h0
  unfold addPart at hl
  split_ifs at hl <;> simp only [String.length_append] at hl <;> omega

/-- The step that adds a part to the key keeps different keys different. -/
theorem addPart_injective (x a b : String) (h : addPart a x = addPart b x) : a = b := by
  unfold addPart at h
  have hl := congrArg String.length h
  have hcolon : (":" : String).length = 1 := rfl
  split_ifs at h hl with ha hb hb
  · exact str_append_right_cancel _ _ _ (str_append_right_cancel _ _ _ h)
  · simp only [String.length_append, hcolon] at hl
    simp only [ne_eq, not_not] at hb
    subst hb
    simp at hl
  · simp only [String.length_append, hcolon] at hl
    simp only [ne_eq, not_not] at ha
    subst ha
    simp at hl
  · simp only [ne_eq, not_not] at ha hb
    rw [ha, hb]

theorem addPart_left_injective (k a b : String) (h : addPart k a = addPart k b) : a = b := by
  unfold addPart at h
  exact str_append_left_cancel _ _ _ h

theorem foldl_addPart_injective (parts : List String) (a b : String)
    (h : parts.foldl addPart a = parts.foldl addPart b) : a = b := by
  induction parts generalizing a b with
  | nil => exact h
  | cons x xs ih => exact addPart_injective x a b (ih _ _ h)

theorem foldl_part (c : Bool) (x k : String) :
    (if c = true then [x] else []).foldl addPart k = if c = true then addPart k x else k := by
  cases c <;> rfl

/-- The key that `keyTail` computes is the fold of the parts over the key so far. -/
theorem keyTail_key (r : AgentRequest) (k : String) (o : AgentOptions)
    (res : String × AgentOptions) (h : keyTail r k o = some res) :
    res.1 = (tailParts o).foldl addPart k := by
  unfold keyTail at h
  unfold tailParts
  simp only [List.foldl_append, foldl_part]
  cases hx : truthyStr o.extraCA <;> simp only [hx, if_true, if_false, Bool.false_eq_true] at h ⊢
  · cases hr : o.rejectUnauthorized <;> simp only [hr] at h ⊢ <;>
      cases hcert : truthyStr o.cert <;>
      simp only [hcert, if_true, if_false, Bool.false_eq_true] at h ⊢ <;>
      cases hkey : o.key <;>
      simp only [hkey, Option.map_none', Option.map_some', Option.some.injEq,
        Option.getD_some, Option.getD_none, reduceCtorEq] at h <;>
      rw [← h] <;> simp only [List.foldl_nil, List.foldl_cons, Option.getD_some]
  · cases hctx : r.createSecureContext o <;>
      simp only [hctx, Option.map_none', Option.map_some', reduceCtorEq] at h
    cases hr : o.rejectUnauthorized <;> simp only [hr] at h ⊢ <;>
      cases hcert : truthyStr o.cert <;>
      simp only [hcert, if_true, if_false, Bool.false_eq_true] at h ⊢ <;>
      cases hkey : o.key <;>
      simp only [hkey, Option.map_none', Option.map_some', Option.some.injEq,
        Option.getD_some, Option.getD_none, reduceCtorEq] at h <;>
      rw [← h] <;> simp only [List.foldl_nil, List.foldl_cons, Option.getD_some]

theorem tailParts_ca (o : AgentOptions) (c : Option String) :
    tailParts { o with ca := c } = tailParts o := rfl

/-- Changing the request's `ca` changes only the `ca` key of the options object. -/
theorem requestOptions_ca (r : AgentRequest) (c : Option String) :
    requestOptions { r with ca := c } =
      { requestOptions r with ca := (requestOptions { r with ca := c }).ca } := rfl

theorem truthyStr_false_getD (v : Option String) (h : truthyStr v = false) : v.getD "" = "" := by
  cases v with
  | none => rfl
  | some s => simpa [truthyStr] using h

theorem truthyStr_true_getD (v : Option String) (h : truthyStr v = true) : v.getD "" ≠ "" := by
  cases v with
  | none => simp [truthyStr] at h
  | some s => simpa [truthyStr] using h

/-- Two option objects whose `ca` differ as strings (an absent `ca` counting as the empty
string) get different keys at the `ca` step. -/
theorem keyAfterCa_ne (k : String) (o1 o3 : AgentOptions)
    (hca : o1.ca.getD "" ≠ o3.ca.getD "") : keyAfterCa k o1 ≠ keyAfterCa k o3 := by
  unfold keyAfterCa
  cases h1 : truthyStr o1.ca <;> cases h3 : truthyStr o3.ca <;>
    simp only [if_true, if_false, Bool.false_eq_true]
  · rw [truthyStr_false_getD _ h1, truthyStr_false_getD _ h3] at hca
    exact absurd rfl hca
  · exact fun h => addPart_ne_self k _ (truthyStr_true_getD _ h3) h.symm
  · exact addPart_ne_self k _ (truthyStr_true_getD _ h1)
  · exact fun h => hca (addPart_left_injective k _ _ h)

/-- For a secure URL the key before the protocol is prepended is the fold of the parts of
the options over the key of the `ca` step. -/
theorem tlsPoolKey_key (r : AgentRequest) (o : AgentOptions) (res : String × AgentOptions)
    (hs : r.uriProtocol = "https:") (h : tlsPoolKey r o = some res) :
    res.1 = (tailParts o).foldl addPart
      (keyAfterCa (if r.agentClass.isModuleAgent then "" else r.agentClass.name) o) := by
  unfold tlsPoolKey at h
  simp only [hs, or_true, if_true] at h
  exact keyTail_key r _ o res h

/-- Requests to a secure URL that differ only in `ca`, with option objects whose `ca` differ
as strings, have different pool keys. -/
theorem poolKey_ca_ne (r : AgentRequest) (c : Option String) (k1 k3 : String)
    (hs : r.uriProtocol = "https:")
    (hca : (requestOptions r).ca.getD "" ≠ (requestOptions { r with ca := c }).ca.getD "")
    (h1 : poolKey r = some k1) (h3 : poolKey { r with ca := c } = some k3) : k1 ≠ k3 := by
  unfold poolKey at h1 h3
  cases ht1 : tlsPoolKey r (requestOptions r) with
  | none => rw [ht1] at h1; exact absurd h1 (by simp)
  | some res1 =>
    cases ht3 : tlsPoolKey { r with ca := c } (requestOptions { r with ca := c }) with
    | none => rw [ht3] at h3; exact absurd h3 (by simp)
    | some res3 =>
      rw [ht1] at h1
      rw [ht3] at h3
      simp only [Option.map_some', Option.some.injEq] at h1 h3
      have e1 := tlsPoolKey_key r _ res1 hs ht1
      have e3 := tlsPoolKey_key { r with ca := c } _ res3 hs ht3
      rw [requestOptions_ca r c, tailParts_ca] at e3
      intro hk
      rw [← h1, ← h3] at hk
      have hk' := str_append_left_cancel _ _ _ hk
      rw [e1, e3] at hk'
      exact keyAfterCa_ne _ _ _ hca (by
        have := foldl_addPart_injective _ _ _ hk'
        rw [requestOptions_ca r c]
        exact this)


theorem store_reuse_wellFormed (p : PoolState) (g : Option Agent) (key : String)
    (a a' : Agent) (hwf : p.WellFormed g) (ha : p.pool key = some a) (hid : a'.id = a.id) :
    (p.store key a').WellFormed g := by
  obtain ⟨h1, h2, h3⟩ := hwf
  have hlook : ∀ k b, (p.store key a').pool k = some b →
      ∃ b', p.pool k = some b' ∧ b'.id = b.id := by
    intro k b hb
    by_cases hk : k = key
    · subst hk
      rw [PoolState.store_same] at hb
      simp only [Option.some.injEq] at hb
      subst hb
      exact ⟨a, ha, hid.symm⟩
    · rw [PoolState.store_other _ _ _ _ hk] at hb
      exact ⟨b, hb, rfl⟩
  refine ⟨?_, ?_, ?_⟩
  · intro k b hb
    obtain ⟨b', hb', hbid⟩ := hlook k b hb
    rw [← hbid]
    exact h1 k b' hb'
  · intro k k' b c hb hc hbc
    obtain ⟨b', hb', hbid⟩ := hlook k b hb
    obtain ⟨c', hc', hcid⟩ := hlook k' c hc
    exact h2 k k' b' c' hb' hc' (by rw [hbid, hcid, hbc])
  · intro g' hg'
    refine ⟨(h3 g' hg').1, ?_⟩
    intro k b hb
    obtain ⟨b', hb', hbid⟩ := hlook k b hb
    rw [← hbid]
    exact (h3 g' hg').2 k b' hb'

theorem store_fresh_wellFormed (p : PoolState) (g : Option Agent) (key : String)
    (a' : Agent) (hwf : p.WellFormed g) (hid : a'.id = p.constructed) :
    (({ p with constructed := p.constructed + 1 }).store key a').WellFormed g := by
  obtain ⟨h1, h2, h3⟩ := hwf
  have hlook : ∀ k b, (({ p with constructed := p.constructed + 1 }).store key a').pool k =
      some b → (k = key ∧ b = a') ∨ (k ≠ key ∧ p.pool k = some b) := by
    intro k b hb
    by_cases hk : k = key
    · subst hk
      rw [PoolState.store_same] at hb
      simp only [Option.some.injEq] at hb
      exact Or.inl ⟨rfl, hb.symm⟩
    · rw [PoolState.store_other _ _ _ _ hk] at hb
      exact Or.inr ⟨hk, hb⟩
  have hcount : (({ p with constructed := p.constructed + 1 }).store key a').constructed =
      p.constructed + 1 := rfl
  refine ⟨?_, ?_, ?_⟩
  · intro k b hb
    rw [hcount]
    rcases hlook k b hb with ⟨_, hba⟩ | ⟨_, hpb⟩
    · rw [hba, hid]; omega
    · have := h1 k b hpb; omega
  · intro k k' b c hb hc hbc
    rcases hlook k b hb with ⟨hk, hba⟩ | ⟨hk, hpb⟩ <;>
      rcases hlook k' c hc with ⟨hk', hca⟩ | ⟨hk', hpc⟩
    · rw [hk, hk']
    · have := h1 k' c hpc
      rw [hba, hid] at hbc
      omega
    · have := h1 k b hpb
      rw [hca, hid] at hbc
      omega
    · exact h2 k k' b c hpb hpc hbc
  · intro g' hg'
    rw [hcount]
    refine ⟨by have := (h3 g' hg').1; omega, ?_⟩
    intro k b hb
    rcases hlook k b hb with ⟨_, hba⟩ | ⟨_, hpb⟩
    · have := (h3 g' hg').1
      rw [hba, hid]
      omega
    · exact (h3 g' hg').2 k b hpb

/-- A call of `getNewAgent` keeps the pool well formed, and the agent it returns is either
the module's global agent (pool untouched) or the agent now stored under the pool key. -/
theorem getNewAgent_wellFormed (r : AgentRequest) (t : Option Int) (now : Int)
    (p : PoolState) (res : Acquired) (hwf : p.WellFormed r.globalAgent)
    (hres : getNewAgent r t now p = some res) :
    res.state.WellFormed r.globalAgent ∧
    ∃ key, poolKey r = some key ∧
      ((res.poolKey = none ∧ r.globalAgent = some res.agent ∧ res.state = p) ∨
       (res.poolKey = some key ∧ res.state.pool key = some res.agent)) := by
  obtain ⟨key, hkey, hcases⟩ := getNewAgent_cases r t now p res hres
  rcases hcases with ⟨hst, hg, _, _, _, hpk⟩ | ⟨a, ha, _, hag, hst, _, hpk⟩ |
      ⟨_, hid, _, hst, _, hpk⟩
  · exact ⟨by rw [hst]; exact hwf, key, hkey, Or.inl ⟨hpk, hg, hst⟩⟩
  · refine ⟨?_, key, hkey, Or.inr ⟨hpk, by rw [hst]; exact PoolState.store_same _ _ _⟩⟩
    rw [hst]
    exact store_reuse_wellFormed p _ key a res.agent hwf ha (by rw [hag])
  · refine ⟨?_, key, hkey, Or.inr ⟨hpk, by rw [hst]; exact PoolState.store_same _ _ _⟩⟩
    rw [hst]
    exact store_fresh_wellFormed p _ key res.agent hwf hid

/-- With no idle timeout, a second call for the same request on the pool the first call
left constructs nothing and returns the agent of the first call. -/
theorem getNewAgent_again (r : AgentRequest) (now now' : Int) (p : PoolState)
    (res : Acquired) (h : getNewAgent r none now p = some res) :
    ∃ res', getNewAgent r none now' res.state = some res' ∧
      res'.agent.id = res.agent.id ∧ res'.constructed = false ∧
      res'.poolKey = res.poolKey := by
  unfold getNewAgent at h ⊢
  cases hk : tlsPoolKey r (requestOptions r) with
  | none => rw [hk] at h; exact absurd h (by simp)
  | some ko =>
    obtain ⟨key, options⟩ := ko
    rw [hk] at h
    simp only at h ⊢
    cases hm : (if r.poolIsGlobal = true ∧ key = "" ∧ options.isEmpty = true ∧
        True then r.globalAgent else none) with
    | some g =>
      rw [hm] at h
      simp only [Option.some.injEq] at h
      subst h
      exact ⟨_, rfl, rfl, rfl, rfl⟩
    | none =>
      rw [hm] at h
      simp only at h
      cases hp : p.pool (r.protocolVersion ++ ":" ++ r.uriProtocol ++ key) with
      | some a =>
        rw [hp] at h
        simp only [idleExpired, Bool.false_eq_true, if_false, Option.some.injEq] at h
        subst h
        simp only [PoolState.store_same, idleExpired, Bool.false_eq_true, if_false]
        exact ⟨_, rfl, rfl, rfl, rfl⟩
      | none =>
        rw [hp] at h
        simp only [Option.some.injEq] at h
        subst h
        simp only [PoolState.store_same, idleExpired, Bool.false_eq_true, if_false]
        exact ⟨_, rfl, rfl, rfl, rfl⟩

/-- The result of `getNewAgent` is defined whenever the pool key is. -/
theorem getNewAgent_isSome (r : AgentRequest) (t : Option Int) (now : Int) (p : PoolState)
    (key : String) (h : poolKey r = some key) : ∃ res, getNewAgent r t now p = some res := by
  unfold poolKey at h
  unfold getNewAgent
  cases hk : tlsPoolKey r (requestOptions r) with
  | none => rw [hk] at h; exact absurd h (by simp)
  | some ko =>
    obtain ⟨key, options⟩ := ko
    simp only
    split
    · exact ⟨_, rfl⟩
    · split
      · split <;> exact ⟨_, rfl⟩
      · exact ⟨_, rfl⟩

/-- Two requests to a secure URL with the same agent class, protocol version and options
object (and the same pool and module) are treated alike by `getNewAgent`. -/
theorem getNewAgent_congr (r1 r2 : AgentRequest) (t : Option Int) (now : Int) (p : PoolState)
    (hs : r1.uriProtocol = "https:") (huri : r2.uriProtocol = r1.uriProtocol)
    (hclass : r2.agentClass = r1.agentClass) (hver : r2.protocolVersion = r1.protocolVersion)
    (hopts : requestOptions r2 = requestOptions r1)
    (hctx : r2.createSecureContext = r1.createSecureContext)
    (hpool : r2.poolIsGlobal = r1.poolIsGlobal) (hg : r2.globalAgent = r1.globalAgent) :
    getNewAgent r2 t now p = getNewAgent r1 t now p ∧ poolKey r2 = poolKey r1 := by
  have hkey : tlsPoolKey r2 (requestOptions r2) = tlsPoolKey r1 (requestOptions r1) := by
    unfold tlsPoolKey keyTail
    rw [huri, hclass, hopts, hctx]
    simp only [hs, or_true, if_true]
  unfold getNewAgent poolKey
  rw [hkey, huri, hver, hpool, hg]
  exact ⟨rfl, rfl⟩

/-- When `getNewAgent` returns the module's global agent, the pool key is the bare
protocol prefix. -/
theorem getNewAgent_fast_key (r : AgentRequest) (t : Option Int) (now : Int) (p : PoolState)
    (res : Acquired) (h : getNewAgent r t now p = some res) (hpk : res.poolKey = none) :
    poolKey r = some (r.protocolVersion ++ ":" ++ r.uriProtocol ++ "") := by
  unfold getNewAgent at h
  unfold poolKey
  cases hk : tlsPoolKey r (requestOptions r) with
  | none => rw [hk] at h; exact absurd h (by simp)
  | some ko =>
    obtain ⟨key, options⟩ := ko
    rw [hk] at h
    simp only at h
    split at h
    · next g hm =>
      split at hm
      · next hfast => simp only [Option.map_some', hfast.2.1]
      · exact absurd hm (by simp)
    · split at h
      · split at h <;>
        · simp only [Option.some.injEq] at h
          subst h
          exact absurd hpk (by simp)
      · simp only [Option.some.injEq] at h
        subst h
        exact absurd hpk (by simp)

theorem PoolState.wellFormed_empty : ({} : PoolState).WellFormed none := by
  refine ⟨?_, ?_, ?_⟩
  · intro k a h; exact absurd h (by simp)
  · intro k k' a a' h; exact absurd h (by simp)
  · intro g h; exact absurd h (by simp)

/-- C17 (counterexample): a pool map that holds the same agent object under the keys of two
requests that differ only in ca: the keys differ, and the third request (the other ca)
gets the very agent that the first two requests got. -/
theorem getNewAgent_aliased_pool :
    secureRequest "other.pem" = { secureRequest "ca.pem" with ca := some "other.pem" } ∧
    poolKey (secureRequest "ca.pem") = some idlePoolKey ∧
    poolKey (secureRequest "other.pem") = some otherPoolKey ∧
    idlePoolKey ≠ otherPoolKey ∧
    (getNewAgent (secureRequest "ca.pem") none 1 aliasedPool).map
      (fun res => res.agent.id) = some 0 ∧
    ((getNewAgent (secureRequest "ca.pem") none 1 aliasedPool).bind
      (fun res1 => getNewAgent (secureRequest "ca.pem") none 2 res1.state)).map
      (fun res => res.agent.id) = some 0 ∧
    (((getNewAgent (secureRequest "ca.pem") none 1 aliasedPool).bind
      (fun res1 => getNewAgent (secureRequest "ca.pem") none 2 res1.state)).bind
      (fun res2 => getNewAgent (secureRequest "other.pem") none 3 res2.state)).map
      (fun res => (res.agent.id, res.constructed)) = some (0, false) := by
  refine ⟨rfl, by decide, by decide, by decide, by decide, by decide, by decide⟩

/-- C17 (amended): on a pool map in which no agent is stored under two keys and the module's
global agent is not stored, two requests to a secure URL with the same protocolVersion,
agent class and options object (agentOptions overlaid with ca, extraCA, ciphers,
secureProtocol, secureOptions, rejectUnauthorized, cert and key, pfx, passphrase) have the
same pool key and, with no idle timeout, the second request constructs nothing and gets the
agent of the first (the one stored under the key, or the module's global agent when that
is what the first got); a third request that differs from the first only in ca, with an
options ca that differs as a string (absent counting as empty), has a different pool key
and gets an agent with another identity. -/
theorem getNewAgent_pool_reuse (r1 r2 : AgentRequest) (ca3 : Option String)
    (t3 : Option Int) (now1 now2 now3 : Int) (p : PoolState) (res1 : Acquired)
    (key3 : String)
    (hwf : p.WellFormed r1.globalAgent)
    (hs : r1.uriProtocol = "https:") (huri : r2.uriProtocol = r1.uriProtocol)
    (hclass : r2.agentClass = r1.agentClass) (hver : r2.protocolVersion = r1.protocolVersion)
    (hopts : requestOptions r2 = requestOptions r1)
    (hctx : r2.createSecureContext = r1.createSecureContext)
    (hpool : r2.poolIsGlobal = r1.poolIsGlobal) (hg : r2.globalAgent = r1.globalAgent)
    (hca : (requestOptions r1).ca.getD "" ≠ (requestOptions { r1 with ca := ca3 }).ca.getD "")
    (h1 : getNewAgent r1 none now1 p = some res1)
    (h3 : poolKey { r1 with ca := ca3 } = some key3) :
    ∃ key res2 res3,
      poolKey r1 = some key ∧ poolKey r2 = some key ∧
      getNewAgent r2 none now2 res1.state = some res2 ∧
      res2.agent.id = res1.agent.id ∧ res2.constructed = false ∧
      ((res2.poolKey = none ∧ r1.globalAgent = some res2.agent) ∨
        res2.state.pool key = some res2.agent) ∧
      key3 ≠ key ∧
      getNewAgent { r1 with ca := ca3 } t3 now3 res2.state = some res3 ∧
      res3.agent.id ≠ res1.agent.id := by
  obtain ⟨hwf1, _⟩ := getNewAgent_wellFormed r1 none now1 p res1 hwf h1
  obtain ⟨res2, h2, hid2, hc2, _⟩ := getNewAgent_again r1 now1 now2 p res1 h1
  obtain ⟨hwf2, key, hkey, hsum2⟩ :=
    getNewAgent_wellFormed r1 none now2 res1.state res2 hwf1 h2
  obtain ⟨res3, hres3⟩ := getNewAgent_isSome { r1 with ca := ca3 } t3 now3 res2.state key3 h3
  have hcongr := fun t now q =>
    getNewAgent_congr r1 r2 t now q hs huri hclass hver hopts hctx hpool hg
  have hne : key ≠ key3 := poolKey_ca_ne r1 ca3 key key3 hs hca hkey h3
  refine ⟨key, res2, res3, hkey, by rw [(hcongr none 0 p).2]; exact hkey,
    by rw [(hcongr none now2 res1.state).1]; exact h2, hid2, hc2, ?_, hne.symm, hres3, ?_⟩
  · rcases hsum2 with ⟨hpk, hg2, _⟩ | ⟨_, hstored⟩
    · exact Or.inl ⟨hpk, hg2⟩
    · exact Or.inr hstored
  · rw [← hid2]
    obtain ⟨hlt, hwfk, hwfg⟩ := hwf2
    obtain ⟨key3', hkey3', hcases⟩ :=
      getNewAgent_cases { r1 with ca := ca3 } t3 now3 res2.state res3 hres3
    rw [h3] at hkey3'
    simp only [Option.some.injEq] at hkey3'
    subst hkey3'
    rcases hcases with ⟨_, hg3, _, _, _, hpk3⟩ | ⟨a, ha, _, hag, _, _, _⟩ |
        ⟨_, hid3, _, _, _, _⟩
    · rcases hsum2 with ⟨hpk, _, _⟩ | ⟨_, hstored⟩
      · exfalso
        have k2 := getNewAgent_fast_key r1 none now2 res1.state res2 h2 hpk
        have k3 := getNewAgent_fast_key { r1 with ca := ca3 } t3 now3 res2.state res3 hres3 hpk3
        rw [hkey] at k2
        rw [h3] at k3
        simp only [Option.some.injEq] at k2 k3
        exact hne (by rw [k2, k3])
      · exact fun h => (hwfg res3.agent hg3).2 key res2.agent hstored h.symm
    · have hid3 : res3.agent.id = a.id := by rw [hag]
      rcases hsum2 with ⟨_, hg2, _⟩ | ⟨_, hstored⟩
      · rw [hid3]
        exact (hwfg res2.agent hg2).2 key3 a ha
      · intro h
        exact hne (hwfk key key3 res2.agent a hstored ha (by rw [← hid3, h]))
    · rcases hsum2 with ⟨_, hg2, _⟩ | ⟨_, hstored⟩
      · have := (hwfg res2.agent hg2).1
        omega
      · have := hlt key res2.agent hstored
        omega

theorem getNewAgent_pool_reuse_witness :
    ∃ key res2 res3,
      poolKey (secureRequest "ca.pem") = some key ∧
      poolKey (secureRequest "ca.pem") = some key ∧
      getNewAgent (secureRequest "ca.pem") none 2 firstAcquired.state = some res2 ∧
      res2.agent.id = firstAcquired.agent.id ∧ res2.constructed = false ∧
      ((res2.poolKey = none ∧ (secureRequest "ca.pem").globalAgent = some res2.agent) ∨
        res2.state.pool key = some res2.agent) ∧
      otherPoolKey ≠ key ∧
      getNewAgent { secureRequest "ca.pem" with ca := some "other.pem" } none 3 res2.state =
        some res3 ∧
      res3.agent.id ≠ firstAcquired.agent.id :=
  getNewAgent_pool_reuse (secureRequest "ca.pem") (secureRequest "ca.pem") (some "other.pem")
    none 1 2 3 {} firstAcquired otherPoolKey PoolState.wellFormed_empty rfl rfl rfl rfl rfl rfl
    rfl rfl (by decide) rfl (by decide)



/-! ## Abort -/

theorem dropAgent_aborted (self : Redirect) (uriPrev : Uri) (request : Request) :
    (dropAgent self uriPrev request)._aborted = request._aborted := by
  unfold dropAgent
  split_ifs <;> rfl

theorem stripHostHeaders_aborted (self : Redirect) (uriPrev : Uri) (request : Request) :
    (stripHostHeaders self uriPrev request)._aborted = request._aborted := by
  unfold stripHostHeaders
  split_ifs <;> rfl

theorem switchMethod_aborted (self : Redirect) (statusCode : Nat) (request : Request) :
    (switchMethod self statusCode request)._aborted = request._aborted := by
  unfold switchMethod
  split_ifs <;> rfl

theorem restoreFormData_aborted (request : Request) :
    (restoreFormData request).1._aborted = request._aborted := by
  unfold restoreFormData
  split
  · split_ifs <;> rfl
  · rfl

theorem setReferer_aborted (self : Redirect) (uriPrev : Uri) (request : Request) :
    (setReferer self uriPrev request)._aborted = request._aborted := by
  unfold setReferer
  split_ifs <;> rfl

theorem applyRedirect_aborted (self : Redirect) (statusCode : Nat) (u : Uri)
    (request : Request) :
    (applyRedirect self statusCode u request).1._aborted = request._aborted := by
  unfold applyRedirect
  simp only
  rw [setReferer_aborted, restoreFormData_aborted, switchMethod_aborted]
  unfold clearTransport
  simp only
  rw [stripHostHeaders_aborted, dropAgent_aborted]

theorem processRedirect_aborted (response : Response) (c : Ctx) (v : JSValue) :
    (processRedirect response c v).state.request._aborted = c.state.request._aborted := by
  cases hv : v.truthy with
  | false => rw [processRedirect_falsy response c v hv]
  | true =>
    by_cases hlim : c.state.redirect.maxRedirects ≤ (c.state.redirect.redirectsFollowed : Int)
    · rw [processRedirect_exceeded response c v hv hlim]
    · have hlt := not_le.mp hlim
      cases hp : resolveTarget c.state.request (overridden v c.redirectTo) with
      | mk t ou =>
        cases ou with
        | none => rw [processRedirect_unparsed response c v t hv hlt hp]
        | some u =>
          rw [processRedirect_followed response c v t u hv hlt hp]
          exact applyRedirect_aborted _ _ _ _

theorem foldl_deliver_aborted (response : Response) (ds : List (Option Error × JSValue)) :
    ∀ c : Ctx, (ds.foldl (deliver response) c).state.request._aborted =
      c.state.request._aborted := by
  induction ds with
  | nil => intro c; rfl
  | cons d ds ih =>
    intro c
    rw [List.foldl_cons, ih]
    unfold deliver
    split
    · rfl
    · exact processRedirect_aborted response c d.2

theorem redirectTo_aborted (s : State) (response : Response) :
    (redirectTo s response).1.request._aborted = s.request._aborted := by
  rw [redirectTo_request]

/-- The redirect engine does not write the abort flag. -/
theorem onResponse_aborted (s : State) (response : Response) :
    (onResponse s response).state.request._aborted = s.request._aborted := by
  have h1 := redirectTo_aborted s response
  unfold onResponse
  simp only
  split
  · exact h1
  · split
    · exact h1
    · split
      · rw [foldl_deliver_aborted]; exact h1
      · split
        · exact h1
        · rw [processRedirect_aborted]; exact h1
        · exact h1
        · exact h1
        · rw [processRedirect_aborted]; exact h1


theorem Request.abort_state (r : Request) :
    r.abort.1 = { r with _aborted := true, timeoutTimer := none } := by
  unfold Request.abort Request.clearTimeout
  cases h : r.timeoutTimer <;> simp only [h]

theorem Request.abort_events (r : Request) :
    r.abort.2 =
      (if r.req.isSome then [LifeEvent.reqAbort]
        else if r.response.isSome then [LifeEvent.responseDestroy] else []) ++
      (match r.timeoutTimer with
        | some timer => [LifeEvent.clearTimeout timer]
        | none => []) ++ [LifeEvent.emit "abort"] := by
  unfold Request.abort Request.clearTimeout
  cases h : r.timeoutTimer <;> simp only [h]

/-- C19 (counterexample): a request that is being sent, with a running timeout timer. One
abort() calls req.abort(), clears the timer and emits abort; a second abort() calls
req.abort() and emits abort again, so two calls do not produce the effects of one. -/
theorem abort_twice_repeats_effects :
    sendingRequest.abort.2 = [.reqAbort, .clearTimeout 5, .emit "abort"] ∧
    sendingRequest.abort.1.abort.2 = [.reqAbort, .emit "abort"] ∧
    sendingRequest.abort.2 ++ sendingRequest.abort.1.abort.2 =
      [.reqAbort, .clearTimeout 5, .emit "abort", .reqAbort, .emit "abort"] ∧
    sendingRequest.abort.2 ++ sendingRequest.abort.1.abort.2 ≠ sendingRequest.abort.2 := by
  decide

/-- C19 (amended): abort is idempotent on the state of the request: a second abort() leaves
the state exactly as the first left it (the flag set, no timer), while its effects are
repeated, not suppressed: it makes the same teardown call (req.abort(), or
response.destroy() when there is no req) and emits abort again, and clears no timer. The
flag is one-way: once _aborted is set, abort, init, the function init defers, start, write,
end and a redirect (Redirect.onResponse) leave it set, and start, write and end return at
once without effect. -/
theorem abort_idempotent (r q : Request) (s : State) (response : Response)
    (body rest : Request → Request × List LifeEvent) (chunk invalidUri formPipeThrows : Bool)
    (assign : Request → Request)
    (hq : q._aborted = true) (hs : s.request._aborted = true) :
    r.abort.1.abort.1 = r.abort.1 ∧
    r.abort.1.abort.2 =
      (if r.req.isSome then [LifeEvent.reqAbort]
        else if r.response.isSome then [LifeEvent.responseDestroy] else []) ++
      [LifeEvent.emit "abort"] ∧
    r.abort.1._aborted = true ∧ r.abort.1.timeoutTimer = none ∧
    q.abort.1._aborted = true ∧
    q.start body = (q, []) ∧ q.write body = (q, []) ∧ q.end_ chunk body = (q, []) ∧
    (q.init assign invalidUri).1._aborted = true ∧
    q.deferred formPipeThrows rest = (q, []) ∧
    (onResponse s response).state.request._aborted = true := by
  refine ⟨?_, ?_, ?_, ?_, ?_, ?_, ?_, ?_, ?_, ?_, ?_⟩
  · rw [Request.abort_state, Request.abort_state]
  · rw [Request.abort_events, Request.abort_state]
    simp only [List.append_nil]
  · rw [Request.abort_state]
  · rw [Request.abort_state]
  · rw [Request.abort_state]
  · unfold Request.start; rw [hq]; rfl
  · unfold Request.write; rw [hq]; rfl
  · unfold Request.end_; rw [hq]; rfl
  · unfold Request.init
    cases invalidUri
    · exact hq
    · simp only [if_true]
      rw [Request.abort_state]
  · unfold Request.deferred; rw [hq]; rfl
  · rw [onResponse_aborted]; exact hs

theorem abort_idempotent_witness :
    sendingRequest.abort.1.abort.1 = sendingRequest.abort.1 ∧
    sendingRequest.abort.1.abort.2 = [LifeEvent.reqAbort, LifeEvent.emit "abort"] ∧
    sendingRequest.abort.1.write (fun r => ({ r with _started := some true }, [.emit "start"]))
      = (sendingRequest.abort.1, []) ∧
    (onResponse { redirect := {}, request := sendingRequest.abort.1 }
      (sampleResponse 301)).state.request._aborted = true :=
  have h := abort_idempotent sendingRequest sendingRequest.abort.1
    { redirect := {}, request := sendingRequest.abort.1 } (sampleResponse 301)
    (fun r => ({ r with _started := some true }, [.emit "start"])) (fun r => (r, []))
    true false false id rfl rfl
  ⟨h.1, h.2.1, h.2.2.2.2.2.2.1, h.2.2.2.2.2.2.2.2.2.2⟩


/-! ## Cookies of a response -/

/-- With a jar that does not throw, `forEachAsync` offers every value in order and calls
`cb()` without an error. -/
theorem forEachAsync_no_throw (setCookie : List String → String → JarResult)
    (h : ∀ offered cookie e, setCookie offered cookie ≠ .throws e) (items : List String) :
    ∀ offered, forEachAsync setCookie offered items =
      (items.map CookieEvent.setCookie, none) := by
  induction items with
  | nil => intro offered; rfl
  | cons cookie items ih =>
    intro offered
    unfold forEachAsync
    cases hr : setCookie offered cookie with
    | throws e => exact absurd hr (h offered cookie e)
    | ok => simp only [ih, List.map_cons]
    | fails e => simp only [ih, List.map_cons]

/-- C20 (failing input): a jar whose setCookie throws on the second of three Set-Cookie
values: the third value is never offered, error is emitted with the jar's error and
responseHandler (the redirect engine) is not invoked; with a single Set-Cookie value the
jar's exception escapes and responseHandler is not invoked either. -/
theorem onSetCookie_jar_throws :
    onSetCookie false throwingJar (some (.many ["a=1", "bad=1", "c=3"])) =
      ([.setCookie "a=1", .setCookie "bad=1", .emitError jarError], none) ∧
    CookieEvent.responseHandler ∉
      (onSetCookie false throwingJar (some (.many ["a=1", "bad=1", "c=3"]))).1 ∧
    onSetCookie false throwingJar (some (.single "bad=1")) =
      ([.setCookie "bad=1"], some jarError) := by
  decide

/-- What holds for a jar that calls back. For every response and every cookie jar whose
setCookie does not throw (it succeeds or passes an error to its callback): when the response carries Set-Cookie (a
single value or an array of values) and cookies are not disabled, every value is offered
to the jar one at a time in header order, afterwards responseHandler (the redirect engine)
is invoked exactly once, no error is emitted and no exception escapes; without Set-Cookie,
or with cookies disabled, responseHandler alone is invoked. -/
theorem onSetCookie_absorbs_jar_errors (disableCookies : Bool)
    (setCookie : List String → String → JarResult) (header : Option SetCookie)
    (h : ∀ offered cookie e, setCookie offered cookie ≠ .throws e) :
    onSetCookie disableCookies setCookie header =
      ((match header with
          | some hd => if disableCookies then [] else hd.values.map CookieEvent.setCookie
          | none => []) ++ [.responseHandler], none) ∧
    (onSetCookie disableCookies setCookie header).1.count .responseHandler = 1 ∧
    (∀ e, CookieEvent.emitError e ∉ (onSetCookie disableCookies setCookie header).1) := by
  have hmain : onSetCookie disableCookies setCookie header =
      ((match header with
          | some hd => if disableCookies then [] else hd.values.map CookieEvent.setCookie
          | none => []) ++ [.responseHandler], none) := by
    unfold onSetCookie
    cases header with
    | none => rfl
    | some hd =>
      cases disableCookies with
      | true => rfl
      | false =>
        cases hd with
        | many values =>
          simp only [forEachAsync_no_throw setCookie h, SetCookie.values, Bool.false_eq_true,
            if_false]
        | single value =>
          simp only [SetCookie.values, Bool.false_eq_true, if_false, List.map_cons,
            List.map_nil]
          cases hr : setCookie [] value with
          | throws e => exact absurd hr (h [] value e)
          | ok => rfl
          | fails e => rfl
  have hcount : ∀ l : List String, (l.map CookieEvent.setCookie).count .responseHandler = 0 := by
    intro l
    rw [List.count_eq_zero]
    intro hmem
    obtain ⟨c, _, hc⟩ := List.mem_map.mp hmem
    exact absurd hc (by simp)
  have hnoerr : ∀ (l : List String) (e : Error),
      CookieEvent.emitError e ∉ l.map CookieEvent.setCookie := by
    intro l e hmem
    obtain ⟨c, _, hc⟩ := List.mem_map.mp hmem
    exact absurd hc (by simp)
  refine ⟨hmain, ?_, ?_⟩
  · rw [hmain]
    simp only [List.count_append]
    cases header with
    | none => rfl
    | some hd =>
      cases disableCookies with
      | true => rfl
      | false => simp only [Bool.false_eq_true, if_false, hcount]; rfl
  · intro e
    rw [hmain]
    simp only [List.mem_append, List.mem_singleton, reduceCtorEq, or_false]
    cases header with
    | none => simp
    | some hd =>
      cases disableCookies with
      | true => simp
      | false => simp only [Bool.false_eq_true, if_false]; exact hnoerr _ e

theorem onSetCookie_absorbs_jar_errors_witness :
    onSetCookie false failingJar (some (.many ["a=1", "bad=1", "c=3"])) =
      ([.setCookie "a=1", .setCookie "bad=1", .setCookie "c=3", .responseHandler], none) :=
  (onSetCookie_absorbs_jar_errors false failingJar (some (.many ["a=1", "bad=1", "c=3"]))
    (by intro offered cookie e; unfold failingJar; split_ifs <;> simp)).1


/-! ## Pool keys that collide -/

/-- C30: the pool key is not injective in the TLS options. The secure requests with ca a
and passphrase b, and with ca a:b and no passphrase, have different options objects and
the same pool key, and so have the requests with cert ab and key c, and with cert a and
key bc; on an empty pool the second request of the first pair constructs no agent and is
handed the agent that was constructed for the first request, with the first request's
options. -/
theorem poolKey_not_injective :
    requestOptions splitRequest ≠ requestOptions joinedRequest ∧
    poolKey splitRequest = some "http1:https:a:b" ∧
    poolKey joinedRequest = some "http1:https:a:b" ∧
    requestOptions certRequest ≠ requestOptions keyRequest ∧
    poolKey certRequest = some "http1:https:abc" ∧
    poolKey keyRequest = some "http1:https:abc" ∧
    (getNewAgent splitRequest none 1 {}).map
      (fun res => (res.constructed, res.agent.id, res.agent.options)) =
      some (true, 0, requestOptions splitRequest) ∧
    ((getNewAgent splitRequest none 1 {}).bind
      (fun res1 => getNewAgent joinedRequest none 2 res1.state)).map
      (fun res => (res.constructed, res.agent.id, res.agent.options)) =
      some (false, 0, requestOptions splitRequest) := by
  refine ⟨by decide, by decide, by decide, by decide, by decide, by decide, by decide,
    by decide⟩

/-! ## Failed redirects: the hop limit and the parse -/

/-- The decision writes at most the Authorization header: every other header has the
value it had. -/
theorem redirectTo_other_headers (s : State) (response : Response) (name : String)
    (hname : lower name ≠ "authorization") :
    (redirectTo s response).1.request.headers.get name = s.request.headers.get name := by
  have hl : lower name ≠ lower "Authorization" := by
    intro h
    exact hname (h.trans (by decide))
  unfold redirectTo
  repeat' split
  all_goals first
    | rfl
    | exact Headers.get_set _ _ _ _ hl

/-- C26 (counterexample): a 401 re-send admitted at the hop limit: the callback gets the
Exceeded maxRedirects error, but the headers are not as they were, because redirectTo
has set the Authorization header before the limit is looked at. -/
theorem onResponse_exceeded_reauthentication :
    admitted challengedLimitState (sampleResponse 401) = true ∧
    challengedLimitState.request.headers.get "authorization" = none ∧
    (onResponse challengedLimitState
      (sampleResponse 401)).state.request.headers.get "authorization" = some "Digest abc" ∧
    callbacks (onResponse challengedLimitState (sampleResponse 401)).events =
      [(some ⟨"Exceeded maxRedirects. Probably stuck in a redirect loop " ++
        "http://localhost/temp"⟩, false)] := by
  decide

/-- C26 (amended): when a candidate is admitted (the verdict is truthy) while
redirectsFollowed is at least maxRedirects, onResponse makes one callback call, with the
error Exceeded maxRedirects. Probably stuck in a redirect loop followed by the href of the
current request.uri, emits no redirect event and does not re-run init; the engine (counter
and redirects list included) is unchanged and the request is the one the decision left:
uri, method, body and agent are unchanged and so is every header other than Authorization;
for a redirect (any status other than 401) the Authorization header, and so the whole
state, is unchanged too, while for a 401 re-send the Authorization header is the one
redirectTo has set. -/
theorem onResponse_exceeded (s : State) (response : Response) (t : Target) (v : JSValue)
    (hcand : (redirectTo s response).2 = some t) (ht : t.truthy = true)
    (hver : verdict (redirectTo s response).1.redirect.allowRedirect
      (redirectTo s response).1.request response = some v)
    (hv : v.truthy = true)
    (hlim : s.redirect.maxRedirects ≤ (s.redirect.redirectsFollowed : Int)) :
    (onResponse s response).events =
      (if response.resume then [Event.resume] else []) ++
        [.callback (some ⟨"Exceeded maxRedirects. Probably stuck in a redirect loop " ++
          s.request.uri.href⟩) false] ∧
    redirectEmits (onResponse s response).events = 0 ∧
    initCalls (onResponse s response).events = [] ∧
    (onResponse s response).state.redirect = s.redirect ∧
    (onResponse s response).state.request =
      { s.request with headers := (redirectTo s response).1.request.headers } ∧
    (∀ name, lower name ≠ "authorization" →
      (onResponse s response).state.request.headers.get name =
        s.request.headers.get name) ∧
    (response.statusCode ≠ 401 → (onResponse s response).state = s) := by
  obtain ⟨hst, hev⟩ := onResponse_of_verdict s response t v hcand ht hver
  have hlim2 : (redirectTo s response).1.redirect.maxRedirects ≤
      ((redirectTo s response).1.redirect.redirectsFollowed : Int) := by
    rw [redirectTo_redirect]; exact hlim
  have hx := processRedirect_exceeded response
    { state := (redirectTo s response).1, redirectTo := t } v hv hlim2
  rw [hx] at hst hev
  simp only at hst hev
  rw [redirectTo_uri] at hev
  have hevs : (onResponse s response).events =
      (if response.resume then [Event.resume] else []) ++
        [.callback (some ⟨"Exceeded maxRedirects. Probably stuck in a redirect loop " ++
          s.request.uri.href⟩) false] := by
    rw [hev]
    cases response.resume <;> rfl
  refine ⟨hevs, ?_, ?_, ?_, ?_, ?_, ?_⟩
  · rw [hevs]; cases response.resume <;> rfl
  · rw [hevs]; cases response.resume <;> rfl
  · rw [hst, redirectTo_redirect]
  · rw [hst]; exact redirectTo_request s response
  · intro name hname
    rw [hst]
    exact redirectTo_other_headers s response name hname
  · intro h401
    rw [hst, redirectTo_state s response h401]

theorem onResponse_exceeded_witness :
    (onResponse limitOverrideState (sampleResponse 301)).events =
      [Event.resume,
        .callback (some ⟨"Exceeded maxRedirects. Probably stuck in a redirect loop " ++
          "http://localhost/temp"⟩) false] ∧
    (onResponse limitOverrideState (sampleResponse 301)).state = limitOverrideState :=
  have h := onResponse_exceeded limitOverrideState (sampleResponse 301)
    (.str "http://localhost/temp_landing") (.str "http://localhost/perm")
    (by decide) (by decide) (by decide) (by decide) (by decide)
  ⟨h.1, h.2.2.2.2.2.2 (by decide)⟩

/-- C23 (counterexample): an admitted redirect whose target neither resolves nor parses,
met at the hop limit: the target is not parsed at all and the callback gets the Exceeded
maxRedirects error, not the Failed to parse url error. -/
theorem onResponse_unparseable_at_limit :
    admitted brokenLimitState (sampleResponse 302) = true ∧
    parseable brokenLimitState (sampleResponse 302) = false ∧
    callbacks (onResponse brokenLimitState (sampleResponse 302)).events =
      [(some ⟨"Exceeded maxRedirects. Probably stuck in a redirect loop " ++
        "http://localhost/temp"⟩, false)] ∧
    callbacks (onResponse brokenLimitState (sampleResponse 302)).events ≠
      [(some ⟨"Failed to parse url: " ++ "http://localhost/temp"⟩, false)] := by
  decide

/-- C23 (amended): for every admitted redirect met below the hop limit, a candidate that is
already absolute is parsed as it is and any other candidate is first resolved against the
href of the current URL and then parsed; if resolution or parsing fails, onResponse makes
one callback call, with the error Failed to parse url: followed by the href of the
current URL; request.uri and the whole request keep the value the decision left, no
record is appended, no redirect event is emitted and init is not re-run (the counter
redirectsFollowed has been raised by one). -/
theorem onResponse_parse_failure (s : State) (response : Response) (t t2 : Target)
    (v : JSValue)
    (hcand : (redirectTo s response).2 = some t) (ht : t.truthy = true)
    (hver : verdict (redirectTo s response).1.redirect.allowRedirect
      (redirectTo s response).1.request response = some v)
    (hv : v.truthy = true)
    (hlim : (s.redirect.redirectsFollowed : Int) < s.redirect.maxRedirects)
    (hfail : resolveTarget (redirectTo s response).1.request (overridden v t) = (t2, none)) :
    (isUrl (overridden v t) = true →
      s.request.urlParser.parse (overridden v t) = none) ∧
    (isUrl (overridden v t) = false →
      s.request.urlParser.resolve s.request.uri.href (overridden v t) = none ∨
      ∃ r, s.request.urlParser.resolve s.request.uri.href (overridden v t) = some r ∧
        s.request.urlParser.parse (.str r) = none) ∧
    (onResponse s response).events =
      (if response.resume then [Event.resume] else []) ++
        [.callback (some ⟨"Failed to parse url: " ++ s.request.uri.href⟩) false] ∧
    (onResponse s response).state.request = (redirectTo s response).1.request ∧
    (onResponse s response).state.request.uri = s.request.uri ∧
    (onResponse s response).state.redirect.redirects = s.redirect.redirects ∧
    (onResponse s response).state.redirect.redirectsFollowed =
      s.redirect.redirectsFollowed + 1 ∧
    redirectEmits (onResponse s response).events = 0 ∧
    initCalls (onResponse s response).events = [] := by
  obtain ⟨hst, hev⟩ := onResponse_of_verdict s response t v hcand ht hver
  have hlim2 : ((redirectTo s response).1.redirect.redirectsFollowed : Int) <
      (redirectTo s response).1.redirect.maxRedirects := by
    rw [redirectTo_redirect]; exact hlim
  have hx := processRedirect_unparsed response
    { state := (redirectTo s response).1, redirectTo := t } v t2 hv hlim2 hfail
  rw [hx] at hst hev
  simp only at hst hev
  rw [redirectTo_uri] at hev
  have hevs : (onResponse s response).events =
      (if response.resume then [Event.resume] else []) ++
        [.callback (some ⟨"Failed to parse url: " ++ s.request.uri.href⟩) false] := by
    rw [hev]
    cases response.resume <;> rfl
  have hparser : (redirectTo s response).1.request.urlParser = s.request.urlParser := by
    rw [redirectTo_request]
  have huri := redirectTo_uri s response
  refine ⟨?_, ?_, hevs, ?_, ?_, ?_, ?_, ?_, ?_⟩
  · intro habs
    unfold resolveTarget at hfail
    rw [if_pos habs, hparser] at hfail
    exact (Prod.ext_iff.mp hfail).2
  · intro hrel
    unfold resolveTarget at hfail
    rw [if_neg (by rw [hrel]; decide), hparser, huri] at hfail
    cases hr : s.request.urlParser.resolve s.request.uri.href (overridden v t) with
    | none => exact Or.inl rfl
    | some r =>
      rw [hr] at hfail
      exact Or.inr ⟨r, rfl, (Prod.ext_iff.mp hfail).2⟩
  · rw [hst]
  · rw [hst]; exact huri
  · rw [hst]; simp only; rw [redirectTo_redirect]
  · rw [hst]; simp only; rw [redirectTo_redirect]
  · rw [hevs]; cases response.resume <;> rfl
  · rw [hevs]; cases response.resume <;> rfl

theorem onResponse_parse_failure_witness :
    (onResponse brokenState (sampleResponse 302)).events =
      [Event.resume,
        .callback (some ⟨"Failed to parse url: " ++ "http://localhost/temp"⟩) false] ∧
    (onResponse brokenState (sampleResponse 302)).state.request.uri = sampleUri ∧
    (onResponse brokenState (sampleResponse 302)).state.redirect.redirects = [] :=
  have h := onResponse_parse_failure brokenState (sampleResponse 302)
    (.str "http://localhost/temp_landing") (.str "http://localhost/temp_landing")
    (.bool true) (by decide) (by decide) (by decide) (by decide) (by decide) (by decide)
  ⟨h.2.2.1, h.2.2.2.2.1, h.2.2.2.2.2.1⟩

/-! ## The bookkeeping of the engine: counter and records -/

/-- What one call of `processRedirect` does to the engine's bookkeeping: the limit is kept,
the counter grows by at most one, the records are extended at the end, by one record for
each `redirect` event emitted, and by no more than the counter grew. -/
theorem processRedirect_engine (response : Response) (c : Ctx) (v : JSValue) :
    (processRedirect response c v).state.redirect.maxRedirects =
      c.state.redirect.maxRedirects ∧
    c.state.redirect.redirectsFollowed ≤
      (processRedirect response c v).state.redirect.redirectsFollowed ∧
    (processRedirect response c v).state.redirect.redirectsFollowed ≤
      c.state.redirect.redirectsFollowed + 1 ∧
    c.state.redirect.redirects <+: (processRedirect response c v).state.redirect.redirects ∧
    redirectEmits (processRedirect response c v).events + c.state.redirect.redirects.length =
      redirectEmits c.events + (processRedirect response c v).state.redirect.redirects.length ∧
    (processRedirect response c v).state.redirect.redirects.length +
        c.state.redirect.redirectsFollowed ≤
      (processRedirect response c v).state.redirect.redirectsFollowed +
        c.state.redirect.redirects.length ∧
    (c.state.redirect.bounded → (processRedirect response c v).state.redirect.bounded) ∧
    ((∀ o ∈ initCalls c.events, ∀ self, onRequest self o = self) →
      ∀ o ∈ initCalls (processRedirect response c v).events, ∀ self, onRequest self o = self) := by
  have hres : ∀ es : List Event,
      redirectEmits (if response.resume then es ++ [.resume] else es) = redirectEmits es ∧
      initCalls (if response.resume then es ++ [.resume] else es) = initCalls es := by
    intro es
    cases response.resume
    · exact ⟨rfl, rfl⟩
    · simp only [if_true, redirectEmits_append, initCalls_append]
      exact ⟨rfl, by simp [initCalls]⟩
  cases hv : v.truthy with
  | false =>
    rw [processRedirect_falsy response c v hv]
    refine ⟨rfl, le_refl _, Nat.le_succ _, List.prefix_refl _, ?_, ?_, id, ?_⟩
    · simp only [redirectEmits_append, redirectEmits]; omega
    · simp only; omega
    · intro h o ho
      simp only [initCalls_append, initCalls, List.append_nil] at ho
      exact h o ho
  | true =>
    by_cases hlim : c.state.redirect.maxRedirects ≤ (c.state.redirect.redirectsFollowed : Int)
    · rw [processRedirect_exceeded response c v hv hlim]
      refine ⟨rfl, le_refl _, Nat.le_succ _, List.prefix_refl _, ?_, ?_, id, ?_⟩
      · simp only [redirectEmits_append, (hres c.events).1, redirectEmits]; omega
      · simp only; omega
      · intro h o ho
        simp only [initCalls_append, (hres c.events).2, initCalls, List.append_nil] at ho
        exact h o ho
    · have hlt := not_le.mp hlim
      cases hp : resolveTarget c.state.request (overridden v c.redirectTo) with
      | mk t ou =>
        cases ou with
        | none =>
          rw [processRedirect_unparsed response c v t hv hlt hp]
          refine ⟨rfl, Nat.le_succ _, le_refl _, List.prefix_refl _, ?_, ?_, ?_, ?_⟩
          · simp only [redirectEmits_append, (hres c.events).1, redirectEmits]; omega
          · simp only; omega
          · intro hb
            obtain ⟨h1, _⟩ := hb
            exact ⟨by simp only; omega, by simp only; push_cast; omega⟩
          · intro h o ho
            simp only [initCalls_append, (hres c.events).2, initCalls, List.append_nil] at ho
            exact h o ho
        | some u =>
          rw [processRedirect_followed response c v t u hv hlt hp]
          refine ⟨rfl, Nat.le_succ _, le_refl _, List.prefix_append _ _, ?_, ?_, ?_, ?_⟩
          · simp only [redirectEmits_append, (hres c.events).1, redirectEmits,
              List.length_append, List.length_singleton]
            omega
          · simp only [List.length_append, List.length_singleton]; omega
          · intro hb
            obtain ⟨h1, _⟩ := hb
            exact ⟨by simp only [List.length_append, List.length_singleton]; omega,
              by simp only; push_cast; omega⟩
          · intro h o ho
            simp only [initCalls_append, (hres c.events).2, initCalls, List.mem_append,
              List.mem_singleton] at ho
            rcases ho with ho | ho
            · exact h o ho
            · intro self
              rw [ho]
              unfold applyRedirect
              exact onRequest_restoreFormData _ _

theorem Redirect.advances_refl (self : Redirect) : self.advances self 0 :=
  ⟨rfl, le_refl _, List.prefix_refl _, by omega, by omega, id⟩

theorem Redirect.advances_trans (r1 r2 r3 : Redirect) (e1 e2 : Nat)
    (h12 : r1.advances r2 e1) (h23 : r2.advances r3 e2) : r1.advances r3 (e1 + e2) := by
  obtain ⟨a1, a2, a3, a4, a5, a6⟩ := h12
  obtain ⟨b1, b2, b3, b4, b5, b6⟩ := h23
  exact ⟨by rw [b1, a1], le_trans a2 b2, List.IsPrefix.trans a3 b3, by omega, by omega,
    fun h => b6 (a6 h)⟩

theorem processRedirect_advances (response : Response) (c : Ctx) (v : JSValue) :
    ∃ e, redirectEmits (processRedirect response c v).events = redirectEmits c.events + e ∧
      c.state.redirect.advances (processRedirect response c v).state.redirect e ∧
      (processRedirect response c v).state.redirect.redirectsFollowed ≤
        c.state.redirect.redirectsFollowed + 1 := by
  obtain ⟨h1, h2, h3, h4, h5, h6, h7, _⟩ := processRedirect_engine response c v
  have hle : c.state.redirect.redirects.length ≤
      (processRedirect response c v).state.redirect.redirects.length := List.IsPrefix.length_le h4
  refine ⟨(processRedirect response c v).state.redirect.redirects.length -
      c.state.redirect.redirects.length, by omega, ⟨h1, h2, h4, by omega, h6, h7⟩, h3⟩

theorem foldl_deliver_advances (response : Response) (ds : List (Option Error × JSValue)) :
    ∀ c : Ctx, ∃ e,
      redirectEmits (ds.foldl (deliver response) c).events = redirectEmits c.events + e ∧
      c.state.redirect.advances (ds.foldl (deliver response) c).state.redirect e ∧
      (ds.foldl (deliver response) c).state.redirect.redirectsFollowed ≤
        c.state.redirect.redirectsFollowed + ds.length ∧
      ((∀ o ∈ initCalls c.events, ∀ self, onRequest self o = self) →
        ∀ o ∈ initCalls (ds.foldl (deliver response) c).events,
          ∀ self, onRequest self o = self) := by
  induction ds with
  | nil =>
    intro c
    exact ⟨0, rfl, Redirect.advances_refl _, le_refl _, id⟩
  | cons d ds ih =>
    intro c
    rw [List.foldl_cons]
    obtain ⟨e2, he2, ha2, hc2, hi2⟩ := ih (deliver response c d)
    have hstep : ∃ e1, redirectEmits (deliver response c d).events =
        redirectEmits c.events + e1 ∧
        c.state.redirect.advances (deliver response c d).state.redirect e1 ∧
        (deliver response c d).state.redirect.redirectsFollowed ≤
          c.state.redirect.redirectsFollowed + 1 ∧
        ((∀ o ∈ initCalls c.events, ∀ self, onRequest self o = self) →
          ∀ o ∈ initCalls (deliver response c d).events, ∀ self, onRequest self o = self) := by
      unfold deliver
      split
      · refine ⟨0, ?_, Redirect.advances_refl _, Nat.le_succ _, ?_⟩
        · simp only [redirectEmits_append, redirectEmits]
        · intro h o ho
          simp only [initCalls_append, initCalls, List.append_nil] at ho
          exact h o ho
      · obtain ⟨e1, he1, ha1, hc1⟩ := processRedirect_advances response c d.2
        exact ⟨e1, he1, ha1, hc1, (processRedirect_engine response c d.2).2.2.2.2.2.2.2⟩
    obtain ⟨e1, he1, ha1, hc1, hi1⟩ := hstep
    refine ⟨e1 + e2, by rw [he2, he1]; omega, Redirect.advances_trans _ _ _ _ _ ha1 ha2, ?_,
      fun h => hi2 (hi1 h)⟩
    simp only [List.length_cons]
    omega

/-- What one call of `onResponse` does to the engine's bookkeeping, for every predicate:
the engine advances by the `redirect` events emitted, and every `init` call recorded
carries options that `onRequest` ignores. -/
theorem onResponse_advances (s : State) (response : Response) :
    s.redirect.advances (onResponse s response).state.redirect
      (redirectEmits (onResponse s response).events) ∧
    (∀ o ∈ initCalls (onResponse s response).events, ∀ self, onRequest self o = self) ∧
    ((s.redirect.allowRedirect.length ≤ 1 ∨
      (s.redirect.allowRedirect.delivers (redirectTo s response).1.request response).length
        ≤ 1) →
      (onResponse s response).state.redirect.redirectsFollowed ≤
        s.redirect.redirectsFollowed + 1) := by
  have hr := redirectTo_redirect s response
  have hstay : ∀ es : List Event, redirectEmits es = 0 → initCalls es = [] →
      s.redirect.advances (redirectTo s response).1.redirect (redirectEmits es) ∧
      (∀ o ∈ initCalls es, ∀ self, onRequest self o = self) ∧
      ((s.redirect.allowRedirect.length ≤ 1 ∨
        (s.redirect.allowRedirect.delivers (redirectTo s response).1.request response).length
          ≤ 1) →
        (redirectTo s response).1.redirect.redirectsFollowed ≤
          s.redirect.redirectsFollowed + 1) := by
    intro es he hi
    rw [hr, he, hi]
    refine ⟨Redirect.advances_refl _, ?_, fun _ => Nat.le_succ _⟩
    intro o ho
    exact absurd ho (List.not_mem_nil o)
  have hproc : ∀ (t : Target) (v : JSValue),
      s.redirect.advances (processRedirect response
        { state := (redirectTo s response).1, redirectTo := t } v).state.redirect
        (redirectEmits (processRedirect response
          { state := (redirectTo s response).1, redirectTo := t } v).events) ∧
      (∀ o ∈ initCalls (processRedirect response
          { state := (redirectTo s response).1, redirectTo := t } v).events,
        ∀ self, onRequest self o = self) ∧
      ((s.redirect.allowRedirect.length ≤ 1 ∨
        (s.redirect.allowRedirect.delivers (redirectTo s response).1.request response).length
          ≤ 1) →
        (processRedirect response
          { state := (redirectTo s response).1, redirectTo := t } v).state.redirect.redirectsFollowed
          ≤ s.redirect.redirectsFollowed + 1) := by
    intro t v
    obtain ⟨e, he, ha, hc⟩ := processRedirect_advances response
      { state := (redirectTo s response).1, redirectTo := t } v
    simp only [hr] at ha hc
    have he0 : redirectEmits (processRedirect response
        { state := (redirectTo s response).1, redirectTo := t } v).events = e := by
      rw [he]; simp [redirectEmits]
    rw [he0]
    refine ⟨ha, ?_, fun _ => hc⟩
    apply (processRedirect_engine response _ v).2.2.2.2.2.2.2
    intro o ho
    exact absurd ho (List.not_mem_nil o)
  have hfold : ∀ (t : Target),
      s.redirect.advances (List.foldl (deliver response)
        { state := (redirectTo s response).1, redirectTo := t }
        ((redirectTo s response).1.redirect.allowRedirect.delivers
          (redirectTo s response).1.request response)).state.redirect
        (redirectEmits (List.foldl (deliver response)
          { state := (redirectTo s response).1, redirectTo := t }
          ((redirectTo s response).1.redirect.allowRedirect.delivers
            (redirectTo s response).1.request response)).events) ∧
      (∀ o ∈ initCalls (List.foldl (deliver response)
          { state := (redirectTo s response).1, redirectTo := t }
          ((redirectTo s response).1.redirect.allowRedirect.delivers
            (redirectTo s response).1.request response)).events,
        ∀ self, onRequest self o = self) ∧
      (((redirectTo s response).1.redirect.allowRedirect.delivers
          (redirectTo s response).1.request response).length ≤ 1 →
        (List.foldl (deliver response)
          { state := (redirectTo s response).1, redirectTo := t }
          ((redirectTo s response).1.redirect.allowRedirect.delivers
            (redirectTo s response).1.request response)).state.redirect.redirectsFollowed
          ≤ s.redirect.redirectsFollowed + 1) := by
    intro t
    obtain ⟨e, he, ha, hc, hi⟩ := foldl_deliver_advances response
      ((redirectTo s response).1.redirect.allowRedirect.delivers
        (redirectTo s response).1.request response)
      { state := (redirectTo s response).1, redirectTo := t }
    have he0 : redirectEmits (List.foldl (deliver response)
        { state := (redirectTo s response).1, redirectTo := t }
        ((redirectTo s response).1.redirect.allowRedirect.delivers
          (redirectTo s response).1.request response)).events = e := by
      rw [he]; simp [redirectEmits]
    rw [he0]
    have hcnt := congrArg Redirect.redirectsFollowed hr
    refine ⟨by rw [← hr]; exact ha, ?_, ?_⟩
    · apply hi
      intro o ho
      exact absurd ho (List.not_mem_nil o)
    · intro hone
      simp only at hc
      omega
  unfold onResponse
  simp only
  split
  · exact hstay _ rfl rfl
  · split
    · exact hstay _ rfl rfl
    · split
      · next hlen =>
        rw [hr] at hlen
        refine ⟨(hfold _).1, (hfold _).2.1, fun hone => ?_⟩
        rcases hone with h | h
        · omega
        · exact (hfold _).2.2 (by rw [hr]; exact h)
      · split
        · exact hstay _ rfl rfl
        · exact hproc _ _
        · exact hstay _ rfl rfl
        · exact hstay _ rfl rfl
        · exact hproc _ _


/-! ## Form reconstruction -/

theorem resetFormData_eq (acc : List FormParam) (p : FormParam) :
    resetFormData acc p.key p.value p.options =
      acc ++ (if p.value.isStream then
          p.value.filePath.map (fun path => { p with value := .reopened path })
        else some p).toList := by
  unfold resetFormData
  cases hv : p.value with
  | plain v =>
    simp only [FormValue.isStream, Bool.false_eq_true, if_false, Option.toList]
    cases p
    simp only at hv
    subst hv
    rfl
  | stream ownFd path =>
    cases path with
    | none => simp [FormValue.isStream, FormValue.filePath]
    | some q =>
      by_cases hq : ownFd = true ∧ q ≠ ""
      · simp [FormValue.isStream, FormValue.filePath, hq]
      · simp only [FormValue.isStream, FormValue.filePath, if_neg hq, if_true,
          Option.map_none', Option.toList, List.append_nil]
  | reopened q =>
    by_cases hq : q ≠ ""
    · simp [FormValue.isStream, FormValue.filePath, hq]
    · simp only [FormValue.isStream, FormValue.filePath, if_neg hq, if_true,
        Option.map_none', Option.toList, List.append_nil]

/-- The loop of `processRedirect` over `request.formData` builds the list that the
specification describes. -/
theorem foldl_resetFormData (fd : List (Option FormParam)) :
    ∀ acc : List FormParam,
      fd.foldl (fun acc formParam =>
        match formParam with
        | none => acc
        | some p => resetFormData acc p.key p.value p.options) acc =
      acc ++ rebuiltFormData fd := by
  induction fd with
  | nil => intro acc; simp [rebuiltFormData]
  | cons e es ih =>
    intro acc
    rw [List.foldl_cons, ih]
    cases e with
    | none => simp [rebuiltFormData]
    | some p =>
      simp only [resetFormData_eq, rebuiltFormData, List.filterMap_cons]
      cases hsel : (if p.value.isStream = true then
          Option.map (fun path => ({ p with value := FormValue.reopened path } : FormParam))
            p.value.filePath
        else some p) with
      | none => simp
      | some q => simp

theorem switchMethod_retained (self : Redirect) (statusCode : Nat) (request : Request)
    (h : self.followOriginalHttpMethod = true ∨ statusCode = 401 ∨ statusCode = 307 ∨
      statusCode = 308) :
    switchMethod self statusCode request = request := by
  unfold switchMethod
  rw [if_neg]
  intro hc
  rcases h with h | h | h | h
  · rw [h] at hc; exact absurd hc.1 (by decide)
  · exact hc.2.1 h
  · exact hc.2.2.1 h
  · exact hc.2.2.2 h

/-- The request that reaches the form step of `processRedirect` when the body is retained:
its form data and form instance are those of the request, and its headers hold what the
request's held under every name other than Host and Authorization. -/
theorem applyRedirect_retained (self : Redirect) (statusCode : Nat) (u : Uri)
    (request : Request)
    (hkeep : self.followOriginalHttpMethod = true ∨ statusCode = 401 ∨ statusCode = 307 ∨
      statusCode = 308) :
    ∃ before : Request,
      before.formData = request.formData ∧ before._form = request._form ∧
      (∀ m, lower m ≠ "host" → lower m ≠ "authorization" →
        before.headers.entries m = request.headers.entries m) ∧
      applyRedirect self statusCode u request =
        (setReferer self request.uri (restoreFormData before).1, (restoreFormData before).2) := by
  refine ⟨clearTransport (stripHostHeaders self request.uri
    (dropAgent self request.uri { request with uri := u })), ?_, ?_, ?_, ?_⟩
  · show (stripHostHeaders self request.uri
      (dropAgent self request.uri { request with uri := u })).formData = request.formData
    rw [(stripHostHeaders_fields _ _ _).2.2.2.2.1, (dropAgent_fields _ _ _).2.2.2.2.2.1]
  · rw [(clearTransport_fields _).2.2.2.1, (stripHostHeaders_fields _ _ _).2.2.2.1,
      (dropAgent_fields _ _ _).2.2.2.2.1]
  · intro m h1 h2
    rw [(clearTransport_fields _).2.2.2.2, stripHostHeaders_entries _ _ _ _ h1 h2,
      (dropAgent_fields _ _ _).1]
  · unfold applyRedirect
    simp only
    rw [switchMethod_retained _ _ _ hkeep]

theorem restoreFormData_rebuilt (request : Request) (fd : List (Option FormParam))
    (f : Form) (hfd : request.formData = some fd) (hform : request._form = some f)
    (hrel : f._released = true) (hstreams : f._streams = some 0) :
    restoreFormData request =
      ((({ request with _form := none } : Request).removeHeader "content-type").removeHeader
        "content-length", { formData := some (rebuiltFormData fd) }) := by
  unfold restoreFormData
  rw [hfd, hform]
  simp only [hrel, hstreams, and_self, if_true]
  rw [foldl_resetFormData]
  rfl

theorem restoreFormData_not_rebuilt (request : Request) (f : Form)
    (hform : request._form = some f)
    (hnot : ¬(f._released = true ∧ f._streams = some 0)) :
    restoreFormData request = (request, {}) := by
  unfold restoreFormData
  rw [hform]
  cases request.formData with
  | none => rfl
  | some fd => simp only [if_neg hnot]

theorem setReferer_entries (self : Redirect) (uriPrev : Uri) (request : Request)
    (m : String) (hm : lower m ≠ "referer") :
    (setReferer self uriPrev request).headers.entries m = request.headers.entries m := by
  unfold setReferer
  split
  · rfl
  · simp only [Request.setHeader]
    exact Headers.entries_set _ _ _ _ (by rw [lower_literals.2.2.2.2]; exact hm)

/-- C28: for a followed redirect that retains the body (followOriginalHttpMethod, or status
401, 307 or 308) of a request with formData and a form instance. If the form is released
and has no pending streams, the request is left without a Content-Type and a
Content-Length header (in any letter case) and without the form instance, and init is
handed the rebuilt formData list: the original list in its order, without falsy entries and
without streams that are not file-backed, with file-backed streams reopened on their path
and every other entry unchanged. Otherwise init is handed no formData, the form instance
stays, and what the request holds under Content-Type and Content-Length is kept. -/
theorem processRedirect_rebuilds_form (response : Response) (c : Ctx) (v : JSValue)
    (t : Target) (u : Uri) (fd : List (Option FormParam)) (f : Form)
    (hv : v.truthy = true)
    (hlim : (c.state.redirect.redirectsFollowed : Int) < c.state.redirect.maxRedirects)
    (hparse : resolveTarget c.state.request (overridden v c.redirectTo) = (t, some u))
    (hkeep : c.state.redirect.followOriginalHttpMethod = true ∨ response.statusCode = 401 ∨
      response.statusCode = 307 ∨ response.statusCode = 308)
    (hfd : c.state.request.formData = some fd) (hform : c.state.request._form = some f) :
    (f._released = true ∧ f._streams = some 0 →
      (∀ m, lower m = "content-type" ∨ lower m = "content-length" →
        (processRedirect response c v).state.request.headers.has m = none) ∧
      (processRedirect response c v).state.request._form = none ∧
      initCalls (processRedirect response c v).events =
        initCalls c.events ++ [{ formData := some (rebuiltFormData fd) }]) ∧
    (¬(f._released = true ∧ f._streams = some 0) →
      (∀ m, lower m = "content-type" ∨ lower m = "content-length" →
        (processRedirect response c v).state.request.headers.entries m =
          c.state.request.headers.entries m) ∧
      (processRedirect response c v).state.request._form = some f ∧
      initCalls (processRedirect response c v).events =
        initCalls c.events ++ [({} : Options)]) := by
  obtain ⟨before, hbfd, hbform, hbh, happ⟩ :=
    applyRedirect_retained c.state.redirect response.statusCode u c.state.request hkeep
  rw [processRedirect_followed response c v t u hv hlim hparse, happ]
  have hinit : ∀ o : Options,
      initCalls ((if response.resume then c.events ++ [.resume] else c.events) ++
        [.emitRedirect, .init o, .callback none true]) = initCalls c.events ++ [o] := by
    intro o
    cases response.resume <;> simp [initCalls_append, initCalls]
  have hnames : ∀ m, lower m = "content-type" ∨ lower m = "content-length" →
      lower m ≠ "referer" ∧ lower m ≠ "host" ∧ lower m ≠ "authorization" := by
    intro m hm
    rcases hm with hm | hm <;> rw [hm] <;> decide
  constructor
  · intro hrel
    rw [restoreFormData_rebuilt before fd f (by rw [hbfd]; exact hfd)
      (by rw [hbform]; exact hform) hrel.1 hrel.2]
    refine ⟨?_, ?_, hinit _⟩
    · intro m hm
      apply setReferer_has_none _ _ _ _ (hnames m hm).1
      simp only [Request.removeHeader]
      rcases hm with hm | hm
      · exact Headers.has_del_of_none _ _ _
          (Headers.has_del_self _ _ _ (by rw [hm, lower_literals.2.2.1]))
      · exact Headers.has_del_self _ _ _ (by rw [hm, lower_literals.2.2.2.1])
    · simp only
      rw [(setReferer_fields _ _ _).2.2.2.1]
      rfl
  · intro hnot
    rw [restoreFormData_not_rebuilt before f (by rw [hbform]; exact hform) hnot]
    refine ⟨?_, ?_, hinit _⟩
    · intro m hm
      simp only
      rw [setReferer_entries _ _ _ _ (hnames m hm).1,
        hbh m (hnames m hm).2.1 (hnames m hm).2.2]
    · simp only
      rw [(setReferer_fields _ _ _).2.2.2.1, hbform, hform]

theorem processRedirect_rebuilds_form_witness :
    (processRedirect (sampleResponse 307) (formCtx releasedForm)
      (.bool true)).state.request._form = none ∧
    initCalls (processRedirect (sampleResponse 307) (formCtx releasedForm)
      (.bool true)).events =
      [{ formData := some
          [{ key := "name", value := .plain "postman" },
           { key := "file", value := .reopened "/tmp/a.txt", options := some "text" }] }] :=
  have h := (processRedirect_rebuilds_form (sampleResponse 307) (formCtx releasedForm)
    (.bool true) (.str "http://localhost/temp_landing")
    { href := "http://localhost/temp_landing", protocol := some "http:",
      hostname := some "localhost" }
    sampleFormData releasedForm (by decide) (by decide) (by decide) (by decide) rfl rfl).1
    ⟨rfl, rfl⟩
  ⟨h.2.1, h.2.2⟩


theorem foldl_onRequest_fixed (os : List Options) :
    ∀ self : Redirect, (∀ o ∈ os, ∀ self, onRequest self o = self) →
      os.foldl onRequest self = self := by
  induction os with
  | nil => intro self _; rfl
  | cons o os ih =>
    intro self h
    rw [List.foldl_cons, h o (List.mem_cons_self _ _)]
    exact ih self (fun o' ho' => h o' (List.mem_cons_of_mem _ ho'))

/-- The re-run of `init` after a call of `onResponse` leaves the engine as the call left
it: the options it is given hold at most `formData`. -/
theorem next_redirect (between : Request → Request) (s : State) (response : Response) :
    (next between s response).redirect = (onResponse s response).state.redirect := by
  unfold next reinit
  exact foldl_onRequest_fixed _ _ (onResponse_advances s response).2.1

/-- Along any sequence of responses the engine advances by the `redirect` events emitted. -/
theorem runState_advances (between : Request → Request) :
    ∀ (rs : List Response) (s : State),
      s.redirect.advances (runState between s rs).redirect (chainEmits between s rs) := by
  intro rs
  induction rs with
  | nil => intro s; exact Redirect.advances_refl _
  | cons r rs ih =>
    intro s
    simp only [runState, chainEmits]
    have h1 := (onResponse_advances s r).1
    rw [← next_redirect between s r] at h1
    exact Redirect.advances_trans _ _ _ _ _ h1 (ih (next between s r))

/-- The value left in redirectTo by the try block, spelled out: the override of a string
verdict, as it is when it starts with http: or https:, and resolved otherwise (when resolve
throws, the unresolved value stays). -/
theorem resolveTarget_overridden_fst (request : Request) (v : JSValue) (candidate : Target) :
    (resolveTarget request (overridden v candidate)).1 =
      (if ("http:".data.isPrefixOf
            (match (match v with
              | .str override => Target.str override
              | _ => candidate) with
            | .str x => x
            | .uri u => u.toString).data ||
          "https:".data.isPrefixOf
            (match (match v with
              | .str override => Target.str override
              | _ => candidate) with
            | .str x => x
            | .uri u => u.toString).data) = true then
        (match v with
          | .str override => Target.str override
          | _ => candidate)
      else
        match request.urlParser.resolve request.uri.href
          (match v with
            | .str override => Target.str override
            | _ => candidate) with
        | some r => .str r
        | none =>
          (match v with
            | .str override => Target.str override
            | _ => candidate)) := by
  have ho : overridden v candidate =
      (match v with
        | .str override => Target.str override
        | _ => candidate) := by
    cases v <;> rfl
  rw [← ho]
  generalize overridden v candidate = target
  unfold resolveTarget
  have hu : isUrl target =
      ("http:".data.isPrefixOf
          (match target with
            | .str x => x
            | .uri u => u.toString).data ||
        "https:".data.isPrefixOf
          (match target with
            | .str x => x
            | .uri u => u.toString).data) := by
    cases target <;> rfl
  rw [← hu]
  by_cases h : isUrl target = true
  · rw [if_pos h, if_pos h]
  · rw [if_neg h, if_neg h]
    cases request.urlParser.resolve request.uri.href target <;> rfl

/-- A followed hop appends its record. -/
theorem admitted_step_record (s : State) (response : Response)
    (hadm : admitted s response = true) (hparse : parseable s response = true)
    (hlim : (s.redirect.redirectsFollowed : Int) < s.redirect.maxRedirects) :
    (onResponse s response).state.redirect.redirects =
      s.redirect.redirects ++ hopRecord s response ∧
    (hopRecord s response).map (fun record => record.statusCode) = [response.statusCode] := by
  obtain ⟨t, v, hcand, ht, hver, hv⟩ := (admitted_iff s response).mp hadm
  have hp : ∃ u, resolveTarget (redirectTo s response).1.request (overridden v t) =
      ((resolveTarget (redirectTo s response).1.request (overridden v t)).1, some u) := by
    unfold parseable at hparse
    simp only [hcand, hver] at hparse
    obtain ⟨u, hu⟩ := Option.isSome_iff_exists.mp hparse
    exact ⟨u, Prod.ext rfl hu⟩
  obtain ⟨u, hres⟩ := hp
  obtain ⟨hst, _⟩ := onResponse_of_verdict s response t v hcand ht hver
  have hlim2 : (((redirectTo s response).1.redirect.redirectsFollowed : Nat) : Int) <
      (redirectTo s response).1.redirect.maxRedirects := by
    rw [redirectTo_redirect]; exact hlim
  have hfol := processRedirect_followed response
    { state := (redirectTo s response).1, redirectTo := t } v _ u hv hlim2 hres
  rw [hfol] at hst
  simp only [redirectTo_redirect] at hst
  have hrec : hopRecord s response =
      [{ statusCode := response.statusCode,
         redirectUri :=
          (resolveTarget (redirectTo s response).1.request (overridden v t)).1 }] := by
    unfold hopRecord
    rw [hcand, hver, resolveTarget_overridden_fst]
  rw [hrec, hst]
  exact ⟨rfl, rfl⟩

theorem chain_records (between : Request → Request) (m : Nat) :
    ∀ (rs : List Response) (s : State),
      s.redirect.maxRedirects = (m : Int) → s.redirect.redirectsFollowed + rs.length ≤ m →
      chainAdmitted between s rs = true →
      (runState between s rs).redirect.redirects =
        s.redirect.redirects ++ chainRecords between s rs ∧
      (chainRecords between s rs).map (fun record => record.statusCode) =
        rs.map (fun response => response.statusCode) := by
  intro rs
  induction rs with
  | nil =>
    intro s _ _ _
    simp [runState, chainRecords]
  | cons r rs ih =>
    intro s hm hlen hchain
    simp only [chainAdmitted, Bool.and_eq_true] at hchain
    obtain ⟨⟨hadm, hparse⟩, hrest⟩ := hchain
    simp only [List.length_cons] at hlen
    have hlim : (s.redirect.redirectsFollowed : Int) < s.redirect.maxRedirects := by
      rw [hm]; exact_mod_cast (by omega : s.redirect.redirectsFollowed < m)
    obtain ⟨_, _, _, hnk, hnm⟩ := admitted_step between s r hadm hparse hlim
    obtain ⟨hrec, hcode⟩ := admitted_step_record s r hadm hparse hlim
    obtain ⟨ih1, ih2⟩ := ih (next between s r) (by rw [hnm, hm]) (by rw [hnk]; omega) hrest
    simp only [runState, chainRecords, List.map_append, List.map_cons]
    rw [ih1, next_redirect, hrec, hcode, ih2, List.append_assoc]
    exact ⟨rfl, rfl⟩

/-- C27: the redirects list is append-only. Along a chain of followed redirects (each
admitted, with a target that parses, within the hop limit) the list is the list before the
chain followed by one record for each hop, in hop order, each with the status of its
redirecting response and the resolved target after any override. For every state and
every predicate, onResponse keeps the earlier records as a prefix and appends exactly one
record for each redirect event it emits, so a rejected or failed redirect leaves the list
as it was; redirectTo, onRequest and the re-run of init leave the list as it is. -/
theorem redirects_append_only (between : Request → Request) (m : Nat) (s : State)
    (rs : List Response)
    (hmax : s.redirect.maxRedirects = (m : Int))
    (hcount : s.redirect.redirectsFollowed + rs.length ≤ m)
    (hchain : chainAdmitted between s rs = true) :
    (runState between s rs).redirect.redirects =
      s.redirect.redirects ++ chainRecords between s rs ∧
    (chainRecords between s rs).length = rs.length ∧
    (chainRecords between s rs).map (fun record => record.statusCode) =
      rs.map (fun response => response.statusCode) ∧
    (∀ (q : State) (response : Response),
      q.redirect.redirects <+: (onResponse q response).state.redirect.redirects ∧
      (onResponse q response).state.redirect.redirects.length =
        q.redirect.redirects.length + redirectEmits (onResponse q response).events ∧
      (redirectEmits (onResponse q response).events = 0 →
        (onResponse q response).state.redirect.redirects = q.redirect.redirects) ∧
      (redirectTo q response).1.redirect.redirects = q.redirect.redirects ∧
      (next between q response).redirect.redirects =
        (onResponse q response).state.redirect.redirects) ∧
    (∀ (self : Redirect) (options : Options),
      (onRequest self options).redirects = self.redirects) := by
  obtain ⟨h1, h2⟩ := chain_records between m rs s hmax hcount hchain
  refine ⟨h1, ?_, h2, ?_, fun self options => (onRequest_redirectsFollowed self options).2⟩
  · have := congrArg List.length h2
    simpa using this
  · intro q response
    obtain ⟨_, _, hpre, hlen, _, _⟩ := (onResponse_advances q response).1
    refine ⟨hpre, by omega, ?_, by rw [redirectTo_redirect], by rw [next_redirect]⟩
    intro h0
    exact (List.IsPrefix.eq_of_length hpre (by omega)).symm

theorem redirects_append_only_witness :
    ((runState id (sampleState "GET") [sampleResponse 302]).redirect.redirects =
      (sampleState "GET").redirect.redirects ++
        chainRecords id (sampleState "GET") [sampleResponse 302] ∧
    (chainRecords id (sampleState "GET") [sampleResponse 302]).length = 1 ∧
    chainRecords id (sampleState "GET") [sampleResponse 302] =
      [{ statusCode := 302, redirectUri := .str "http://localhost/temp_landing" }]) ∧
    ((runState id (predicateState overridePredicate) [sampleResponse 302]).redirect.redirects =
      (predicateState overridePredicate).redirect.redirects ++
        chainRecords id (predicateState overridePredicate) [sampleResponse 302] ∧
    chainRecords id (predicateState overridePredicate) [sampleResponse 302] =
      [{ statusCode := 302, redirectUri := .str "http://localhost/perm" }] ∧
    (runState id (predicateState overridePredicate) [sampleResponse 302]).redirect.redirects =
      [{ statusCode := 302, redirectUri := .str "http://localhost/perm" }]) :=
  have h := redirects_append_only id 10 (sampleState "GET") [sampleResponse 302] rfl
    (by decide) (by decide)
  have k := redirects_append_only id 10 (predicateState overridePredicate)
    [sampleResponse 302] rfl (by decide) (by decide)
  ⟨⟨h.1, h.2.1, by decide⟩, ⟨k.1, by decide, by decide⟩⟩

/-- C29 (counterexample): an admission predicate that calls its callback twice: one call of
onResponse from the constructor state runs processRedirect twice, raises redirectsFollowed
from 0 to 2 and emits two redirect events. -/
theorem onResponse_twice_callback :
    (predicateState twiceCallback).redirect.redirectsFollowed = 0 ∧
    (onResponse (predicateState twiceCallback)
      (sampleResponse 302)).state.redirect.redirectsFollowed = 2 ∧
    redirectEmits (onResponse (predicateState twiceCallback) (sampleResponse 302)).events = 2 ∧
    (onResponse (predicateState twiceCallback)
      (sampleResponse 302)).state.redirect.redirects.length = 2 := by
  decide

/-- C29 (amended): from a state with redirectsFollowed 0, no records and a non-negative
maxRedirects, after any sequence of onResponse calls (whatever the predicate and the rest
of the lifecycle do): maxRedirects is unchanged, redirects.length <= redirectsFollowed <=
maxRedirects, and the hops followed so far (redirect events, 401 re-sends included) are
as many as the records, so at most maxRedirects. In the next call the counter does not
decrease and grows by at least one for each hop followed; when the predicate returns its
verdict or calls back at most once, it grows by at most one, and by exactly one if a hop
is followed. -/
theorem engine_invariant (between : Request → Request) (s : State) (rs : List Response)
    (response : Response)
    (hfresh : s.redirect.redirectsFollowed = 0) (hempty : s.redirect.redirects = [])
    (hmax : 0 ≤ s.redirect.maxRedirects) :
    (runState between s rs).redirect.maxRedirects = s.redirect.maxRedirects ∧
    (runState between s rs).redirect.redirects.length ≤
      (runState between s rs).redirect.redirectsFollowed ∧
    ((runState between s rs).redirect.redirectsFollowed : Int) ≤ s.redirect.maxRedirects ∧
    chainEmits between s rs = (runState between s rs).redirect.redirects.length ∧
    (chainEmits between s rs : Int) ≤ s.redirect.maxRedirects ∧
    (runState between s rs).redirect.redirectsFollowed ≤
      (onResponse (runState between s rs) response).state.redirect.redirectsFollowed ∧
    (runState between s rs).redirect.redirectsFollowed +
        redirectEmits (onResponse (runState between s rs) response).events ≤
      (onResponse (runState between s rs) response).state.redirect.redirectsFollowed ∧
    (((runState between s rs).redirect.allowRedirect.length ≤ 1 ∨
      ((runState between s rs).redirect.allowRedirect.delivers
        (redirectTo (runState between s rs) response).1.request response).length ≤ 1) →
      (onResponse (runState between s rs) response).state.redirect.redirectsFollowed ≤
        (runState between s rs).redirect.redirectsFollowed + 1 ∧
      (0 < redirectEmits (onResponse (runState between s rs) response).events →
        (onResponse (runState between s rs) response).state.redirect.redirectsFollowed =
          (runState between s rs).redirect.redirectsFollowed + 1)) := by
  obtain ⟨a1, _, _, a4, _, a6⟩ := runState_advances between rs s
  obtain ⟨b1, b2⟩ := a6 ⟨by rw [hempty, hfresh]; exact Nat.le_refl _,
    by rw [hfresh]; exact_mod_cast hmax⟩
  rw [a1] at b2
  rw [hempty] at a4
  simp only [List.length_nil, Nat.add_zero] at a4
  obtain ⟨⟨_, c2, _, c4, c5, _⟩, _, c7⟩ := onResponse_advances (runState between s rs) response
  refine ⟨a1, b1, b2, a4, ?_, c2, by omega, ?_⟩
  · rw [a4]
    have : ((runState between s rs).redirect.redirects.length : Int) ≤
        ((runState between s rs).redirect.redirectsFollowed : Int) := by exact_mod_cast b1
    omega
  · intro hone
    have hle := c7 hone
    exact ⟨hle, fun hpos => by omega⟩

theorem engine_invariant_witness :
    (runState id challengedState [sampleResponse 401, sampleResponse 401]).redirect.redirects.length
      ≤ (runState id challengedState
        [sampleResponse 401, sampleResponse 401]).redirect.redirectsFollowed ∧
    ((runState id challengedState
      [sampleResponse 401, sampleResponse 401]).redirect.redirectsFollowed : Int) ≤
      challengedState.redirect.maxRedirects ∧
    chainEmits id challengedState [sampleResponse 401, sampleResponse 401] = 2 ∧
    (runState id challengedState
      [sampleResponse 401, sampleResponse 401]).redirect.redirectsFollowed = 2 :=
  have h := engine_invariant id challengedState [sampleResponse 401, sampleResponse 401]
    (sampleResponse 401) rfl rfl (by decide)
  ⟨h.2.1, h.2.2.1, by decide, by decide⟩


/-! ## The base URL -/

theorem indexOf_zero_iff (s : String) (c : Char) :
    indexOf s c = 0 ↔ s.data.head? = some c := by
  unfold indexOf
  cases hs : s.data with
  | nil => simp
  | cons a l =>
    by_cases hac : a = c
    · subst hac
      simp [List.indexOf_cons]
    · have hne : (a == c) = false := by simpa using hac
      by_cases hmem : c ∈ l
      · simp [List.indexOf_cons, hne, hmem, hac]
        omega
      · simp [hmem, hac, Ne.symm hac]

theorem lastIndexOf_last_iff (s : String) (c : Char) (hs : s ≠ "") :
    lastIndexOf s c = (s.data.length : Int) - 1 ↔ s.data.getLast? = some c := by
  have hne : s.data ≠ [] := by
    intro h
    exact hs (String.ext h)
  unfold lastIndexOf
  rw [List.getLast?_eq_head?_reverse]
  have hrev : s.data.reverse ≠ [] := by simpa using hne
  have hlen : 0 < s.data.length := List.length_pos.mpr hne
  cases hr : s.data.reverse with
  | nil => exact absurd hr hrev
  | cons a l =>
    have hmem : c ∈ s.data ↔ c ∈ a :: l := by rw [← hr, List.mem_reverse]
    by_cases hac : a = c
    · subst hac
      have : a ∈ s.data := hmem.mpr (List.mem_cons_self _ _)
      simp [this, List.indexOf_cons]
    · have hne2 : (a == c) = false := by simpa using hac
      by_cases hcl : c ∈ l
      · have : c ∈ s.data := hmem.mpr (List.mem_cons_of_mem _ hcl)
        simp [this, List.indexOf_cons, hne2, hac]
        omega
      · have : c ∉ s.data := by
          rw [hmem]
          simp [hcl, Ne.symm hac]
        simp [this, hac]
        have hlen2 : 0 < s.length := hlen
        omega


theorem getLast_append_singleton (l : List Char) (c : Char) (h : l.getLast? = some c) :
    l = l.dropLast ++ [c] := by
  have hne : l ≠ [] := by
    intro hn
    rw [hn] at h
    simp at h
  have := List.dropLast_append_getLast hne
  rw [List.getLast?_eq_getLast _ hne] at h
  simp only [Option.some.injEq] at h
  rw [h] at this
  exact this.symm

theorem dropTrailingSlash_append (s : String) (h : s.data.getLast? = some '/') :
    dropTrailingSlash s ++ "/" = s := by
  unfold dropTrailingSlash
  rw [if_pos h]
  apply String.ext
  rw [String.data_append]
  exact (getLast_append_singleton s.data '/' h).symm

theorem dropLeadingSlash_append (s : String) (h : s.data.head? = some '/') :
    "/" ++ dropLeadingSlash s = s ∧ slice1 s = dropLeadingSlash s := by
  unfold dropLeadingSlash slice1
  rw [if_pos h]
  cases hs : s.data with
  | nil => rw [hs] at h; simp at h
  | cons a l =>
    rw [hs] at h
    simp only [List.head?_cons, Option.some.injEq] at h
    subst h
    refine ⟨?_, rfl⟩
    apply String.ext
    rw [String.data_append, hs]
    rfl

/-- What the baseUrl block computes: for every non-empty string baseUrl and every string
uri that is a path (it does not start with // and is not of the form scheme://...), the
uri becomes baseUrl without one trailing /, a /, and uri without one leading / (just
baseUrl when uri is empty), and baseUrl is removed. -/
theorem initBaseUrl_drops_one_slash (baseUrl uri : String) (hbase : baseUrl ≠ "")
    (hpath : startsWith uri "//" = false ∧ isSchemeUrl uri = false) :
    initBaseUrl { uri := .str uri, baseUrl := .str baseUrl } =
      .ok { uri := .str (joinDroppingOneSlash baseUrl uri), baseUrl := .undefined } := by
  unfold initBaseUrl
  have htruthy : (JSValue.str baseUrl).truthy = true := by simp [JSValue.truthy, hbase]
  simp only [htruthy, if_true, hpath.1, hpath.2, Bool.or_self, Bool.false_eq_true, if_false]
  congr 2
  unfold joinDroppingOneSlash
  have hb := lastIndexOf_last_iff baseUrl '/' hbase
  have hu := indexOf_zero_iff uri '/'
  by_cases hbs : baseUrl.data.getLast? = some '/'
  · have hb1 : lastIndexOf baseUrl '/' = (baseUrl.data.length : Int) - 1 := hb.mpr hbs
    by_cases hus : uri.data.head? = some '/'
    · have hu1 : indexOf uri '/' = 0 := hu.mpr hus
      have hune : uri ≠ "" := by
        intro h
        rw [h] at hus
        simp at hus
      simp only [hb1, hu1, decide_True, Bool.and_self, if_true, if_neg hune]
      rw [dropTrailingSlash_append baseUrl hbs, (dropLeadingSlash_append uri hus).2]
    · have hu1 : ¬ indexOf uri '/' = 0 := fun h => hus (hu.mp h)
      simp only [hb1, hu1, decide_True, decide_False, Bool.and_false, Bool.or_false,
        Bool.false_eq_true, if_true, if_false]
      by_cases hune : uri = ""
      · rw [if_pos hune, hune]
        simp
      · rw [if_neg hune, dropTrailingSlash_append baseUrl hbs]
        unfold dropLeadingSlash
        rw [if_neg hus]
  · have hb1 : ¬ lastIndexOf baseUrl '/' = (baseUrl.data.length : Int) - 1 :=
      fun h => hbs (hb.mp h)
    have hdrop : dropTrailingSlash baseUrl = baseUrl := by
      unfold dropTrailingSlash
      rw [if_neg hbs]
    by_cases hus : uri.data.head? = some '/'
    · have hu1 : indexOf uri '/' = 0 := hu.mpr hus
      have hune : uri ≠ "" := by
        intro h
        rw [h] at hus
        simp at hus
      simp only [hb1, hu1, decide_True, decide_False, Bool.false_and, Bool.false_or,
        Bool.false_eq_true, if_true, if_false, if_neg hune, hdrop]
      rw [String.append_assoc, (dropLeadingSlash_append uri hus).1]
    · have hu1 : ¬ indexOf uri '/' = 0 := fun h => hus (hu.mp h)
      have hlead : dropLeadingSlash uri = uri := by
        unfold dropLeadingSlash
        rw [if_neg hus]
      simp only [hb1, hu1, decide_False, Bool.false_and, Bool.or_self, Bool.false_eq_true,
        if_false, hdrop, hlead]

theorem initBaseUrl_drops_one_slash_witness :
    initBaseUrl { uri := .str "/get", baseUrl := .str "http://localhost/api/" } =
      .ok { uri := .str (joinDroppingOneSlash "http://localhost/api/" "/get"),
            baseUrl := .undefined } ∧
    joinDroppingOneSlash "http://localhost/api/" "/get" = "http://localhost/api/get" :=
  ⟨initBaseUrl_drops_one_slash "http://localhost/api/" "/get" (by decide) (by decide),
    by decide⟩

theorem trimLeadingSlashes_eq (uri : String) (h : startsWith uri "//" = false) :
    trimLeadingSlashes uri = dropLeadingSlash uri := by
  unfold trimLeadingSlashes dropLeadingSlash
  unfold startsWith at h
  cases hs : uri.data with
  | nil =>
    apply String.ext
    simp [hs]
  | cons a l =>
    rw [hs] at h
    by_cases ha : a = '/'
    · subst ha
      cases l with
      | nil => simp
      | cons b l =>
        have hb : b ≠ '/' := by
          intro hb
          subst hb
          simp [List.isPrefixOf] at h
        simp [hb]
    · have hne : ¬ (some a = some '/') := fun h => ha (Option.some.inj h)
      apply String.ext
      simp [hs, ha]

theorem trimTrailingSlashes_eq (s : String)
    (h : startsWith ⟨s.data.reverse⟩ "//" = false) :
    trimTrailingSlashes s = dropTrailingSlash s := by
  unfold trimTrailingSlashes dropTrailingSlash
  unfold startsWith at h
  have hs : s.data = s.data.reverse.reverse := by simp
  rw [List.getLast?_eq_head?_reverse]
  have hd : s.data.dropLast = s.data.reverse.tail.reverse := by
    rw [List.tail_reverse, List.reverse_reverse]
  rw [hd]
  revert h
  simp only
  cases hr : s.data.reverse with
  | nil =>
    intro _
    apply String.ext
    have : s.data = [] := by simpa using hr
    simp [this]
  | cons a l =>
    intro h
    by_cases ha : a = '/'
    · subst ha
      cases l with
      | nil => simp
      | cons b l =>
        have hb : b ≠ '/' := by
          intro hb
          subst hb
          simp [List.isPrefixOf] at h
        simp [hb]
    · apply String.ext
      have hrr : s.data = (a :: l).reverse := by rw [← hr]; simp
      simp [ha, hrr]

/-- Where the code and the one-slash reading agree: when baseUrl does not end in two
slashes, the baseUrl block of init sets the uri to baseUrl followed by uri with exactly
one / at the junction. -/
theorem initBaseUrl_one_slash (baseUrl uri : String) (hbase : baseUrl ≠ "")
    (hpath : startsWith uri "//" = false ∧ isSchemeUrl uri = false)
    (hend : startsWith ⟨baseUrl.data.reverse⟩ "//" = false) :
    initBaseUrl { uri := .str uri, baseUrl := .str baseUrl } =
      .ok { uri := .str (joinWithOneSlash baseUrl uri), baseUrl := .undefined } := by
  have hj : joinWithOneSlash baseUrl uri = joinDroppingOneSlash baseUrl uri := by
    unfold joinWithOneSlash joinDroppingOneSlash
    rw [trimLeadingSlashes_eq uri hpath.1, trimTrailingSlashes_eq baseUrl hend]
  rw [hj]
  exact initBaseUrl_drops_one_slash baseUrl uri hbase hpath

theorem initBaseUrl_one_slash_witness :
    initBaseUrl { uri := .str "/get", baseUrl := .str "http://localhost/api/" } =
      .ok { uri := .str (joinWithOneSlash "http://localhost/api/" "/get"),
            baseUrl := .undefined } ∧
    joinWithOneSlash "http://localhost/api/" "/get" = "http://localhost/api/get" ∧
    joinWithOneSlash "http://localhost/api" "get" = "http://localhost/api/get" ∧
    joinWithOneSlash "http://localhost/api" "" = "http://localhost/api" :=
  ⟨initBaseUrl_one_slash "http://localhost/api/" "/get" (by decide) (by decide) (by decide),
    by decide, by decide, by decide⟩

/-- C22 (failing input): baseUrl http://a// is a non-empty string and uri b is a path, and
the baseUrl block removes no slash: the uri becomes http://a//b, with two slashes between
baseUrl and uri, where exactly one slash at the junction gives http://a/b. The block
removes at most one slash of baseUrl. -/
theorem initBaseUrl_two_slashes :
    ("http://a//" : String) ≠ "" ∧
    startsWith "b" "//" = false ∧ isSchemeUrl "b" = false ∧
    initBaseUrl { uri := .str "b", baseUrl := .str "http://a//" } =
      .ok { uri := .str "http://a//b", baseUrl := .undefined } ∧
    initBaseUrl { uri := .str "/b", baseUrl := .str "http://a//" } =
      .ok { uri := .str "http://a//b", baseUrl := .undefined } ∧
    joinWithOneSlash "http://a//" "b" = "http://a/b" :=
  ⟨by decide, by decide, by decide, rfl, rfl, by decide⟩

/-! ## The Host header -/

theorem Headers.entries_nil_of_has_none (h : Headers) (n : String) (hn : h.has n = none) :
    h.entries n = [] := by
  unfold Headers.entries
  rw [List.filter_eq_nil_iff]
  intro kv hkv
  have := (Headers.has_eq_none_iff h n).mp hn kv hkv
  simpa using this

theorem Headers.set_of_has_none (h : Headers) (n v : String) (hn : h.has n = none) :
    h.set n v = h ++ [(n, v)] := by
  unfold Headers.set
  rw [hn]

theorem Headers.set_set_of_has_none (h : Headers) (n v w : String) (hn : h.has n = none) :
    (h.set n v).set n w = h ++ [(n, w)] := by
  rw [Headers.set_of_has_none h n v hn]
  have hhas : (h ++ [(n, v)]).has n = some n := by
    unfold Headers.has at hn ⊢
    rw [List.find?_append]
    simp only [Option.map_eq_none'] at hn
    rw [hn]
    simp
  unfold Headers.set
  rw [hhas]
  simp only [List.map_append, List.map_cons, List.map_nil, if_true]
  congr 1
  have hall : ∀ kv ∈ h, kv.1 ≠ n := by
    intro kv hkv hc
    have := (Headers.has_eq_none_iff h n).mp hn kv hkv
    exact this (by rw [hc])
  conv_rhs => rw [← List.map_id h]
  apply List.map_congr_left
  intro kv hkv
  simp [hall kv hkv]

theorem Headers.get_append_new (h : Headers) (n v m : String) (hn : h.has n = none)
    (hm : lower m = lower n) : (h ++ [(n, v)]).get m = some v := by
  unfold Headers.get
  rw [List.filter_append]
  have hnil : h.filter (fun kv => lower kv.1 == lower m) = [] := by
    have := Headers.entries_nil_of_has_none h n hn
    unfold Headers.entries at this
    rw [hm]
    exact this
  rw [hnil]
  simp [hm]

theorem isDefaultPort_truthy (uri : Uri) (h : isDefaultPort uri = true) :
    truthyStr uri.port = true := by
  unfold isDefaultPort at h
  simp only [Bool.or_eq_true, Bool.and_eq_true, decide_eq_true_eq] at h
  rcases h with h | h <;> rw [h.1] <;> decide

theorem hostHeaderName_default (r : Request) (h : r.originalHostHeaderName = none) :
    hostHeaderName r = "Host" := by
  unfold hostHeaderName
  rw [h]
  rfl

/-- C25: in init, when the request has no Host header in any letter case and setHost is
undefined or truthy, the header is added under the name Host (or under the remembered
spelling of Host) with the hostname of the URI, without a port, exactly when the port of the
URI is 80 with http: or 443 with https:, and with the host of the URI (which includes the
port, and is the bare host when there is no port) otherwise; nothing else is changed. When
a Host header is present in any letter case, or setHost is defined and falsy, the headers
are left as they are. -/
theorem initHost_sets_host (r : Request) :
    ((r.headers.has "host" = none ∧ (r.setHost = .undefined ∨ r.setHost.truthy = true)) →
      lower (hostHeaderName r) = "host" →
      r.initHost.headers = r.headers ++ [(hostHeaderName r,
        if isDefaultPort r.uri then r.uri.hostname.getD "" else r.uri.host.getD "")] ∧
      r.initHost.headers.get "host" =
        some (if isDefaultPort r.uri then r.uri.hostname.getD "" else r.uri.host.getD "")) ∧
    ((r.headers.has "host").isSome = true → r.initHost.headers = r.headers) ∧
    ((r.setHost ≠ .undefined ∧ r.setHost.truthy = false) →
      r.initHost.headers = r.headers) ∧
    (r.originalHostHeaderName = none →
      hostHeaderName r = "Host" ∧ lower (hostHeaderName r) = "host") := by
  refine ⟨?_, ?_, ?_, ?_⟩
  · rintro ⟨hno, hset⟩ hname
    have hnone : r.headers.has (hostHeaderName r) = none := by
      rw [Headers.has_congr r.headers (hostHeaderName r) "host"
        (by rw [hname, lower_literals.1])]
      exact hno
    have hon : (decide (r.setHost = .undefined) || r.setHost.truthy) = true := by
      rcases hset with h | h
      · simp [h]
      · simp [h]
    have hheaders : r.initHost.headers = r.headers ++ [(hostHeaderName r,
        if isDefaultPort r.uri then r.uri.hostname.getD "" else r.uri.host.getD "")] := by
      unfold Request.initHost
      simp only [hon, hno, Option.isNone_none, and_self, if_true, Request.setHeader]
      have hn2 : hostHeaderName { r with setHost := JSValue.bool true } = hostHeaderName r :=
        rfl
      rw [hn2]
      cases hd : isDefaultPort r.uri with
      | true =>
        simp only [isDefaultPort_truthy r.uri hd, if_true]
        exact Headers.set_set_of_has_none _ _ _ _ hnone
      | false =>
        simp only [Bool.false_eq_true, if_false, ite_self]
        exact Headers.set_of_has_none _ _ _ hnone
    refine ⟨hheaders, ?_⟩
    rw [hheaders]
    exact Headers.get_append_new _ _ _ _ hnone (by rw [hname, lower_literals.1])
  · intro hhas
    unfold Request.initHost
    have : ¬ ((r.headers.has "host").isNone = true) := by
      rw [Option.isNone_iff_eq_none]
      intro hc
      rw [hc] at hhas
      exact absurd hhas (by decide)
    simp only [this, Bool.false_eq_true, false_and, if_false]
  · rintro ⟨hdef, hfalsy⟩
    unfold Request.initHost
    have hoff : (decide (r.setHost = .undefined) || r.setHost.truthy) = false := by
      simp [hdef, hfalsy]
    simp only [hoff, Bool.false_eq_true, and_false, if_false]
  · intro h
    have := hostHeaderName_default r h
    exact ⟨this, by rw [this]; decide⟩

theorem initHost_sets_host_witness :
    defaultPortRequest.initHost.headers = [("accept", "*/*"), ("Host", "localhost")] ∧
    otherPortRequest.initHost.headers = [("accept", "*/*"), ("Host", "localhost:8080")] :=
  ⟨((initHost_sets_host defaultPortRequest).1 ⟨by decide, Or.inl rfl⟩ (by decide)).1,
   ((initHost_sets_host otherPortRequest).1 ⟨by decide, Or.inl rfl⟩ (by decide)).1⟩


/-! ## The deferred send step -/

theorem Headers.has_set_isSome (h : Headers) (n v m : String) (hm : lower m = lower n) :
    ((h.set n v).has m).isSome = true := by
  obtain ⟨k, hk, _⟩ := Headers.set_has_lookup h n v
  rw [Headers.has_congr _ m n hm, hk]
  rfl

/-- C21: in the deferred send step, for a request that has no form, no chunked multipart
body, no body, no requestBodyStream, no piped source, no Content-Length header and no
pending authentication challenge: the request is ended exactly once and nothing is piped
or written; a Content-Length header with the value 0 is set if and only if the method is
defined and is none of GET, HEAD, TRACE, DELETE, CONNECT and OPTIONS, and otherwise the
headers are left as they are. -/
theorem deferredEnd_content_length (r : Sending) (formPipeThrows : Option Error)
    (onPipe : Sending → Sending)
    (hform : r._form = false) (hmultipart : r.multipartChunked = false)
    (hbody : r.body = none ∨ r.body = some (.text ""))
    (hstream : r.requestBodyStream = false) (hsrc : r.src = false)
    (hlength : r.headers.has "content-length" = none)
    (hauth : ¬ (r.hasAuth = true ∧ r.sentAuth = false)) :
    (deferredEnd r formPipeThrows onPipe).2 = [.end_] ∧
    (deferredEnd r formPipeThrows onPipe).1 =
      (if isBodylessMethod r.method then r
        else { r with headers := r.headers.set "Content-Length" "0" }) ∧
    (((deferredEnd r formPipeThrows onPipe).1.headers.has "content-length").isSome = true ↔
      isBodylessMethod r.method = false) ∧
    (isBodylessMethod r.method = false →
      (deferredEnd r formPipeThrows onPipe).1.headers.get "content-length" = some "0") := by
  have hnoauth : ¬ ((r.hasAuth = true ∧ ¬ r.sentAuth = true) ∨
      (r.headers.has "content-length").isSome = true) := by
    rw [hlength]
    intro hc
    rcases hc with hc | hc
    · exact hauth ⟨hc.1, by simpa using hc.2⟩
    · exact absurd hc (by decide)
  have hend : endWithoutBody r =
      (if isBodylessMethod r.method then r
        else { r with headers := r.headers.set "Content-Length" "0" }, [.end_]) := by
    unfold endWithoutBody
    rw [if_neg hnoauth]
    cases isBodylessMethod r.method <;> rfl
  have hbodyEnd : endBody r onPipe = endWithoutBody r := by
    unfold endBody
    rcases hbody with hb | hb
    · rw [hb]
      simp only [hstream, hsrc, Bool.false_eq_true, if_false]
    · rw [hb]
      simp only [SendBody.truthy, ne_eq, not_true_eq_false, decide_False, hstream, hsrc,
        Bool.false_eq_true, if_false]
  have hmain : deferredEnd r formPipeThrows onPipe = endWithoutBody r := by
    unfold deferredEnd
    simp only [hform, hmultipart, Bool.false_eq_true, false_and, if_false, List.nil_append,
      hbodyEnd]
  rw [hmain, hend]
  refine ⟨rfl, rfl, ?_, ?_⟩
  · cases hm : isBodylessMethod r.method with
    | true =>
      simp only [if_true, hlength]
      decide
    | false =>
      simp only [Bool.false_eq_true, if_false, iff_true]
      exact Headers.has_set_isSome _ _ _ _ (by decide)
  · intro hm
    simp only [hm, Bool.false_eq_true, if_false]
    rw [Headers.get_congr _ "content-length" "Content-Length" (by decide)]
    exact Headers.set_get_unique _ _ _ (by
      unfold Headers.uniqueName
      rw [Headers.entries_congr _ "Content-Length" "content-length" (by decide),
        Headers.entries_nil_of_has_none _ _ hlength]
      exact Nat.zero_le _)

theorem deferredEnd_content_length_witness :
    (deferredEnd emptyPost none id).2 = [.end_] ∧
    (deferredEnd emptyPost none id).1.headers = [("accept", "*/*"), ("Content-Length", "0")] ∧
    (deferredEnd { emptyPost with method := some "GET" } none id).1.headers =
      [("accept", "*/*")] :=
  ⟨(deferredEnd_content_length emptyPost none id rfl rfl (Or.inl rfl) rfl rfl (by decide)
      (by decide)).1,
    by decide, by decide⟩


/-! ## The response body -/

theorem binaryChunks_cons (c : Chunk) (cs : List Chunk) :
    binaryChunks (c :: cs) =
      (match c with
        | .buffer bytes => if bytes.length ≠ 0 then [bytes] else []
        | .text _ => []) ++ binaryChunks cs := by
  unfold binaryChunks
  cases c with
  | text s => simp [List.filterMap_cons]
  | buffer bytes =>
    cases bytes with
    | nil => simp [List.filterMap_cons]
    | cons x xs => simp [List.filterMap_cons]

theorem textChunks_cons (c : Chunk) (cs : List Chunk) :
    textChunks (c :: cs) =
      (match c with
        | .text s => [s]
        | .buffer _ => []) ++ textChunks cs := by
  unfold textChunks
  cases c with
  | text s => simp [List.filterMap_cons]
  | buffer bytes => simp [List.filterMap_cons]

theorem foldl_readData (chunks : List Chunk) :
    ∀ b : BodyBuffers,
      (chunks.foldl readData b).buffers = b.buffers ++ binaryChunks chunks ∧
      (chunks.foldl readData b).strings = b.strings ++ textChunks chunks ∧
      (chunks.foldl readData b).bufferLength =
        b.bufferLength + (binaryChunks chunks).flatten.length := by
  induction chunks with
  | nil => intro b; simp [binaryChunks, textChunks]
  | cons c cs ih =>
    intro b
    rw [List.foldl_cons, binaryChunks_cons, textChunks_cons]
    obtain ⟨h1, h2, h3⟩ := ih (readData b c)
    rw [h1, h2, h3]
    cases c with
    | text s =>
      simp only [readData, List.nil_append, List.append_assoc, List.singleton_append]
      exact ⟨trivial, trivial, trivial⟩
    | buffer bytes =>
      by_cases hb : bytes.length = 0
      · simp only [readData, hb, ne_eq, not_true_eq_false, if_false, List.nil_append]
        exact ⟨trivial, trivial, trivial⟩
      · simp only [readData, hb, ne_eq, not_false_eq_true, if_true, List.append_assoc,
          List.singleton_append, List.nil_append, List.flatten_cons, List.length_append]
        exact ⟨trivial, trivial, by omega⟩

theorem binaryChunks_flatten_length (chunks : List Chunk) :
    (binaryChunks chunks).flatten.length = 0 ↔ binaryChunks chunks = [] := by
  constructor
  · intro h
    cases hb : binaryChunks chunks with
    | nil => rfl
    | cons x xs =>
      exfalso
      have hx : x ∈ binaryChunks chunks := by rw [hb]; exact List.mem_cons_self _ _
      unfold binaryChunks at hx
      obtain ⟨c, _, hc⟩ := List.mem_filterMap.mp hx
      have hlen : x.length ≠ 0 := by
        cases c with
        | text s => simp at hc
        | buffer bytes =>
          simp only at hc
          split at hc
          · next hne =>
            simp only [Option.some.injEq] at hc
            rw [← hc]
            exact hne
          · exact absurd hc (by simp)
      rw [hb] at h
      simp only [List.flatten_cons, List.length_append] at h
      omega
  · intro h
    rw [h]
    rfl

/-- The body that `readEnd` computes before the JSON step is the one described from the
chunks. -/
theorem readEnd_rawBody (encoding : JSValue) (decode : JSValue → List Nat → String)
    (chunks : List Chunk) :
    (if (chunks.foldl readData {}).bufferLength ≠ 0 then
        if encoding ≠ .null then
          BodyValue.text (decode encoding (chunks.foldl readData {}).buffers.flatten)
        else .buffer (chunks.foldl readData {}).buffers.flatten
      else if (chunks.foldl readData {}).strings.length ≠ 0 then
        .text (String.join (stripByteOrderMark encoding (chunks.foldl readData {}).strings))
      else .undefined) = rawBody encoding decode chunks := by
  obtain ⟨h1, h2, h3⟩ := foldl_readData chunks {}
  simp only [List.nil_append, Nat.zero_add] at h1 h2 h3
  rw [h1, h2, h3]
  unfold rawBody
  by_cases hb : binaryChunks chunks = []
  · have hl : (binaryChunks chunks).flatten.length = 0 :=
      (binaryChunks_flatten_length chunks).mpr hb
    simp only [hb, List.flatten_nil, List.length_nil, ne_eq, not_true_eq_false, if_false]
    by_cases ht : textChunks chunks = []
    · simp only [ht, List.length_nil, ne_eq, not_true_eq_false, if_false]
    · have htl : ¬ (textChunks chunks).length = 0 := by simpa using ht
      simp only [htl, ht, ne_eq, not_false_eq_true, if_true]
  · have hl : ¬ (binaryChunks chunks).flatten.length = 0 :=
      fun h => hb ((binaryChunks_flatten_length chunks).mp h)
    simp only [hl, hb, ne_eq, not_false_eq_true, if_true]

/-- C24 (counterexample): with the encoding utf8 and no JSON parse, an empty binary chunk
followed by the text chunk ab gives the body ab, not the (empty) concatenation of the
binary chunks; an empty text chunk followed by a text chunk that starts with the byte-order
mark keeps the mark; and with the encoding null and no chunk at all the body is an empty
buffer, not the empty string. -/
theorem readResponseBody_edge_chunks :
    readResponseBody false (.str "utf8") false sampleDecode (fun _ => none)
      [.buffer [], .text "ab"] = some (.text "ab") ∧
    sampleDecode (.str "utf8") ([[]] : List (List Nat)).flatten = "" ∧
    readResponseBody false (.str "utf8") false sampleDecode (fun _ => none)
      [.text "", .text ⟨[byteOrderMark, 'a']⟩] = some (.text ⟨[byteOrderMark, 'a']⟩) ∧
    readResponseBody false .null false sampleDecode (fun _ => none) [] =
      some (.buffer []) := by
  decide

/-- C24 (amended): on end of a request that is not aborted, for every sequence of chunks,
complete is emitted with this body: if a binary chunk that is not empty was seen, the
concatenation in arrival order of the binary chunks, decoded with the encoding unless the
encoding is null, the text chunks being ignored; otherwise, if a text chunk was seen, the
text chunks joined in arrival order, a byte-order mark at the start of the first text
chunk being removed when the encoding is the string utf8; otherwise nothing. If a JSON
parse was requested the body is the parsed value, or stays that raw value when the parse
throws; if none was requested and nothing was received, the body is the empty string, or
an empty buffer when the encoding is null. On end of an aborted request nothing is
emitted. -/
theorem readResponseBody_body (encoding : JSValue) (json : Bool)
    (decode : JSValue → List Nat → String) (jsonParse : BodyValue → Option String)
    (chunks : List Chunk) :
    readResponseBody false encoding json decode jsonParse chunks =
      some (if json then
          match jsonParse (rawBody encoding decode chunks) with
          | some value => .json value
          | none => rawBody encoding decode chunks
        else if rawBody encoding decode chunks = .undefined then
          if encoding = .null then .buffer [] else .text ""
        else rawBody encoding decode chunks) ∧
    readResponseBody true encoding json decode jsonParse chunks = none := by
  constructor
  · unfold readResponseBody readEnd
    simp only [Bool.false_eq_true, if_false]
    rw [readEnd_rawBody encoding decode chunks]
    cases json with
    | true =>
      simp only [if_true, Bool.true_eq_false, and_false, if_false]
    | false =>
      simp only [Bool.false_eq_true, if_false, and_true]
  · unfold readResponseBody readEnd
    simp only [if_true]


end PostmanRequest
